import Mathlib

/-!
NFT Solitario score backend: the `/submit` and `/top` handlers.

A shallow embedding of `solitaire-backend/src/index.js` (the Cloudflare worker
that authenticates score submissions) together with theorems about it.

Modelling conventions.

* JavaScript numbers that the handler manipulates are integers of magnitude
  below `2 ^ 53` (all inputs are clamped to `[0, 1_000_000_000]`), so integer
  arithmetic is exact and is modelled on `Int`.  The two places where a
  non-integer double constant is involved (`raw * 0.65`, `moves * 0.35`) are
  modelled bit-exactly: the constant is the dyadic rational that the literal
  denotes, and the product is rounded to 53 significant bits, ties to even.
* The D1 database is a record of four tables, each a list of rows.  Every SQL
  statement of the handler is a function on these lists.
* `verifyMessage` (from `ethers`) and `sha256Hex` (Web Crypto) are parameters.
* `nowMs()` and SQLite's `datetime('now')` are read from an explicit `Clock`.
* SQL comparisons of `TEXT` values follow the `BINARY` collation: the
  lexicographic order of the code points.  `ORDER BY` is a stable sort, so rows
  that tie on every sort key keep their table order.
-/

namespace NftSolitario

/-! ## JavaScript numbers -/

/-- A finite JavaScript number of the form `num / 2 ^ exp`. -/
structure Dyadic where
  num : Int
  exp : Nat
deriving DecidableEq, Repr

/-- The rational value of a dyadic number. -/
def Dyadic.toRat (x : Dyadic) : ℚ := (x.num : ℚ) / (2 : ℚ) ^ x.exp

/-- The double denoted by the literal `0.65`, that is `0x1.4cccccccccccdp-1`. -/
def double_0_65 : Dyadic := ⟨5854679515581645, 53⟩

/-- The double denoted by the literal `0.35`, that is `0x1.6666666666666p-2`. -/
def double_0_35 : Dyadic := ⟨3152519739159347, 53⟩

/-- The double denoted by the literal `1`. -/
def double_1 : Dyadic := ⟨1, 0⟩

/-- Number of low-order bits that have to be dropped from `n` so that at most
53 significant bits remain (`fuel` bounds the recursion; `n` itself is enough). -/
def excessBits : Nat → Nat → Nat
  | 0, _ => 0
  | fuel + 1, n => if n < 9007199254740992 then 0 else excessBits fuel (n / 2) + 1

/-- IEEE-754 round-to-nearest, ties-to-even, of a natural significand to 53
significant bits.  The result is again a natural number on the same scale. -/
def roundSignificand (n : Nat) : Nat :=
  let s := excessBits n n
  let q := n / 2 ^ s
  let r := n % 2 ^ s
  if s = 0 then n
  else if 2 ^ s < 2 * r ∨ (2 * r = 2 ^ s ∧ q % 2 = 1) then (q + 1) * 2 ^ s
  else q * 2 ^ s

/-- JavaScript `n * c` for an integer-valued double `n` and a double `c`:
the exact product rounded to the nearest double. -/
def jsMul (n : Int) (c : Dyadic) : Dyadic :=
  let p := n * c.num
  ⟨if p < 0 then -((roundSignificand p.natAbs : Nat) : Int)
            else ((roundSignificand p.natAbs : Nat) : Int), c.exp⟩

/-- JavaScript `Math.floor`. -/
def mathFloor (x : Dyadic) : Int := x.num / (2 : Int) ^ x.exp

/-- JavaScript `x | 0`, the ToInt32 conversion: truncate towards zero, reduce
modulo `2 ^ 32`, and read the result as a signed 32-bit integer. -/
def toInt32 (x : Dyadic) : Int :=
  let k := (Int.tdiv x.num ((2 : Int) ^ x.exp)) % 4294967296
  if 2147483648 ≤ k then k - 4294967296 else k

/-- `clampInt(n, min, max)`.  The argument is `none` for a non-finite number
(`NaN`, `Infinity`) and `some k` for a finite one whose `Math.trunc` is `k`. -/
def clampInt (n : Option Int) (lo hi : Int) : Int :=
  match n with
  | none => lo
  | some k => max lo (min hi k)

/-! ## Strings -/

/-- The characters matched by `[a-fA-F0-9]`. -/
def isHexChar (c : Char) : Bool :=
  ('0' ≤ c && c ≤ '9') || ('a' ≤ c && c ≤ 'f') || ('A' ≤ c && c ≤ 'F')

/-- The characters matched by `\d`. -/
def isDigitChar (c : Char) : Bool := '0' ≤ c && c ≤ '9'

/-- `isHexWallet(w)`: the regular expression `^0x[a-fA-F0-9]{40}$`. -/
def isHexWallet (w : String) : Bool :=
  match w.data with
  | '0' :: 'x' :: rest => rest.length == 40 && rest.all isHexChar
  | _ => false

/-- `isHexSig(sig)`: the regular expression `^0x[0-9a-fA-F]{130}$`. -/
def isHexSig (sig : String) : Bool :=
  match sig.data with
  | '0' :: 'x' :: rest => rest.length == 130 && rest.all isHexChar
  | _ => false

/-- The day test of `/submit`: the regular expression `^\d{4}-\d{2}-\d{2}$`. -/
def isDay (day : String) : Bool :=
  match day.data with
  | [y1, y2, y3, y4, '-', m1, m2, '-', d1, d2] =>
      [y1, y2, y3, y4, m1, m2, d1, d2].all isDigitChar
  | _ => false

/-- White space and line terminators removed by `String.prototype.trim`. -/
def isJsWhitespace (c : Char) : Bool :=
  let n := c.toNat
  (9 ≤ n && n ≤ 13) || n == 32 || n == 160 || n == 5760 || (8192 ≤ n && n ≤ 8202)
    || n == 8232 || n == 8233 || n == 8239 || n == 8287 || n == 12288 || n == 65279

/-- `String.prototype.trim`. -/
def jsTrim (s : String) : String :=
  ⟨((s.data.dropWhile isJsWhitespace).reverse.dropWhile isJsWhitespace).reverse⟩

/-- `String.prototype.toLowerCase` on the Latin letters `A`-`Z`.  Every string
the handler compares after lower-casing is ASCII (a hex address, `normal`,
`easy`), and no non-ASCII character lower-cases to a hex digit, to `x`, or to
a letter of `normal` or `easy`, so the tests of the handler are unaffected. -/
def jsToLowerCase (s : String) : String := ⟨s.data.map Char.toLower⟩

/-- Decimal digits of a natural number, most significant first. -/
def natDigits : Nat → Nat → List Char
  | 0, _ => []
  | fuel + 1, n =>
      if n < 10 then [Nat.digitChar n]
      else natDigits fuel (n / 10) ++ [Nat.digitChar (n % 10)]

/-- The string a template literal produces for an integer-valued number of
magnitude below `10 ^ 21` (the fuel `|n| + 1` covers every digit, also of `0`). -/
def jsNumberToString (n : Int) : String :=
  if n < 0 then ⟨'-' :: natDigits (n.natAbs + 1) n.natAbs⟩
  else ⟨natDigits (n.natAbs + 1) n.natAbs⟩

/-! ## Signed message and score proof -/

def SIGNING_APP_NAME : String := "NFT Solitario"

def SIGNING_DOMAIN : String := "nft-solitario"

def NONCE_TTL_MS : Int := 5 * 60 * 1000

/-- `buildScoreSignMessage` of `src/index.js`: seven labelled lines, and an
eighth `Mode:` line whenever `mode` is a non-empty string. -/
def buildScoreSignMessage (appName domain day : String) (score moves timeSeconds : Int)
    (nonce mode : String) : String :=
  let lines := [
    appName ++ " Score Submission",
    "Domain: " ++ domain,
    "Day: " ++ day,
    "Score: " ++ jsNumberToString score,
    "Moves: " ++ jsNumberToString moves,
    "TimeSeconds: " ++ jsNumberToString timeSeconds,
    "Nonce: " ++ nonce]
  let lines := if mode ≠ "" then lines ++ ["Mode: " ++ mode] else lines
  String.intercalate "\n" lines

/-- `buildScoreSignMessage` of `test/index.spec.js` and of
`scripts/submit-test-score.js`, with which the wallet signs: seven lines. -/
def buildScoreSignMessageClient (appName domain day : String) (score moves timeSeconds : Int)
    (nonce : String) : String :=
  String.intercalate "\n" [
    appName ++ " Score Submission",
    "Domain: " ++ domain,
    "Day: " ++ day,
    "Score: " ++ jsNumberToString score,
    "Moves: " ++ jsNumberToString moves,
    "TimeSeconds: " ++ jsNumberToString timeSeconds,
    "Nonce: " ++ nonce]

/-- `scoreMultiplierForMode`. -/
def scoreMultiplierForMode (mode : String) : Dyadic :=
  if mode = "easy" then double_0_65 else double_1

/-- `computeExpectedWinningScore`. -/
def computeExpectedWinningScore (moves timeSeconds : Int) (mode : String) : Int :=
  let base : Int := 1800
  let foundationBonus : Int := 52 * 35
  let winBonus : Int := 1200
  let raw := base - timeSeconds - (moves * 2) + foundationBonus + winBonus
  let scaled := jsMul raw (scoreMultiplierForMode mode)
  max 0 (toInt32 scaled)

/-- The move-rate threshold `Math.floor(moves * 0.35)` of the plausibility gate. -/
def minTimeForMoves (moves : Int) : Int := mathFloor (jsMul moves double_0_35)

/-! ## Database tables -/

/-- A row of `auth_nonces`; `used_at_ms` is `none` for SQL `NULL`. -/
structure NonceRow where
  wallet : String
  nonce : String
  ip_hash : String
  expires_at_ms : Int
  used_at_ms : Option Int
deriving DecidableEq, Repr

/-- A row of `scores` (primary key `wallet, day`). -/
structure ScoreRow where
  wallet : String
  day : String
  score : Int
  moves : Int
  time_seconds : Int
deriving DecidableEq, Repr

/-- A row of `score_runs`; `created_at` is the insertion time in seconds. -/
structure ScoreRunRow where
  wallet : String
  day : String
  score : Int
  moves : Int
  time_seconds : Int
  ip_hash : String
  created_at : Int
deriving DecidableEq, Repr

/-- A row of `rate_limits` (primary key `key`). -/
structure RateRow where
  key : String
  window_start : Int
  count : Int
deriving DecidableEq, Repr

/-- The D1 database `env.DB`. -/
structure DB where
  auth_nonces : List NonceRow
  scores : List ScoreRow
  score_runs : List ScoreRunRow
  rate_limits : List RateRow
deriving DecidableEq, Repr

/-! ## Rate limiter -/

/-- The object returned by `checkAndBumpRateLimit`. -/
structure RateResult where
  allowed : Bool
  remaining : Int
  resetMs : Int
deriving DecidableEq, Repr

/-- `INSERT INTO rate_limits (key, window_start, count) VALUES (?, ?, 1)
ON CONFLICT(key) DO UPDATE SET window_start = excluded.window_start, count = 1`. -/
def upsertRateWindow (rows : List RateRow) (key : String) (windowStart : Int) : List RateRow :=
  if rows.any (fun r => r.key = key) then
    rows.map (fun r => if r.key = key then { r with window_start := windowStart, count := 1 } else r)
  else rows ++ [⟨key, windowStart, 1⟩]

/-- `UPDATE rate_limits SET count = count + 1 WHERE key = ?`. -/
def bumpRateCount (rows : List RateRow) (key : String) : List RateRow :=
  rows.map (fun r => if r.key = key then { r with count := r.count + 1 } else r)

/-- `checkAndBumpRateLimit(env, { key, max, windowMs })`, with `now = nowMs()`. -/
def checkAndBumpRateLimit (rows : List RateRow) (now : Int) (key : String) (maxCount windowMs : Int) :
    List RateRow × RateResult :=
  let windowStart := now - Int.tmod now windowMs
  match rows.find? (fun r => r.key = key) with
  | none =>
      (upsertRateWindow rows key windowStart, ⟨true, maxCount - 1, windowStart + windowMs⟩)
  | some row =>
      if row.window_start ≠ windowStart then
        (upsertRateWindow rows key windowStart, ⟨true, maxCount - 1, windowStart + windowMs⟩)
      else
        let count := row.count
        if maxCount ≤ count then (rows, ⟨false, 0, windowStart + windowMs⟩)
        else (bumpRateCount rows key, ⟨true, maxCount - (count + 1), windowStart + windowMs⟩)

/-- The two request headers read by `getClientIP`; `none` is an absent header. -/
structure Headers where
  cfConnectingIP : Option String
  xForwardedFor : Option String
deriving DecidableEq, Repr

/-- `getClientIP(request)`. -/
def getClientIP (h : Headers) : String :=
  match h.cfConnectingIP with
  | some cf => if cf ≠ "" then cf else
      match h.xForwardedFor with
      | some xff => if xff ≠ "" then jsTrim ⟨xff.data.takeWhile (fun c => c != ',')⟩ else "0.0.0.0"
      | none => "0.0.0.0"
  | none =>
      match h.xForwardedFor with
      | some xff => if xff ≠ "" then jsTrim ⟨xff.data.takeWhile (fun c => c != ',')⟩ else "0.0.0.0"
      | none => "0.0.0.0"

/-- `applyRateLimits(env, request, walletLowerOrNull)`: `none` is `{ ok: true }`,
`some (scope, res)` is `{ ok: false, scope, ...res }`.  `nowIp` and `nowWallet`
are the two readings of `nowMs()`. -/
def applyRateLimits (rows : List RateRow) (nowIp nowWallet : Int) (ip wallet : String) :
    List RateRow × Option (String × RateResult) :=
  let windowMs : Int := 10 * 60 * 1000
  let ipKey := "ip:" ++ ip
  let ipRes := checkAndBumpRateLimit rows nowIp ipKey 30 windowMs
  if !ipRes.2.allowed then (ipRes.1, some ("ip", ipRes.2))
  else if wallet ≠ "" then
    let wKey := "wallet:" ++ wallet
    let wRes := checkAndBumpRateLimit ipRes.1 nowWallet wKey 10 windowMs
    if !wRes.2.allowed then (wRes.1, some ("wallet", wRes.2)) else (wRes.1, none)
  else (ipRes.1, none)

/-! ## The `/submit` handler -/

/-- The JSON body of a `/submit` request after the coercions of the handler:
a string field holds `String(body.f || "")` (so an absent or falsy field is
`""`), a numeric field holds `Number(body.f || 0)` in the encoding of
`clampInt`. -/
structure SubmitBody where
  wallet : String
  day : String
  mode : String
  score : Option Int
  moves : Option Int
  time_seconds : Option Int
  nonce : String
  signature : String
deriving DecidableEq, Repr

/-- A `POST /submit` request; `body = none` when `readJson` yields no object. -/
structure Request where
  headers : Headers
  body : Option SubmitBody
deriving DecidableEq, Repr

/-- The validated fields of a submission (the local constants `wallet`, `day`,
`mode`, `score`, `moves`, `timeSeconds`, `nonce`, `signature` of the handler). -/
structure Run where
  wallet : String
  day : String
  mode : String
  score : Int
  moves : Int
  timeSeconds : Int
  nonce : String
  signature : String
deriving DecidableEq, Repr

/-- The HTTP response of `/submit`: `badRequest(msg, status)`, the 429 answer
with its scope and `Retry-After` seconds, or the 200 answer. -/
inductive Response where
  | error (status : Nat) (msg : String)
  | rateLimited (scope : String) (resetInSec : Int)
  | accepted (updated : Bool) (best_score : Int) (your_score : Int)
deriving DecidableEq, Repr

/-- The external functions: `verifyMessage` of `ethers` (`none` when it throws)
and `sha256Hex`. -/
structure Env where
  verifyMessage : String → String → Option String
  sha256Hex : String → String

/-- The clock readings of one `/submit` request, in the order they are taken:
`nowMs()` in the two rate-limit checks, `nowMs()` for the `Retry-After` header,
`now` of the nonce check, and SQLite's `datetime('now')` in seconds. -/
structure Clock where
  ipLimit : Int
  walletLimit : Int
  retryAfter : Int
  nonce : Int
  sql : Int
deriving DecidableEq, Repr

/-- The stateless part of `/submit`: field extraction, format checks,
plausibility gate and score proof.  (Body of the handler up to the score check.) -/
def validateSubmit (req : Request) : Except Response Run :=
  match req.body with
  | none => .error (.error 400 "Invalid JSON body")
  | some body =>
    let wallet := jsToLowerCase (jsTrim body.wallet)
    if !isHexWallet wallet then .error (.error 400 "Invalid wallet") else
    let day := jsTrim body.day
    if !isDay day then .error (.error 400 "Invalid day (YYYY-MM-DD)") else
    let mode := jsToLowerCase (jsTrim (if body.mode = "" then "normal" else body.mode))
    if mode ≠ "normal" ∧ mode ≠ "easy" then .error (.error 400 "Invalid mode") else
    let score := clampInt body.score 0 1000000000
    let moves := clampInt body.moves 0 1000000000
    let timeSeconds := clampInt body.time_seconds 0 1000000000
    let nonce := jsTrim body.nonce
    let signature := jsTrim body.signature
    if nonce = "" then .error (.error 400 "Missing nonce") else
    if !isHexSig signature then .error (.error 400 "Invalid signature format") else
    if moves < 40 then .error (.error 422 "Implausible run: moves too low") else
    if timeSeconds < 30 then .error (.error 422 "Implausible run: time too low") else
    if timeSeconds < minTimeForMoves moves then
      .error (.error 422 "Implausible run: too fast for moves") else
    let expectedScore := computeExpectedWinningScore moves timeSeconds mode
    if score ≠ expectedScore then .error (.error 401 "Invalid score proof") else
    .ok ⟨wallet, day, mode, score, moves, timeSeconds, nonce, signature⟩

/-- `SELECT ... FROM auth_nonces WHERE wallet = ? AND nonce = ?` with `.first()`. -/
def selectNonce (rows : List NonceRow) (wallet nonce : String) : Option NonceRow :=
  rows.find? (fun r => r.wallet = wallet ∧ r.nonce = nonce)

/-- The `WHERE` clause of the nonce-consuming `UPDATE`. -/
def consumable (now : Int) (wallet nonce ipHash : String) (r : NonceRow) : Bool :=
  r.wallet = wallet ∧ r.nonce = nonce ∧ r.used_at_ms = none ∧ now ≤ r.expires_at_ms
    ∧ r.ip_hash = ipHash

/-- `UPDATE auth_nonces SET used_at_ms = ? WHERE wallet = ? AND nonce = ? AND
used_at_ms IS NULL AND expires_at_ms >= ? AND ip_hash = ?`; the second
component is `meta.changes`. -/
def consumeNonce (rows : List NonceRow) (now : Int) (wallet nonce ipHash : String) :
    List NonceRow × Nat :=
  (rows.map (fun r => if consumable now wallet nonce ipHash r then
      { r with used_at_ms := some now } else r),
   rows.countP (consumable now wallet nonce ipHash))

/-- `INSERT INTO score_runs ... SELECT ... WHERE NOT EXISTS (...)`: the run is
appended unless an identical row was created within the last 30 minutes. -/
def insertScoreRun (rows : List ScoreRunRow) (sqlNow : Int) (wallet day : String)
    (score moves timeSeconds : Int) (ipHash : String) : List ScoreRunRow :=
  if rows.any (fun r => r.wallet = wallet ∧ r.day = day ∧ r.score = score ∧ r.moves = moves
      ∧ r.time_seconds = timeSeconds ∧ sqlNow - 30 * 60 ≤ r.created_at) then rows
  else rows ++ [⟨wallet, day, score, moves, timeSeconds, ipHash, sqlNow⟩]

/-- `INSERT INTO scores ... ON CONFLICT(wallet, day) DO UPDATE SET score,
moves, time_seconds WHERE excluded.score > scores.score`; the second component
is `meta.changes`. -/
def upsertBest (rows : List ScoreRow) (wallet day : String) (score moves timeSeconds : Int) :
    List ScoreRow × Nat :=
  if rows.any (fun r => r.wallet = wallet ∧ r.day = day) then
    (rows.map (fun r => if r.wallet = wallet ∧ r.day = day ∧ r.score < score then
        { r with score := score, moves := moves, time_seconds := timeSeconds } else r),
     rows.countP (fun r => r.wallet = wallet ∧ r.day = day ∧ r.score < score))
  else (rows ++ [⟨wallet, day, score, moves, timeSeconds⟩], 1)

/-- `SELECT score AS best_score FROM scores WHERE wallet = ? AND day = ?` with
`.first()` (the whole row is returned here). -/
def selectScore (rows : List ScoreRow) (wallet day : String) : Option ScoreRow :=
  rows.find? (fun r => r.wallet = wallet ∧ r.day = day)

/-- `Math.max(1, Math.ceil((resetMs - nowMs()) / 1000))`. -/
def resetInSec (resetMs now : Int) : Int := max 1 (-((-(resetMs - now)) / 1000))

/-- The test `nonceRow.used_at_ms !== null && Number(nonceRow.used_at_ms) > 0`. -/
def NonceRow.usedPositive (r : NonceRow) : Bool :=
  match r.used_at_ms with
  | some t => decide (0 < t)
  | none => false

/-- The nonce check, signature check and writes of `/submit`, after the rate
limits have been applied (`ip` is `getClientIP(request)`). -/
def authorizeAndStore (env : Env) (clk : Clock) (db : DB) (ip : String) (run : Run) :
    DB × Response :=
  let ipHashHex := env.sha256Hex ip
  let now := clk.nonce
  match selectNonce db.auth_nonces run.wallet run.nonce with
  | none => (db, .error 401 "Invalid nonce")
  | some nonceRow =>
    if nonceRow.ip_hash ≠ ipHashHex then (db, .error 401 "Invalid nonce scope") else
    if nonceRow.usedPositive then (db, .error 401 "Nonce already used") else
    if nonceRow.expires_at_ms < now then (db, .error 401 "Nonce expired") else
    let signMessage := buildScoreSignMessage SIGNING_APP_NAME SIGNING_DOMAIN run.day
      run.score run.moves run.timeSeconds run.nonce run.mode
    match env.verifyMessage signMessage run.signature with
    | none => (db, .error 401 "Invalid signature")
    | some address =>
      let recovered := jsToLowerCase address
      if recovered ≠ run.wallet then (db, .error 401 "Invalid signature") else
      let nonceConsume := consumeNonce db.auth_nonces now run.wallet run.nonce ipHashHex
      let db := { db with auth_nonces := nonceConsume.1 }
      if ¬ (0 < nonceConsume.2) then (db, .error 401 "Nonce already used or expired") else
      let runs := insertScoreRun db.score_runs clk.sql run.wallet run.day run.score run.moves
        run.timeSeconds ipHashHex
      let db := { db with score_runs := runs }
      let up := upsertBest db.scores run.wallet run.day run.score run.moves run.timeSeconds
      let db := { db with scores := up.1 }
      let updated := decide (0 < up.2)
      let best := selectScore db.scores run.wallet run.day
      (db, .accepted updated (match best with | some r => r.score | none => run.score) run.score)

/-- The `POST /submit` branch of `fetch`: the new database and the response. -/
def submit (env : Env) (clk : Clock) (db : DB) (req : Request) : DB × Response :=
  match validateSubmit req with
  | .error resp => (db, resp)
  | .ok run =>
    let ip := getClientIP req.headers
    let rl := applyRateLimits db.rate_limits clk.ipLimit clk.walletLimit ip run.wallet
    let db := { db with rate_limits := rl.1 }
    match rl.2 with
    | some (scope, res) => (db, .rateLimited scope (resetInSec res.resetMs clk.retryAfter))
    | none => authorizeAndStore env clk db ip run

/-! ## Vocabulary of the properties -/

/-- The response is the 200 answer, i.e. the handler reached the writes to
`score_runs` and `scores`. -/
def Response.isAccepted : Response → Bool
  | .accepted _ _ _ => true
  | _ => false

/-- The rejection reasons of the nonce checks (read and conditional update). -/
def Response.isInvalidNonce (r : Response) : Bool :=
  r = .error 401 "Invalid nonce" ∨ r = .error 401 "Invalid nonce scope"
    ∨ r = .error 401 "Nonce already used" ∨ r = .error 401 "Nonce expired"
    ∨ r = .error 401 "Nonce already used or expired"

/-- The rejection reasons of the plausibility gate. -/
def Response.isImplausibleRun (r : Response) : Bool :=
  r = .error 422 "Implausible run: moves too low" ∨ r = .error 422 "Implausible run: time too low"
    ∨ r = .error 422 "Implausible run: too fast for moves"

/-- The request names the pair `(wallet, nonce)`: these are the values of the
handler's constants `wallet` and `nonce` for it. -/
def Request.names (req : Request) (wallet nonce : String) : Bool :=
  match req.body with
  | some b => jsToLowerCase (jsTrim b.wallet) = wallet ∧ jsTrim b.nonce = nonce
  | none => false

/-- Handling a finite sequence of `/submit` requests one after another. -/
def runAll (env : Env) : DB → List (Clock × Request) → DB × List Response
  | db, [] => (db, [])
  | db, (clk, req) :: rest =>
      let out := submit env clk db req
      let tail := runAll env out.1 rest
      (tail.1, out.2 :: tail.2)

/-- The constraint `UNIQUE(wallet, nonce)` of `auth_nonces`. -/
def NonceKeysUnique (rows : List NonceRow) : Prop :=
  rows.Pairwise (fun a b => ¬ (a.wallet = b.wallet ∧ a.nonce = b.nonce))

/-- The constraint `PRIMARY KEY (wallet, day)` of `scores`. -/
def ScoreKeysUnique (rows : List ScoreRow) : Prop :=
  rows.Pairwise (fun a b => ¬ (a.wallet = b.wallet ∧ a.day = b.day))

/-- The constants `wallet`, `day`, `mode`, `score`, `moves`, `timeSeconds`,
`nonce` and `signature` that `/submit` computes from the body. -/
def extractRun (body : SubmitBody) : Run :=
  ⟨jsToLowerCase (jsTrim body.wallet), jsTrim body.day,
   jsToLowerCase (jsTrim (if body.mode = "" then "normal" else body.mode)),
   clampInt body.score 0 1000000000, clampInt body.moves 0 1000000000,
   clampInt body.time_seconds 0 1000000000, jsTrim body.nonce, jsTrim body.signature⟩

/-- The format checks of `/submit`: identity, day, mode, nonce present,
signature format. -/
def WellFormed (run : Run) : Prop :=
  isHexWallet run.wallet = true ∧ isDay run.day = true
    ∧ (run.mode = "normal" ∨ run.mode = "easy")
    ∧ run.nonce ≠ "" ∧ isHexSig run.signature = true

/-- The run passes the plausibility gate of the handler. -/
def PassesGate (run : Run) : Prop :=
  40 ≤ run.moves ∧ 30 ≤ run.timeSeconds ∧ minTimeForMoves run.moves ≤ run.timeSeconds

/-- The score formula as the specification words it, over the rationals:
`max(0, floor(raw * multiplier))` with multiplier `0.65` for `easy`, else `1`. -/
def expectedScoreSpec (moves timeSeconds : Int) (mode : String) : Int :=
  max 0 ⌊(((1800 - timeSeconds - 2 * moves + 1820 + 1200 : Int) : ℚ)
    * (if mode = "easy" then 65 / 100 else 1))⌋

/-- The move-rate threshold as the specification words it: `floor(moves * 0.35)`
over the rationals. -/
def minTimeSpec (moves : Int) : Int := ⌊((moves : ℚ) * (35 / 100))⌋

/-- The message `/submit` passes to `verifyMessage` for a validated run. -/
def signMessageOf (run : Run) : String :=
  buildScoreSignMessage SIGNING_APP_NAME SIGNING_DOMAIN run.day run.score run.moves
    run.timeSeconds run.nonce run.mode

/-- The signature of the run recovers the claimed identity over the message
of the server. -/
def SignatureValid (env : Env) (run : Run) : Prop :=
  ∃ address, env.verifyMessage (signMessageOf run) run.signature = some address
    ∧ jsToLowerCase address = run.wallet

/-- The database after the three writes of an accepted submission. -/
def storeRun (env : Env) (clk : Clock) (db : DB) (ip : String) (run : Run) : DB :=
  { auth_nonces := (consumeNonce db.auth_nonces clk.nonce run.wallet run.nonce
      (env.sha256Hex ip)).1
    scores := (upsertBest db.scores run.wallet run.day run.score run.moves run.timeSeconds).1
    score_runs := insertScoreRun db.score_runs clk.sql run.wallet run.day run.score run.moves
      run.timeSeconds (env.sha256Hex ip)
    rate_limits := db.rate_limits }

/-- The 200 answer of an accepted submission. -/
def acceptedResponse (db : DB) (run : Run) : Response :=
  let up := upsertBest db.scores run.wallet run.day run.score run.moves run.timeSeconds
  .accepted (decide (0 < up.2))
    (match selectScore up.1 run.wallet run.day with | some r => r.score | none => run.score)
    run.score

/-- The window of the rate limiter that contains `now`. -/
def windowStartOf (now : Int) : Int := now - Int.tmod now (10 * 60 * 1000)

/-- The counter of `key` is below `maxCount` at time `now`: no row, a row of an
earlier window, or a row of the current window with `count < maxCount`. -/
def BelowLimit (rows : List RateRow) (now : Int) (key : String) (maxCount : Int) : Prop :=
  ∀ row, rows.find? (fun r => r.key = key) = some row →
    row.window_start = windowStartOf now → row.count < maxCount

/-! ## Example data (the scenario of `test/index.spec.js`) -/

def demoWallet : String := "0x00000000000000000000000000000000000000a1"

/-- The address as `verifyMessage` returns it (mixed case). -/
def demoAddress : String := "0x00000000000000000000000000000000000000A1"

def otherAddress : String := "0x00000000000000000000000000000000000000B2"

def demoSig : String := ⟨'0' :: 'x' :: List.replicate 130 '1'⟩

def demoNonce : String := "5f2c9a7e41d8b3060f1e2d3c4b5a6978"

def demoHeaders : Headers := ⟨some "1.2.3.4", none⟩

/-- The body of the accepting test: `moves = 55`, `timeSeconds = 300`, no mode. -/
def demoBody : SubmitBody :=
  ⟨demoAddress, "2026-02-20", "", some 4410, some 55, some 300, demoNonce, demoSig⟩

def demoReq : Request := ⟨demoHeaders, some demoBody⟩

/-- A signature made by the key of `otherAddress`. -/
def forgedSig : String := ⟨'0' :: 'x' :: List.replicate 130 '2'⟩

/-- A toy signature scheme: `demoSig` is the signature of `demoAddress` over
`signedMsg` (over any other message it recovers a different address), and
`forgedSig` is a signature of `otherAddress`; anything else makes
`verifyMessage` throw. -/
def demoEnvFor (signedMsg : String) : Env where
  verifyMessage := fun msg sig =>
    if sig = demoSig then (if msg = signedMsg then some demoAddress else some otherAddress)
    else if sig = forgedSig then some otherAddress
    else none
  sha256Hex := fun s => "sha256(" ++ s ++ ")"

def demoClock : Clock := ⟨1771545600000, 1771545600001, 1771545600002, 1771545600003, 1771545600⟩

/-- A database holding one fresh nonce issued to `demoWallet` from `1.2.3.4`. -/
def demoDb : DB :=
  ⟨[⟨demoWallet, demoNonce, "sha256(1.2.3.4)", 1771545900000, none⟩], [], [], []⟩

/-- The message the server verifies for `demoReq`. -/
def demoServerMsg : String :=
  buildScoreSignMessage SIGNING_APP_NAME SIGNING_DOMAIN "2026-02-20" 4410 55 300 demoNonce "normal"

/-- The message the test and the client script sign for `demoReq`. -/
def demoClientMsg : String :=
  buildScoreSignMessageClient SIGNING_APP_NAME SIGNING_DOMAIN "2026-02-20" 4410 55 300 demoNonce

/-- The body of the test `rejects invalid score proof`: `moves = 60`,
`timeSeconds = 500`, claimed `score = 999999`. -/
def badScoreBody : SubmitBody :=
  ⟨demoAddress, "2026-02-20", "", some 999999, some 60, some 500, demoNonce, demoSig⟩

def badScoreReq : Request := ⟨demoHeaders, some badScoreBody⟩

/-- The message the server would verify for `badScoreReq`. -/
def badScoreMsg : String :=
  buildScoreSignMessage SIGNING_APP_NAME SIGNING_DOMAIN "2026-02-20" 999999 60 500 demoNonce "normal"

/-- A run of 180 moves in 62 seconds with the matching score `4820 - 62 - 360`. -/
def fastRunBody : SubmitBody :=
  ⟨demoAddress, "2026-02-20", "", some 4398, some 180, some 62, demoNonce, demoSig⟩

def fastRunReq : Request := ⟨demoHeaders, some fastRunBody⟩

/-- The body of the test `rejects implausible speed vs moves`: `moves = 100`,
`timeSeconds = 20`. -/
def tooQuickBody : SubmitBody :=
  ⟨demoAddress, "2026-02-20", "", some 4600, some 100, some 20, demoNonce, demoSig⟩

def tooQuickReq : Request := ⟨demoHeaders, some tooQuickBody⟩

/-- A run at the clamp bound, `moves = timeSeconds = 1_000_000_000`, claiming
the score `0` that the formula of the specification gives. -/
def marathonBody : SubmitBody :=
  ⟨demoAddress, "2026-02-20", "", some 0, some 1000000000, some 1000000000, demoNonce, demoSig⟩

def marathonReq : Request := ⟨demoHeaders, some marathonBody⟩

/-- The message the server would verify for `marathonReq`. -/
def marathonServerMsg : String :=
  buildScoreSignMessage SIGNING_APP_NAME SIGNING_DOMAIN "2026-02-20" 0 1000000000 1000000000
    demoNonce "normal"


/-- The accepting request with the signature of another key, as in the test
`rejects invalid signature`. -/
def forgedReq : Request := ⟨demoHeaders, some { demoBody with signature := forgedSig }⟩

/-- The clock readings of a second request, two seconds later. -/
def laterClock : Clock := ⟨1771545602000, 1771545602001, 1771545602002, 1771545602003, 1771545602⟩

/-- The database after `demoReq` has been accepted: its nonce is consumed. -/
def usedDb : DB := (submit (demoEnvFor demoServerMsg) demoClock demoDb demoReq).1

/-- The replay of the test: the accepted request with `score + 1`. -/
def replayReq : Request := ⟨demoHeaders, some { demoBody with score := some 4411 }⟩

/-- The database of the test `rejects expired nonce`: the nonce of `demoDb`
with `expires_at_ms` one second before the request. -/
def expiredDb : DB :=
  ⟨[⟨demoWallet, demoNonce, "sha256(1.2.3.4)", 1771545599003, none⟩], [], [], []⟩

/-- The database `demoDb` with a stored best of 5000 for the day of `demoReq`. -/
def bestDb : DB :=
  { demoDb with scores := [⟨demoWallet, "2026-02-20", 5000, 50, 200⟩] }

/-- Number of requests of a sequence, handled one after another starting from
`db`, that name `(wallet, nonce)` and are accepted. -/
def acceptedFor (env : Env) (wallet nonce : String) : DB → List (Clock × Request) → Nat
  | _, [] => 0
  | db, (clk, req) :: rest =>
      (if ((submit env clk db req).2.isAccepted && req.names wallet nonce) = true then 1 else 0)
        + acceptedFor env wallet nonce (submit env clk db req).1 rest

/-- Some record for `(wallet, nonce)` is still unconsumed. -/
def Live (rows : List NonceRow) (wallet nonce : String) : Prop :=
  ∃ r ∈ rows, r.wallet = wallet ∧ r.nonce = nonce ∧ r.used_at_ms = none

/-- Three requests on the nonce of `demoDb`: a forged signature, the honest
request, and its replay. -/
def demoSequence : List (Clock × Request) :=
  [(demoClock, forgedReq), (laterClock, demoReq), (laterClock, demoReq)]

/-- The database `demoDb` with both rate counters of the current window one
below their limits (29 of 30 per origin, 9 of 10 per identity). -/
def busyDb : DB :=
  { demoDb with rate_limits :=
      [⟨"ip:1.2.3.4", 1771545600000, 29⟩,
       ⟨"wallet:0x00000000000000000000000000000000000000a1", 1771545600000, 9⟩] }

/-- The accepting request sent from another origin (`5.6.7.8`). -/
def otherOriginReq : Request := ⟨⟨some "5.6.7.8", none⟩, some demoBody⟩

/-- The nonce of `demoDb` with `used_at_ms = 0`: set, but not positive. -/
def zeroUsedDb : DB :=
  ⟨[⟨demoWallet, demoNonce, "sha256(1.2.3.4)", 1771545900000, some 0⟩], [], [], []⟩

/-- The nonce of `zeroUsedDb`, moreover expired one second before the request. -/
def zeroUsedExpiredDb : DB :=
  ⟨[⟨demoWallet, demoNonce, "sha256(1.2.3.4)", 1771545599003, some 0⟩], [], [], []⟩

/-- The start `now - (now % windowMs)` of the window that contains `now`. -/
def windowStartFor (now windowMs : Int) : Int := now - Int.tmod now windowMs

/-- The stored counter of `key`: `SELECT window_start, count FROM rate_limits
WHERE key = ?` with `.first()`. -/
def counterOf (rows : List RateRow) (key : String) : Option RateRow :=
  rows.find? (fun r => r.key = key)

/-- Number of allowed calls, among the calls of `checkAndBumpRateLimit` on `key`
made one after another at the given times, whose time falls in the window
that starts at `w`. -/
def allowedInWindow (key : String) (maxCount windowMs w : Int) :
    List RateRow → List Int → Nat
  | _, [] => 0
  | rows, now :: rest =>
      (if (checkAndBumpRateLimit rows now key maxCount windowMs).2.allowed = true
          ∧ windowStartFor now windowMs = w then 1 else 0)
        + allowedInWindow key maxCount windowMs w
            (checkAndBumpRateLimit rows now key maxCount windowMs).1 rest

/-- Rate counters after 29 of 30 calls from `1.2.3.4` in the current window. -/
def demoRateRows : List RateRow := [⟨"ip:1.2.3.4", 1771545600000, 29⟩]

/-- Five calls: three in the window of `demoRateRows`, two in the next one. -/
def demoCallTimes : List Int :=
  [1771545600000, 1771545600500, 1771546199999, 1771546200000, 1771546200001]

/-- The number that a list of decimal digit characters denotes. -/
def digitsValue (cs : List Char) : Nat :=
  cs.foldl (fun acc c => acc * 10 + (c.toNat - 48)) 0

/-- A nonce that ends in what looks like a mode line. -/
def trickyNonce : String := "5f2c9a7e\nMode: easy"

/-! ## The monthly ranking (`GET /top`) -/

/-- Order of two texts under SQLite's default `BINARY` collation: `memcmp` of
the UTF-8 encodings, which is the lexicographic order of the code points, a
proper prefix coming first. -/
def charsLt : List Char → List Char → Bool
  | [], [] => false
  | [], _ :: _ => true
  | _ :: _, [] => false
  | a :: as, b :: bs => decide (a < b) || (decide (a = b) && charsLt as bs)

/-- SQL `a < b` on two `TEXT` values. -/
def textLt (a b : String) : Bool := charsLt a.data b.data

/-- `String.prototype.padStart(n, c)` with a one-character filler: a string of
length `n` or more is returned as it is. -/
def padStart (s : List Char) (n : Nat) (c : Char) : List Char :=
  List.replicate (n - s.length) c ++ s

/-- `getMonthRange(month)`: the month must match `^\d{4}-\d{2}$` and name a
month from 1 to 12; the range runs from the first day of the month to the
first day of the next one (exclusive), both as `YYYY-MM-01`. -/
def getMonthRange (month : String) : Option (String × String) :=
  match month.data with
  | [y1, y2, y3, y4, '-', m1, m2] =>
      if [y1, y2, y3, y4, m1, m2].all isDigitChar then
        let y : Int := digitsValue [y1, y2, y3, y4]
        let m : Int := digitsValue [m1, m2]
        if m < 1 ∨ m > 12 then none
        else
          let nextY := if m = 12 then y + 1 else y
          let nextM := if m = 12 then 1 else m + 1
          some
            (⟨padStart (jsNumberToString y).data 4 '0' ++ '-' ::
                padStart (jsNumberToString m).data 2 '0' ++ "-01".data⟩,
             ⟨padStart (jsNumberToString nextY).data 4 '0' ++ '-' ::
                padStart (jsNumberToString nextM).data 2 '0' ++ "-01".data⟩)
      else none
  | _ => none

/-- The ordering `ORDER BY score DESC, time_seconds ASC, moves ASC, day DESC`:
`precedes a b` when `a` comes strictly before `b`. -/
def precedes (a b : ScoreRow) : Bool :=
  decide (b.score < a.score) || (decide (a.score = b.score) &&
    (decide (a.time_seconds < b.time_seconds) || (decide (a.time_seconds = b.time_seconds) &&
      (decide (a.moves < b.moves) || (decide (a.moves = b.moves) && textLt b.day a.day)))))

/-- Row `a` is ranked no later than row `b`: `b` does not come strictly before `a`. -/
def rankLe (a b : ScoreRow) : Prop := precedes b a = false

instance rankLe_decidable : DecidableRel rankLe :=
  fun a b => inferInstanceAs (Decidable (precedes b a = false))

/-- The rows in `ORDER BY` order; rows that tie keep their table order. -/
def orderByRank (rows : List ScoreRow) : List ScoreRow := rows.insertionSort rankLe

/-- The filter `WHERE day >= ? AND day < ?` bound to `start` and `stop`. -/
def inMonth (start stop : String) (r : ScoreRow) : Bool :=
  !textLt r.day start && textLt r.day stop

/-- `ROW_NUMBER()` over an ordered partition, counting from `n`. -/
def rowNumbers : Nat → List ScoreRow → List (ScoreRow × Nat)
  | _, [] => []
  | n, r :: rs => (r, n) :: rowNumbers (n + 1) rs

/-- The common table expression `monthly_best`: the rows of the month, each with
its `rn`, the row number inside its wallet's partition in `ORDER BY` order. -/
def monthly_best (rows : List ScoreRow) (start stop : String) : List (ScoreRow × Nat) :=
  let scanned := rows.filter (inMonth start stop)
  (scanned.map (fun r => r.wallet)).dedup.flatMap
    (fun w => rowNumbers 1 (orderByRank (scanned.filter (fun r => r.wallet = w))))

/-- The outer query before `LIMIT`: the rows with `rn = 1`, in `ORDER BY` order. -/
def monthlyRanking (rows : List ScoreRow) (start stop : String) : List ScoreRow :=
  orderByRank (((monthly_best rows start stop).filter (fun p => p.2 = 1)).map (fun p => p.1))

/-- The whole query of `/top`, with `LIMIT ?` bound to `limit`. -/
def topRows (rows : List ScoreRow) (start stop : String) (limit : Int) : List ScoreRow :=
  (monthlyRanking rows start stop).take limit.toNat

/-- The query parameters of `GET /top`.  `month` is `none` when the parameter
is absent.  `limit` is `none` when the parameter is absent or empty, and
otherwise holds `Number(...)` of its text in the convention of `clampInt`. -/
structure TopRequest where
  month : Option String
  limit : Option (Option Int)
deriving DecidableEq, Repr

/-- The answers of `GET /top`. -/
inductive TopResponse where
  | badRequest (msg : String)
  | ok (month : String) (rows : List ScoreRow)
deriving DecidableEq, Repr

/-- The month `/top` ranks: the trimmed parameter, or the current UTC month when
the parameter is absent or empty. -/
def topMonth (currentUtcMonth : String) (req : TopRequest) : String :=
  jsTrim (match req.month with
    | some s => if s = "" then currentUtcMonth else s
    | none => currentUtcMonth)

/-- The limit `/top` binds: `clampInt(Number(limit || 10), 1, 50)`. -/
def topLimit (req : TopRequest) : Int :=
  clampInt (match req.limit with
    | some n => n
    | none => some 10) 1 50

/-- The handler of `GET /top`. -/
def top (db : DB) (currentUtcMonth : String) (req : TopRequest) : TopResponse :=
  let month := topMonth currentUtcMonth req
  match getMonthRange month with
  | none => .badRequest "Invalid month (YYYY-MM)"
  | some (start, stop) => .ok month (topRows db.scores start stop (topLimit req))

/-- A `scores` table with three wallets: the first has two February days and a
better March day, the second and the third tie on score. -/
def rankingDb : DB :=
  { auth_nonces := [], score_runs := [], rate_limits := [],
    scores :=
      [⟨"0xaa", "2026-02-03", 4000, 80, 400⟩,
       ⟨"0xbb", "2026-02-10", 4410, 55, 300⟩,
       ⟨"0xaa", "2026-02-20", 4200, 70, 350⟩,
       ⟨"0xaa", "2026-03-01", 5000, 40, 200⟩,
       ⟨"0xcc", "2026-02-28", 4410, 55, 280⟩,
       ⟨"0xbb", "2026-01-31", 4900, 45, 210⟩] }

set_option maxRecDepth 100000

/-! ## Properties of the stateless checks -/

theorem validateSubmit_ok {req : Request} {run : Run} (h : validateSubmit req = .ok run) :
    ∃ body, req.body = some body ∧ run = extractRun body ∧ WellFormed run ∧ PassesGate run
      ∧ run.score = computeExpectedWinningScore run.moves run.timeSeconds run.mode := by
  unfold validateSubmit at h
  cases hb : req.body with
  | none => rw [hb] at h; exact Except.noConfusion h
  | some body =>
    rw [hb] at h
    simp only [] at h
    generalize hmode : jsToLowerCase (jsTrim (if body.mode = "" then "normal" else body.mode))
      = mode at h
    split at h
    · exact Except.noConfusion h
    split at h
    · exact Except.noConfusion h
    split at h
    · exact Except.noConfusion h
    split at h
    · exact Except.noConfusion h
    split at h
    · exact Except.noConfusion h
    split at h
    · exact Except.noConfusion h
    split at h
    · exact Except.noConfusion h
    split at h
    · exact Except.noConfusion h
    split at h
    · exact Except.noConfusion h
    rename_i h1 h2 h3 h4 h5 h6 h7 h8 h9
    have h := Except.ok.inj h
    subst h
    refine ⟨body, rfl, ?_, ⟨?_, ?_, ?_, h4, ?_⟩, ⟨?_, ?_, ?_⟩, ?_⟩
    · simp only [extractRun, hmode]
    · simpa using h1
    · simpa using h2
    · by_contra hc
      exact h3 ⟨fun e => hc (Or.inl e), fun e => hc (Or.inr e)⟩
    · simpa using h5
    · simpa using h6
    · simpa using h7
    · simpa using h8
    · simpa using h9

theorem validateSubmit_of {req : Request} {body : SubmitBody} (hb : req.body = some body)
    (hwf : WellFormed (extractRun body)) (hg : PassesGate (extractRun body))
    (hs : (extractRun body).score = computeExpectedWinningScore (extractRun body).moves
      (extractRun body).timeSeconds (extractRun body).mode) :
    validateSubmit req = .ok (extractRun body) := by
  obtain ⟨h1, h2, h3, h4, h5⟩ := hwf
  obtain ⟨h6, h7, h8⟩ := hg
  unfold validateSubmit
  rw [hb]
  simp only [extractRun] at h1 h2 h3 h4 h5 h6 h7 h8 hs ⊢
  rw [if_neg (by simp [h1]), if_neg (by simp [h2]),
    if_neg (by rcases h3 with h3 | h3 <;> simp [h3]), if_neg h4, if_neg (by simp [h5]),
    if_neg (by omega), if_neg (by omega), if_neg (by omega), if_neg (by simp [hs])]

/-- With well-formed fields, the stateless part rejects a run as implausible
exactly when the gate (as the handler computes it) fails, the reason being
that of the first failing check; otherwise the score proof decides. -/
theorem validateSubmit_wellFormed {req : Request} {body : SubmitBody} (hb : req.body = some body)
    (hwf : WellFormed (extractRun body)) :
    validateSubmit req =
      if (extractRun body).moves < 40 then .error (.error 422 "Implausible run: moves too low")
      else if (extractRun body).timeSeconds < 30 then
        .error (.error 422 "Implausible run: time too low")
      else if (extractRun body).timeSeconds < minTimeForMoves (extractRun body).moves then
        .error (.error 422 "Implausible run: too fast for moves")
      else if (extractRun body).score ≠ computeExpectedWinningScore (extractRun body).moves
          (extractRun body).timeSeconds (extractRun body).mode then
        .error (.error 401 "Invalid score proof")
      else .ok (extractRun body) := by
  obtain ⟨h1, h2, h3, h4, h5⟩ := hwf
  unfold validateSubmit
  rw [hb]
  simp only [extractRun] at h1 h2 h3 h4 h5 ⊢
  rw [if_neg (by simp [h1]), if_neg (by simp [h2]),
    if_neg (by rcases h3 with h3 | h3 <;> simp [h3]), if_neg h4, if_neg (by simp [h5])]

theorem submit_of_validate_error {env : Env} {clk : Clock} {db : DB} {req : Request}
    {resp : Response} (h : validateSubmit req = .error resp) :
    submit env clk db req = (db, resp) := by
  unfold submit
  rw [h]

/-- C9. A well-formed submission that passes the plausibility gate and whose
clamped score differs from `computeExpectedWinningScore` is answered
401 `Invalid score proof`, for every database, clock, nonce and signature
oracle; the database is left as it was. -/
theorem score_proof_mismatch_rejected (env : Env) (clk : Clock) (db : DB) (req : Request)
    (body : SubmitBody) (hb : req.body = some body) (hwf : WellFormed (extractRun body))
    (hg : PassesGate (extractRun body))
    (hs : (extractRun body).score ≠ computeExpectedWinningScore (extractRun body).moves
      (extractRun body).timeSeconds (extractRun body).mode) :
    submit env clk db req = (db, .error 401 "Invalid score proof") := by
  apply submit_of_validate_error
  obtain ⟨h6, h7, h8⟩ := hg
  rw [validateSubmit_wellFormed hb hwf, if_neg (by omega), if_neg (by omega), if_neg (by omega),
    if_pos hs]

/-- C9, on the request of the test `rejects invalid score proof` (`moves = 60`,
`timeSeconds = 500`, `score = 999999`), with a fresh nonce and a signature that
is valid for the submitted values. -/
theorem score_proof_mismatch_rejected_witness :
    submit (demoEnvFor badScoreMsg) demoClock demoDb badScoreReq
      = (demoDb, .error 401 "Invalid score proof") :=
  score_proof_mismatch_rejected (demoEnvFor badScoreMsg) demoClock demoDb badScoreReq
    badScoreBody rfl (by unfold WellFormed; decide) (by unfold PassesGate; decide) (by decide)

/-! ## Case analysis of the stateful part -/

theorem consumeNonce_of_zero {rows : List NonceRow} {now : Int} {w n h : String}
    (hz : (consumeNonce rows now w n h).2 = 0) : (consumeNonce rows now w n h).1 = rows := by
  unfold consumeNonce at hz ⊢
  simp only [List.countP_eq_zero] at hz
  simp only
  conv_rhs => rw [← List.map_id rows]
  apply List.map_congr_left
  intro r hr
  simp [hz r hr]

/-- The seven ways `authorizeAndStore` can end, each with its path condition,
the resulting database and the response. -/
theorem authorizeAndStore_cases (env : Env) (clk : Clock) (db : DB) (ip : String) (run : Run) :
    (selectNonce db.auth_nonces run.wallet run.nonce = none
        ∧ authorizeAndStore env clk db ip run = (db, .error 401 "Invalid nonce"))
    ∨ ∃ row, selectNonce db.auth_nonces run.wallet run.nonce = some row ∧
      ((row.ip_hash ≠ env.sha256Hex ip
          ∧ authorizeAndStore env clk db ip run = (db, .error 401 "Invalid nonce scope"))
      ∨ (row.ip_hash = env.sha256Hex ip ∧ row.usedPositive = true
          ∧ authorizeAndStore env clk db ip run = (db, .error 401 "Nonce already used"))
      ∨ (row.ip_hash = env.sha256Hex ip ∧ row.usedPositive = false
          ∧ row.expires_at_ms < clk.nonce
          ∧ authorizeAndStore env clk db ip run = (db, .error 401 "Nonce expired"))
      ∨ (row.ip_hash = env.sha256Hex ip ∧ row.usedPositive = false
          ∧ clk.nonce ≤ row.expires_at_ms ∧ ¬ SignatureValid env run
          ∧ authorizeAndStore env clk db ip run = (db, .error 401 "Invalid signature"))
      ∨ (row.ip_hash = env.sha256Hex ip ∧ row.usedPositive = false
          ∧ clk.nonce ≤ row.expires_at_ms ∧ SignatureValid env run
          ∧ (consumeNonce db.auth_nonces clk.nonce run.wallet run.nonce (env.sha256Hex ip)).2 = 0
          ∧ authorizeAndStore env clk db ip run
              = (db, .error 401 "Nonce already used or expired"))
      ∨ (row.ip_hash = env.sha256Hex ip ∧ row.usedPositive = false
          ∧ clk.nonce ≤ row.expires_at_ms ∧ SignatureValid env run
          ∧ 0 < (consumeNonce db.auth_nonces clk.nonce run.wallet run.nonce (env.sha256Hex ip)).2
          ∧ authorizeAndStore env clk db ip run
              = (storeRun env clk db ip run, acceptedResponse db run))) := by
  unfold authorizeAndStore
  simp only []
  cases hsel : selectNonce db.auth_nonces run.wallet run.nonce with
  | none => left; exact ⟨rfl, rfl⟩
  | some row =>
    right
    refine ⟨row, rfl, ?_⟩
    simp only []
    by_cases h1 : row.ip_hash = env.sha256Hex ip
    swap
    · left; exact ⟨h1, by rw [if_pos h1]⟩
    right
    rw [if_neg (not_not.mpr h1)]
    by_cases h2 : row.usedPositive = true
    · left; exact ⟨h1, h2, by rw [if_pos h2]⟩
    right
    rw [if_neg h2]
    have h2' : row.usedPositive = false := by simpa using h2
    by_cases h3 : row.expires_at_ms < clk.nonce
    · left; exact ⟨h1, h2', h3, by rw [if_pos h3]⟩
    right
    rw [if_neg h3]
    have h3' : clk.nonce ≤ row.expires_at_ms := by omega
    cases hv : env.verifyMessage (buildScoreSignMessage SIGNING_APP_NAME SIGNING_DOMAIN run.day
      run.score run.moves run.timeSeconds run.nonce run.mode) run.signature with
    | none =>
      left
      refine ⟨h1, h2', h3', ?_, rfl⟩
      rintro ⟨a, ha, _⟩
      simp [signMessageOf, hv] at ha
    | some address =>
      simp only []
      by_cases h4 : jsToLowerCase address = run.wallet
      swap
      · left
        refine ⟨h1, h2', h3', ?_, by rw [if_pos h4]⟩
        rintro ⟨a, ha, ha'⟩
        simp only [signMessageOf, hv, Option.some.injEq] at ha
        subst ha
        exact h4 ha'
      right
      rw [if_neg (not_not.mpr h4)]
      have hsig : SignatureValid env run := ⟨address, hv, h4⟩
      by_cases h5 : 0 < (consumeNonce db.auth_nonces clk.nonce run.wallet run.nonce
        (env.sha256Hex ip)).2
      · right
        refine ⟨h1, h2', h3', hsig, h5, ?_⟩
        rw [if_neg (not_not.mpr h5)]
        rfl
      · left
        have h5' : (consumeNonce db.auth_nonces clk.nonce run.wallet run.nonce
            (env.sha256Hex ip)).2 = 0 := by omega
        refine ⟨h1, h2', h3', hsig, h5', ?_⟩
        rw [if_pos h5, consumeNonce_of_zero h5']

/-- The three ways `submit` can end: rejected by the stateless checks (nothing
is written), rate limited (only `rate_limits` is written), or handed to
`authorizeAndStore` on the database with the bumped counters. -/
theorem submit_cases (env : Env) (clk : Clock) (db : DB) (req : Request) :
    (∃ resp, validateSubmit req = .error resp ∧ submit env clk db req = (db, resp))
    ∨ ∃ run, validateSubmit req = .ok run ∧
      ((∃ scope res, (applyRateLimits db.rate_limits clk.ipLimit clk.walletLimit
            (getClientIP req.headers) run.wallet).2 = some (scope, res)
          ∧ submit env clk db req
            = ({ db with rate_limits := (applyRateLimits db.rate_limits clk.ipLimit
                  clk.walletLimit (getClientIP req.headers) run.wallet).1 },
               .rateLimited scope (resetInSec res.resetMs clk.retryAfter)))
      ∨ ((applyRateLimits db.rate_limits clk.ipLimit clk.walletLimit
            (getClientIP req.headers) run.wallet).2 = none
          ∧ submit env clk db req
            = authorizeAndStore env clk
                { db with rate_limits := (applyRateLimits db.rate_limits clk.ipLimit
                  clk.walletLimit (getClientIP req.headers) run.wallet).1 }
                (getClientIP req.headers) run)) := by
  unfold submit
  cases hv : validateSubmit req with
  | error resp => left; exact ⟨resp, rfl, rfl⟩
  | ok run =>
    right
    refine ⟨run, rfl, ?_⟩
    simp only []
    cases hrl : (applyRateLimits db.rate_limits clk.ipLimit clk.walletLimit
      (getClientIP req.headers) run.wallet).2 with
    | none => right; exact ⟨rfl, rfl⟩
    | some p =>
      left
      obtain ⟨scope, res⟩ := p
      exact ⟨scope, res, rfl, rfl⟩

theorem validateSubmit_error_not_accepted {req : Request} {resp : Response}
    (h : validateSubmit req = .error resp) : resp.isAccepted = false := by
  unfold validateSubmit at h
  cases hb : req.body with
  | none => rw [hb] at h; cases h; rfl
  | some body =>
    rw [hb] at h
    simp only [] at h
    generalize jsToLowerCase (jsTrim (if body.mode = "" then "normal" else body.mode)) = mode at h
    repeat' split at h
    all_goals first
      | exact Except.noConfusion h
      | (cases h; rfl)

theorem names_of_valid {req : Request} {run : Run} {wallet nonce : String}
    (hv : validateSubmit req = .ok run) (hn : req.names wallet nonce = true) :
    run.wallet = wallet ∧ run.nonce = nonce := by
  obtain ⟨body, hb, hrun, -⟩ := validateSubmit_ok hv
  unfold Request.names at hn
  rw [hb] at hn
  simp only [decide_eq_true_eq] at hn
  rw [hrun]
  exact hn

theorem consumeNonce_pos_of_select {rows : List NonceRow} (now : Int) {w n h : String}
    {row : NonceRow} (hsel : selectNonce rows w n = some row) (hscope : row.ip_hash = h)
    (hunused : row.used_at_ms = none) (hexp : now ≤ row.expires_at_ms) :
    0 < (consumeNonce rows now w n h).2 := by
  unfold consumeNonce
  simp only [List.countP_pos_iff]
  unfold selectNonce at hsel
  have hmem := List.mem_of_find?_eq_some hsel
  have hp := List.find?_some hsel
  simp only [decide_eq_true_eq] at hp
  refine ⟨row, hmem, ?_⟩
  simp [consumable, hp.1, hp.2, hscope, hunused, hexp]

theorem usedPositive_of_none {row : NonceRow} (h : row.used_at_ms = none) :
    row.usedPositive = false := by
  simp [NonceRow.usedPositive, h]

theorem usedPositive_of_some {row : NonceRow} {t : Int} (h : row.used_at_ms = some t)
    (ht : 0 < t) : row.usedPositive = true := by
  simp [NonceRow.usedPositive, h, ht]

/-- A validated request that passes the rate limits, names a fresh nonce of its
origin and carries a valid signature is accepted; the database afterwards is
`storeRun` on the database with the bumped rate counters. -/
theorem submit_accepted_of {env : Env} {clk : Clock} {db : DB} {req : Request} {run : Run}
    {row : NonceRow} (hv : validateSubmit req = .ok run)
    (hrl : (applyRateLimits db.rate_limits clk.ipLimit clk.walletLimit
      (getClientIP req.headers) run.wallet).2 = none)
    (hsel : selectNonce db.auth_nonces run.wallet run.nonce = some row)
    (hscope : row.ip_hash = env.sha256Hex (getClientIP req.headers))
    (hunused : row.used_at_ms = none) (hexp : clk.nonce ≤ row.expires_at_ms)
    (hsig : SignatureValid env run) :
    submit env clk db req
      = (storeRun env clk { db with rate_limits := (applyRateLimits db.rate_limits clk.ipLimit
            clk.walletLimit (getClientIP req.headers) run.wallet).1 }
          (getClientIP req.headers) run,
         acceptedResponse db run) := by
  rcases submit_cases env clk db req with ⟨resp, he, -⟩ | ⟨run', hv', h⟩
  · rw [hv] at he; exact Except.noConfusion he
  · rw [hv] at hv'
    cases hv'
    rcases h with ⟨scope, res, hs, -⟩ | ⟨-, hs⟩
    · rw [hrl] at hs; exact Option.noConfusion hs
    · rw [hs]
      have hpos := consumeNonce_pos_of_select clk.nonce hsel hscope hunused hexp
      rcases authorizeAndStore_cases env clk { db with rate_limits := (applyRateLimits
          db.rate_limits clk.ipLimit clk.walletLimit (getClientIP req.headers) run.wallet).1 }
          (getClientIP req.headers) run with
        ⟨h0, -⟩ | ⟨row', hsel', h⟩
      · simp only [hsel] at h0
        exact Option.noConfusion h0
      · simp only [hsel, Option.some.injEq] at hsel'
        subst hsel'
        rcases h with ⟨h1, -⟩ | ⟨-, h2, -⟩ | ⟨-, -, h3, -⟩ | ⟨-, -, -, h4, -⟩
          | ⟨-, -, -, -, h5, -⟩ | ⟨-, -, -, -, -, h⟩
        · exact absurd hscope h1
        · rw [usedPositive_of_none hunused] at h2; exact Bool.noConfusion h2
        · omega
        · exact absurd hsig h4
        · simp only at h5; omega
        · rw [h]; rfl

theorem authorizeAndStore_blocked (env : Env) (clk : Clock) (db : DB) (ip : String) {run : Run}
    {row : NonceRow} {reason : String}
    (hrow : selectNonce db.auth_nonces run.wallet run.nonce = some row)
    (hblock : (row.usedPositive = true ∧ reason = "Nonce already used")
      ∨ (row.usedPositive = false ∧ row.expires_at_ms < clk.nonce ∧ reason = "Nonce expired")) :
    ∃ msg, authorizeAndStore env clk db ip run = (db, .error 401 msg)
      ∧ ((msg = "Invalid nonce scope" ∧ row.ip_hash ≠ env.sha256Hex ip)
        ∨ (msg = reason ∧ row.ip_hash = env.sha256Hex ip)) := by
  rcases authorizeAndStore_cases env clk db ip run with ⟨h0, -⟩ | ⟨row', hsel', h⟩
  · rw [hrow] at h0
    exact Option.noConfusion h0
  · rw [hrow, Option.some.injEq] at hsel'
    subst hsel'
    rcases h with ⟨h1, h⟩ | ⟨h1, h2, h⟩ | ⟨h1, h2, h3, h⟩ | ⟨-, h2, h3, -⟩
      | ⟨-, h2, h3, -⟩ | ⟨-, h2, h3, -⟩
    · exact ⟨_, h, Or.inl ⟨rfl, h1⟩⟩
    · rcases hblock with ⟨-, hr⟩ | ⟨hu, -⟩
      · exact ⟨_, h, Or.inr ⟨hr.symm, h1⟩⟩
      · rw [hu] at h2; exact Bool.noConfusion h2
    · rcases hblock with ⟨hu, -⟩ | ⟨-, -, hr⟩
      · rw [hu] at h2; exact Bool.noConfusion h2
      · exact ⟨_, h, Or.inr ⟨hr.symm, h1⟩⟩
    all_goals
      rcases hblock with ⟨hu, -⟩ | ⟨-, he, -⟩
      · rw [hu] at h2; exact Bool.noConfusion h2
      · omega

/-- What a request that names `(wallet, nonce)` does when the record found for
that pair cannot pass the read checks of the handler (it is used with a
positive timestamp, or it is expired): the request is not accepted, the three
tables other than `rate_limits` are unchanged, and if it got as far as the
nonce read the response is `reason` when the origin hash matches and
`Invalid nonce scope` when it does not. -/
theorem submit_blocked_by_read (env : Env) (clk : Clock) {db : DB} {req : Request}
    {wallet nonce : String} {row : NonceRow} (reason : String)
    (hn : req.names wallet nonce = true)
    (hrow : selectNonce db.auth_nonces wallet nonce = some row)
    (hblock : (row.usedPositive = true ∧ reason = "Nonce already used")
      ∨ (row.usedPositive = false ∧ row.expires_at_ms < clk.nonce ∧ reason = "Nonce expired")) :
    (submit env clk db req).2.isAccepted = false
      ∧ (submit env clk db req).1.auth_nonces = db.auth_nonces
      ∧ (submit env clk db req).1.scores = db.scores
      ∧ (submit env clk db req).1.score_runs = db.score_runs
      ∧ ∀ run, validateSubmit req = .ok run →
          (applyRateLimits db.rate_limits clk.ipLimit clk.walletLimit
            (getClientIP req.headers) run.wallet).2 = none →
          (row.ip_hash ≠ env.sha256Hex (getClientIP req.headers)
            ∧ (submit env clk db req).2 = .error 401 "Invalid nonce scope")
          ∨ (row.ip_hash = env.sha256Hex (getClientIP req.headers)
            ∧ (submit env clk db req).2 = .error 401 reason) := by
  rcases submit_cases env clk db req with ⟨resp, he, hs⟩ | ⟨run, hv, h⟩
  · rw [hs]
    refine ⟨validateSubmit_error_not_accepted he, rfl, rfl, rfl, ?_⟩
    intro run hv
    rw [hv] at he
    exact Except.noConfusion he
  · obtain ⟨hw, hnn⟩ := names_of_valid hv hn
    rcases h with ⟨scope, res, hrl, hs⟩ | ⟨hrl, hs⟩
    · rw [hs]
      refine ⟨rfl, rfl, rfl, rfl, ?_⟩
      intro run' hv' hrl'
      rw [hv] at hv'
      cases hv'
      rw [hrl] at hrl'
      exact Option.noConfusion hrl'
    · rw [hs]
      subst hw hnn
      obtain ⟨msg, hout, hmsg⟩ := authorizeAndStore_blocked env clk
        { db with rate_limits := (applyRateLimits db.rate_limits clk.ipLimit
          clk.walletLimit (getClientIP req.headers) run.wallet).1 }
        (getClientIP req.headers) hrow hblock
      rw [hout]
      refine ⟨rfl, rfl, rfl, rfl, ?_⟩
      intro run' hv' _
      simp only [Response.error.injEq, true_and]
      rcases hmsg with ⟨hm, hne⟩ | ⟨hm, he⟩
      · exact Or.inl ⟨hne, hm⟩
      · exact Or.inr ⟨he, hm⟩

theorem submit_not_implausible_of_valid {env : Env} {clk : Clock} {db : DB} {req : Request}
    {run : Run} (hv : validateSubmit req = .ok run) :
    (submit env clk db req).2.isImplausibleRun = false := by
  rcases submit_cases env clk db req with ⟨resp, he, -⟩ | ⟨run', hv', h⟩
  · rw [hv] at he; exact Except.noConfusion he
  · rcases h with ⟨scope, res, -, hs⟩ | ⟨-, hs⟩
    · rw [hs]; simp [Response.isImplausibleRun]
    · rw [hs]
      rcases authorizeAndStore_cases env clk _ (getClientIP req.headers) run' with
        ⟨-, h⟩ | ⟨row, -, ⟨-, h⟩ | ⟨-, -, h⟩ | ⟨-, -, -, h⟩ | ⟨-, -, -, -, h⟩
          | ⟨-, -, -, -, -, h⟩ | ⟨-, -, -, -, -, h⟩⟩ <;>
        rw [h] <;> simp [Response.isImplausibleRun, acceptedResponse]

theorem rejected_of_score_mismatch {env : Env} {clk : Clock} {db : DB} {req : Request}
    {body : SubmitBody} (hb : req.body = some body) (hwf : WellFormed (extractRun body))
    (hg : PassesGate (extractRun body))
    (hs : (extractRun body).score ≠ computeExpectedWinningScore (extractRun body).moves
      (extractRun body).timeSeconds (extractRun body).mode) :
    submit env clk db req = (db, .error 401 "Invalid score proof") := by
  apply submit_of_validate_error
  obtain ⟨h6, h7, h8⟩ := hg
  rw [validateSubmit_wellFormed hb hwf, if_neg (by omega), if_neg (by omega), if_neg (by omega),
    if_pos hs]

/-- C8 (the code diverges from the claim). At `moves = 180` the handler computes
`Math.floor(180 * 0.35) = 62` because the double product is
`62.99999999999999`, while `floor(180 * 0.35) = 63`; a run of 180 moves in 62
seconds therefore passes the gate of the handler although `62 < 63`. -/
theorem gate_threshold_at_180_moves :
    minTimeForMoves 180 = 62 ∧ minTimeSpec 180 = 63
      ∧ (extractRun fastRunBody).moves = 180 ∧ (extractRun fastRunBody).timeSeconds = 62
      ∧ WellFormed (extractRun fastRunBody)
      ∧ validateSubmit fastRunReq = .ok (extractRun fastRunBody)
      ∧ ∀ env clk db, (submit env clk db fastRunReq).2.isImplausibleRun = false := by
  have hv : validateSubmit fastRunReq = .ok (extractRun fastRunBody) :=
    validateSubmit_of rfl (by unfold WellFormed; decide) (by unfold PassesGate; decide)
      (by decide)
  refine ⟨by decide, ?_, by decide, by decide, by unfold WellFormed; decide, hv, ?_⟩
  · unfold minTimeSpec
    rw [Int.floor_eq_iff]
    norm_num
  · intro env clk db
    exact submit_not_implausible_of_valid hv

/-- C4 (the code diverges from the claim). For `moves = timeSeconds =
1_000_000_000` and mode `normal`, `raw = -2999995180` lies below `-2 ^ 31`, the
conversion `scaled | 0` wraps it to `1294972116`, and that is the value of
`computeExpectedWinningScore`; the formula of the claim gives `0`.  A
submission of that run with the score `0` of the formula is consequently
answered `Invalid score proof`.  On the example of the claim both agree. -/
theorem expected_score_wraps_at_clamp_bound :
    computeExpectedWinningScore 1000000000 1000000000 "normal" = 1294972116
      ∧ expectedScoreSpec 1000000000 1000000000 "normal" = 0
      ∧ WellFormed (extractRun marathonBody) ∧ (extractRun marathonBody).score = 0
      ∧ (∀ env clk db, submit env clk db marathonReq = (db, .error 401 "Invalid score proof"))
      ∧ computeExpectedWinningScore 55 300 "normal" = 4410
      ∧ expectedScoreSpec 55 300 "normal" = 4410 := by
  refine ⟨by decide, ?_, by unfold WellFormed; decide, by decide, ?_, by decide, ?_⟩
  · unfold expectedScoreSpec
    rw [if_neg (by decide)]
    norm_num
  · intro env clk db
    exact rejected_of_score_mismatch rfl (by unfold WellFormed; decide)
      (by unfold PassesGate; decide) (by decide)
  · unfold expectedScoreSpec
    rw [if_neg (by decide)]
    norm_num

theorem signMessage_normal (appName domain day : String) (score moves timeSeconds : Int)
    (nonce : String) :
    buildScoreSignMessage appName domain day score moves timeSeconds nonce "normal"
      = buildScoreSignMessageClient appName domain day score moves timeSeconds nonce
          ++ "\nMode: normal" := by
  unfold buildScoreSignMessage buildScoreSignMessageClient
  simp only []
  rw [if_pos (by decide)]
  simp [String.intercalate, String.intercalate.go, String.append_assoc]

theorem String.append_ne_self_of_ne_empty (s t : String) (ht : t.length ≠ 0) : s ++ t ≠ s := by
  intro h
  have := congrArg String.length h
  rw [String.length_append] at this
  omega

/-- C6 (the code diverges from its test and its client script). For the request
of the accepting test, whose body gives no mode, the handler sets `mode` to
`normal` and verifies the signature against the eight-line message: the
seven-line block of the signer followed by the line `Mode: normal`.  The two
messages differ, so a signature the wallet made over the seven-line block
recovers another address and the request is answered `Invalid signature`,
where the test expects status 200; it is accepted only when the wallet signed
the eight-line message. -/
theorem server_message_has_mode_line :
    demoBody.mode = "" ∧ (extractRun demoBody).mode = "normal"
      ∧ signMessageOf (extractRun demoBody) = demoClientMsg ++ "\nMode: normal"
      ∧ signMessageOf (extractRun demoBody) ≠ demoClientMsg
      ∧ (submit (demoEnvFor demoClientMsg) demoClock demoDb demoReq).2
          = .error 401 "Invalid signature"
      ∧ (submit (demoEnvFor demoServerMsg) demoClock demoDb demoReq).2
          = .accepted true 4410 4410 := by
  refine ⟨rfl, by decide, by decide, by decide, by decide, by decide⟩

/-- For every validated request whose body gives no mode, the message of the
server is the seven-line block of the signer followed by `Mode: normal`, and
so differs from that block. -/
theorem signMessageOf_no_mode {req : Request} {body : SubmitBody} {run : Run}
    (hb : req.body = some body) (hmode : body.mode = "") (hv : validateSubmit req = .ok run) :
    signMessageOf run = buildScoreSignMessageClient SIGNING_APP_NAME SIGNING_DOMAIN run.day
        run.score run.moves run.timeSeconds run.nonce ++ "\nMode: normal"
      ∧ signMessageOf run ≠ buildScoreSignMessageClient SIGNING_APP_NAME SIGNING_DOMAIN run.day
        run.score run.moves run.timeSeconds run.nonce := by
  obtain ⟨body', hb', hrun, -, -, -⟩ := validateSubmit_ok hv
  rw [hb] at hb'
  cases hb'
  have hm : run.mode = "normal" := by
    rw [hrun]
    simp only [extractRun, hmode, if_true]
    decide
  have h1 : signMessageOf run = buildScoreSignMessageClient SIGNING_APP_NAME SIGNING_DOMAIN
      run.day run.score run.moves run.timeSeconds run.nonce ++ "\nMode: normal" := by
    unfold signMessageOf
    rw [hm, signMessage_normal]
  refine ⟨h1, ?_⟩
  rw [h1]
  exact String.append_ne_self_of_ne_empty _ _ (by decide)


/-! ## Nonce checks -/

/-- C7. A request handled at time `clk.nonce` whose nonce record is unconsumed
and has `expires_at_ms < clk.nonce` is never accepted; `auth_nonces` (so the
record, which stays unconsumed), `scores` and `score_runs` are unchanged; and
when the request passes the stateless checks and the rate limits and the
origin hash matches, the response is 401 `Nonce expired`, whatever the
signature oracle says. -/
theorem expired_nonce_not_consumable (env : Env) (clk : Clock) (db : DB) (req : Request)
    (wallet nonce : String) (row : NonceRow)
    (hn : req.names wallet nonce = true)
    (hrow : selectNonce db.auth_nonces wallet nonce = some row)
    (hunused : row.used_at_ms = none) (hexp : row.expires_at_ms < clk.nonce) :
    (submit env clk db req).2.isAccepted = false
      ∧ (submit env clk db req).1.auth_nonces = db.auth_nonces
      ∧ (submit env clk db req).1.scores = db.scores
      ∧ (submit env clk db req).1.score_runs = db.score_runs
      ∧ ∀ run, validateSubmit req = .ok run →
          (applyRateLimits db.rate_limits clk.ipLimit clk.walletLimit
            (getClientIP req.headers) run.wallet).2 = none →
          row.ip_hash = env.sha256Hex (getClientIP req.headers) →
          (submit env clk db req).2 = .error 401 "Nonce expired" := by
  obtain ⟨h1, h2, h3, h4, h5⟩ := submit_blocked_by_read env clk "Nonce expired"
    hn hrow (Or.inr ⟨usedPositive_of_none hunused, hexp, rfl⟩)
  refine ⟨h1, h2, h3, h4, fun run hv hrl hip => ?_⟩
  rcases h5 run hv hrl with ⟨hne, -⟩ | ⟨-, h⟩
  · exact absurd hip hne
  · exact h

theorem demoReq_valid : validateSubmit demoReq = .ok (extractRun demoBody) :=
  validateSubmit_of rfl (by unfold WellFormed; decide) (by unfold PassesGate; decide) (by decide)

/-- C7 on the scenario of the test `rejects expired nonce`: a validly signed
request on a nonce that expired one second earlier. -/
theorem expired_nonce_not_consumable_witness :
    (submit (demoEnvFor demoServerMsg) demoClock expiredDb demoReq).2.isAccepted = false
      ∧ (submit (demoEnvFor demoServerMsg) demoClock expiredDb demoReq).1.auth_nonces
          = expiredDb.auth_nonces
      ∧ (submit (demoEnvFor demoServerMsg) demoClock expiredDb demoReq).2
          = .error 401 "Nonce expired" :=
  have h := expired_nonce_not_consumable (demoEnvFor demoServerMsg) demoClock expiredDb demoReq
    demoWallet demoNonce ⟨demoWallet, demoNonce, "sha256(1.2.3.4)", 1771545599003, none⟩
    (by decide) (by decide) rfl (by decide)
  ⟨h.1, h.2.1, h.2.2.2.2 _ demoReq_valid (by decide) (by decide)⟩

/-- C2 (as stated, refuted). After the accepting request the nonce is consumed;
the replay of the test (same nonce, `score + 1`) names it and is answered
401 `Invalid score proof`, which is not a nonce reason: the score proof is
checked before the nonce is read. -/
theorem replay_with_other_score_not_nonce_reason :
    (selectNonce usedDb.auth_nonces demoWallet demoNonce).map (fun r => r.used_at_ms)
        = some (some 1771545600003)
      ∧ replayReq.names demoWallet demoNonce = true
      ∧ (submit (demoEnvFor demoServerMsg) laterClock usedDb replayReq).2
          = .error 401 "Invalid score proof"
      ∧ (submit (demoEnvFor demoServerMsg) laterClock usedDb replayReq).2.isInvalidNonce
          = false := by
  refine ⟨by decide, by decide, by decide, by decide⟩

/-- C2 (amended). If the nonce record for `(wallet, nonce)` has `used_at_ms` set
to a positive timestamp, every request naming that pair is rejected, whatever
its other fields and its signature are, and `auth_nonces`, `scores` and
`score_runs` are unchanged.  If the request passes the stateless checks and
the rate limits, the reason is a nonce reason: `Nonce already used` when the
origin hash matches, `Invalid nonce scope` otherwise. -/
theorem replay_of_used_nonce_rejected (env : Env) (clk : Clock) (db : DB) (req : Request)
    (wallet nonce : String) (row : NonceRow) (t : Int)
    (hn : req.names wallet nonce = true)
    (hrow : selectNonce db.auth_nonces wallet nonce = some row)
    (hused : row.used_at_ms = some t) (ht : 0 < t) :
    (submit env clk db req).2.isAccepted = false
      ∧ (submit env clk db req).1.auth_nonces = db.auth_nonces
      ∧ (submit env clk db req).1.scores = db.scores
      ∧ (submit env clk db req).1.score_runs = db.score_runs
      ∧ ∀ run, validateSubmit req = .ok run →
          (applyRateLimits db.rate_limits clk.ipLimit clk.walletLimit
            (getClientIP req.headers) run.wallet).2 = none →
          (submit env clk db req).2.isInvalidNonce = true
          ∧ (row.ip_hash = env.sha256Hex (getClientIP req.headers) →
              (submit env clk db req).2 = .error 401 "Nonce already used")
          ∧ (row.ip_hash ≠ env.sha256Hex (getClientIP req.headers) →
              (submit env clk db req).2 = .error 401 "Invalid nonce scope") := by
  obtain ⟨h1, h2, h3, h4, h5⟩ := submit_blocked_by_read env clk "Nonce already used"
    hn hrow (Or.inl ⟨usedPositive_of_some hused ht, rfl⟩)
  refine ⟨h1, h2, h3, h4, fun run hv hrl => ?_⟩
  rcases h5 run hv hrl with ⟨hne, h⟩ | ⟨he, h⟩
  · exact ⟨by rw [h]; decide, fun he => absurd he hne, fun _ => h⟩
  · exact ⟨by rw [h]; decide, fun _ => h, fun hne => absurd he hne⟩

/-- C2 (amended) on the scenario of the test: the unchanged accepted request
is replayed on its consumed nonce. -/
theorem replay_of_used_nonce_rejected_witness :
    (submit (demoEnvFor demoServerMsg) laterClock usedDb demoReq).2.isAccepted = false
      ∧ (submit (demoEnvFor demoServerMsg) laterClock usedDb demoReq).2
          = .error 401 "Nonce already used" :=
  have h := replay_of_used_nonce_rejected (demoEnvFor demoServerMsg) laterClock usedDb demoReq
    demoWallet demoNonce
    ⟨demoWallet, demoNonce, "sha256(1.2.3.4)", 1771545900000, some 1771545600003⟩ 1771545600003
    (by decide) (by decide) rfl (by decide)
  ⟨h.1, (h.2.2.2.2 _ demoReq_valid (by decide)).2.1 (by decide)⟩

theorem acceptedResponse_isAccepted (db : DB) (run : Run) :
    (acceptedResponse db run).isAccepted = true := rfl

/-- C3 (as stated, refuted). The request of the test `rejects invalid signature`
passes every check before the signature, its signature recovers another
address, and it is answered 401 `Invalid signature`; afterwards the nonce
record is still unconsumed, and the same token with the correct signature is
accepted. -/
theorem forged_signature_does_not_burn_nonce :
    (demoEnvFor demoServerMsg).verifyMessage (signMessageOf (extractRun demoBody)) forgedSig
        = some otherAddress
      ∧ jsToLowerCase otherAddress ≠ demoWallet
      ∧ (submit (demoEnvFor demoServerMsg) demoClock demoDb forgedReq).2
          = .error 401 "Invalid signature"
      ∧ (selectNonce (submit (demoEnvFor demoServerMsg) demoClock demoDb forgedReq).1.auth_nonces
          demoWallet demoNonce).map (fun r => r.used_at_ms) = some none
      ∧ (submit (demoEnvFor demoServerMsg) laterClock
          (submit (demoEnvFor demoServerMsg) demoClock demoDb forgedReq).1 demoReq).2
          = .accepted true 4410 4410 := by
  refine ⟨by decide, by decide, by decide, by decide, by decide⟩

/-- C3 (amended). A request that passes the stateless checks, the rate limits
and the nonce validation (record found, origin hash equal, unconsumed,
unexpired) but whose signature does not recover the claimed identity is
answered 401 `Invalid signature`, and only the rate counters are written: the
nonce record is unchanged, hence still unconsumed.  A second request with the
same identity and token and a valid signature is then accepted, provided it
passes the stateless checks and the rate limits, comes from the same origin
and the nonce is still unexpired. -/
theorem forged_signature_rejected_nonce_kept (env : Env) (clk : Clock) (db : DB) (req : Request)
    (run : Run) (row : NonceRow)
    (hv : validateSubmit req = .ok run)
    (hrl : (applyRateLimits db.rate_limits clk.ipLimit clk.walletLimit
      (getClientIP req.headers) run.wallet).2 = none)
    (hsel : selectNonce db.auth_nonces run.wallet run.nonce = some row)
    (hscope : row.ip_hash = env.sha256Hex (getClientIP req.headers))
    (hunused : row.used_at_ms = none) (hexp : clk.nonce ≤ row.expires_at_ms)
    (hsig : ¬ SignatureValid env run) :
    submit env clk db req
        = ({ db with rate_limits := (applyRateLimits db.rate_limits clk.ipLimit clk.walletLimit
              (getClientIP req.headers) run.wallet).1 }, .error 401 "Invalid signature")
      ∧ (submit env clk db req).1.auth_nonces = db.auth_nonces
      ∧ ∀ (clk2 : Clock) (req2 : Request) (run2 : Run),
          validateSubmit req2 = .ok run2 → run2.wallet = run.wallet → run2.nonce = run.nonce →
          (applyRateLimits (submit env clk db req).1.rate_limits clk2.ipLimit clk2.walletLimit
            (getClientIP req2.headers) run2.wallet).2 = none →
          row.ip_hash = env.sha256Hex (getClientIP req2.headers) →
          clk2.nonce ≤ row.expires_at_ms → SignatureValid env run2 →
          (submit env clk2 (submit env clk db req).1 req2).2.isAccepted = true := by
  have hsub : submit env clk db req
      = ({ db with rate_limits := (applyRateLimits db.rate_limits clk.ipLimit clk.walletLimit
            (getClientIP req.headers) run.wallet).1 }, .error 401 "Invalid signature") := by
    rcases submit_cases env clk db req with ⟨resp, he, -⟩ | ⟨run', hv', h⟩
    · rw [hv] at he; exact Except.noConfusion he
    · rw [hv] at hv'
      cases hv'
      rcases h with ⟨scope, res, hs, -⟩ | ⟨-, hs⟩
      · rw [hrl] at hs; exact Option.noConfusion hs
      · rw [hs]
        rcases authorizeAndStore_cases env clk { db with rate_limits := (applyRateLimits
            db.rate_limits clk.ipLimit clk.walletLimit (getClientIP req.headers) run.wallet).1 }
            (getClientIP req.headers) run with
          ⟨h0, -⟩ | ⟨row', hsel', h⟩
        · simp only [hsel] at h0
          exact Option.noConfusion h0
        · simp only [hsel, Option.some.injEq] at hsel'
          subst hsel'
          rcases h with ⟨h1, -⟩ | ⟨-, h2, -⟩ | ⟨-, -, h3, -⟩ | ⟨-, -, -, -, h⟩
            | ⟨-, -, -, h4, -⟩ | ⟨-, -, -, h4, -⟩
          · exact absurd hscope h1
          · rw [usedPositive_of_none hunused] at h2; exact Bool.noConfusion h2
          · omega
          · exact h
          · exact absurd h4 hsig
          · exact absurd h4 hsig
  refine ⟨hsub, by rw [hsub], ?_⟩
  intro clk2 req2 run2 hv2 hw2 hn2 hrl2 hscope2 hexp2 hsig2
  have hsel2 : selectNonce (submit env clk db req).1.auth_nonces run2.wallet run2.nonce
      = some row := by
    rw [hsub, hw2, hn2]
    exact hsel
  rw [submit_accepted_of hv2 hrl2 hsel2 hscope2 hunused hexp2 hsig2]
  rfl

/-- C3 (amended) on the scenario of the test `rejects invalid signature`,
followed by the same token with the signature of the owner. -/
theorem forged_signature_rejected_nonce_kept_witness :
    (submit (demoEnvFor demoServerMsg) demoClock demoDb forgedReq).2
        = .error 401 "Invalid signature"
      ∧ (submit (demoEnvFor demoServerMsg) demoClock demoDb forgedReq).1.auth_nonces
          = demoDb.auth_nonces
      ∧ (submit (demoEnvFor demoServerMsg) laterClock
          (submit (demoEnvFor demoServerMsg) demoClock demoDb forgedReq).1 demoReq).2.isAccepted
          = true :=
  have hforged : validateSubmit forgedReq
      = .ok (extractRun { demoBody with signature := forgedSig }) :=
    validateSubmit_of rfl (by unfold WellFormed; decide) (by unfold PassesGate; decide)
      (by decide)
  have h := forged_signature_rejected_nonce_kept (demoEnvFor demoServerMsg) demoClock demoDb
    forgedReq (extractRun { demoBody with signature := forgedSig })
    ⟨demoWallet, demoNonce, "sha256(1.2.3.4)", 1771545900000, none⟩
    hforged (by decide) (by decide) (by decide) rfl (by decide)
    (by
      rintro ⟨a, ha, ha'⟩
      have hb : a = otherAddress := by
        have : (demoEnvFor demoServerMsg).verifyMessage
            (signMessageOf (extractRun { demoBody with signature := forgedSig }))
            (extractRun { demoBody with signature := forgedSig }).signature
            = some otherAddress := by decide
        rw [this] at ha
        exact (Option.some.inj ha).symm
      subst hb
      revert ha'
      decide)
  ⟨congrArg Prod.snd h.1, h.2.1,
    h.2.2 laterClock demoReq (extractRun demoBody) demoReq_valid (by decide) (by decide)
      (by decide) (by decide) (by decide) ⟨demoAddress, by decide, by decide⟩⟩

/-! ## Rate limiter -/

theorem find?_map_of_preserved {α : Type} (p : α → Bool) (f : α → α) (rows : List α)
    (hp : ∀ a, p (f a) = p a) : (rows.map f).find? p = (rows.find? p).map f := by
  induction rows with
  | nil => rfl
  | cons a rest ih =>
    rw [List.map_cons, List.find?_cons, List.find?_cons, hp a]
    cases p a
    · exact ih
    · rfl

theorem find?_map_of_fixed {α : Type} (p : α → Bool) (f : α → α) (rows : List α)
    (hp : ∀ a, p (f a) = p a) (hfix : ∀ a, p a = true → f a = a) :
    (rows.map f).find? p = rows.find? p := by
  rw [find?_map_of_preserved p f rows hp]
  cases h : rows.find? p with
  | none => rfl
  | some a => rw [Option.map_some', hfix a (List.find?_some h)]

theorem find_upsertRateWindow_of_ne {rows : List RateRow} {key key2 : String} (ws : Int)
    (hne : key2 ≠ key) :
    (upsertRateWindow rows key ws).find? (fun r => r.key = key2)
      = rows.find? (fun r => r.key = key2) := by
  unfold upsertRateWindow
  split
  · apply find?_map_of_fixed
    · intro a
      by_cases ha : a.key = key <;> simp [ha]
    · intro a ha
      have : a.key ≠ key := fun h => hne ((of_decide_eq_true ha).symm.trans h)
      simp [this]
  · rw [List.find?_append]
    simp [hne.symm]

theorem find_bumpRateCount_of_ne {rows : List RateRow} {key key2 : String} (hne : key2 ≠ key) :
    (bumpRateCount rows key).find? (fun r => r.key = key2)
      = rows.find? (fun r => r.key = key2) := by
  unfold bumpRateCount
  apply find?_map_of_fixed
  · intro a
    by_cases ha : a.key = key <;> simp [ha]
  · intro a ha
    have : a.key ≠ key := fun h => hne ((of_decide_eq_true ha).symm.trans h)
    simp [this]

theorem find_checkAndBump_of_ne {rows : List RateRow} {now : Int} {key key2 : String}
    {maxCount windowMs : Int} (hne : key2 ≠ key) :
    (checkAndBumpRateLimit rows now key maxCount windowMs).1.find? (fun r => r.key = key2)
      = rows.find? (fun r => r.key = key2) := by
  unfold checkAndBumpRateLimit
  simp only []
  split
  · exact find_upsertRateWindow_of_ne _ hne
  · split
    · exact find_upsertRateWindow_of_ne _ hne
    · split
      · rfl
      · exact find_bumpRateCount_of_ne hne

theorem checkAndBump_allowed_of_below {rows : List RateRow} {now : Int} {key : String}
    {maxCount : Int} (h : BelowLimit rows now key maxCount) :
    (checkAndBumpRateLimit rows now key maxCount (10 * 60 * 1000)).2.allowed = true := by
  unfold checkAndBumpRateLimit
  simp only []
  split
  · rfl
  · rename_i row hrow
    split
    · rfl
    · rename_i hws
      have hlt := h row hrow (by simpa [windowStartOf] using hws)
      rw [if_neg (by omega)]

theorem ipKey_ne_walletKey (ip wallet : String) : "wallet:" ++ wallet ≠ "ip:" ++ ip := by
  intro h
  have := congrArg String.data h
  simp only [String.data_append] at this
  have h0 := (List.cons.inj this).1
  revert h0
  decide

theorem applyRateLimits_of_below {rows : List RateRow} {nowIp nowWallet : Int} {ip wallet : String}
    (hip : BelowLimit rows nowIp ("ip:" ++ ip) 30)
    (hw : BelowLimit rows nowWallet ("wallet:" ++ wallet) 10) :
    (applyRateLimits rows nowIp nowWallet ip wallet).2 = none := by
  unfold applyRateLimits
  simp only []
  rw [checkAndBump_allowed_of_below hip]
  simp only [Bool.not_true, Bool.false_eq_true, if_false]
  split
  · have hw2 : BelowLimit (checkAndBumpRateLimit rows nowIp ("ip:" ++ ip) 30 (10 * 60 * 1000)).1
        nowWallet ("wallet:" ++ wallet) 10 := by
      intro row hrow
      rw [find_checkAndBump_of_ne (ipKey_ne_walletKey ip wallet)] at hrow
      exact hw row hrow
    rw [checkAndBump_allowed_of_below hw2]
    rfl
  · rfl

/-! ## Rounding of the double products -/

theorem excessBits_le (fuel : Nat) : ∀ n k : Nat, n < 2 ^ (53 + k) → excessBits fuel n ≤ k := by
  induction fuel with
  | zero => intro n k _; exact Nat.zero_le k
  | succ fuel ih =>
    intro n k h
    unfold excessBits
    split
    · exact Nat.zero_le k
    · rename_i hn
      cases k with
      | zero =>
        exfalso
        apply hn
        have : (2 : Nat) ^ (53 + 0) = 9007199254740992 := by norm_num
        omega
      | succ k =>
        have h2 : n / 2 < 2 ^ (53 + k) := by
          apply Nat.div_lt_of_lt_mul
          have : (2 : Nat) ^ (53 + (k + 1)) = 2 * 2 ^ (53 + k) := by
            rw [← Nat.add_assoc, Nat.pow_succ, Nat.mul_comm]
          omega
        have := ih (n / 2) k h2
        omega

theorem roundSignificand_le (n : Nat) : roundSignificand n ≤ n + 2 ^ excessBits n n := by
  unfold roundSignificand
  simp only []
  have hq : n / 2 ^ excessBits n n * 2 ^ excessBits n n ≤ n := Nat.div_mul_le_self n _
  generalize 2 ^ excessBits n n = P at hq ⊢
  split
  · omega
  · split
    · rw [Nat.add_mul, Nat.one_mul]
      omega
    · omega

theorem roundSignificand_le_of_lt {n k : Nat} (h : n < 2 ^ (53 + k)) :
    roundSignificand n ≤ n + 2 ^ k :=
  le_trans (roundSignificand_le n)
    (Nat.add_le_add_left (Nat.pow_le_pow_right (by norm_num) (excessBits_le n n k h)) n)

/-- For clamped `moves`, the threshold the handler computes never exceeds the
threshold of the specification (it is smaller by one at some multiples of 20). -/
theorem minTimeForMoves_le_spec {m : Int} (h0 : 0 ≤ m) (h1 : m ≤ 1000000000) :
    minTimeForMoves m ≤ minTimeSpec m := by
  unfold minTimeForMoves minTimeSpec mathFloor jsMul double_0_35
  simp only []
  rw [if_neg (by omega)]
  obtain ⟨a, rfl⟩ := Int.eq_ofNat_of_zero_le h0
  have hN : (↑a * 3152519739159347 : Int).natAbs = a * 3152519739159347 := by
    have : (↑a * 3152519739159347 : Int) = ((a * 3152519739159347 : Nat) : Int) := by push_cast; ring
    rw [this, Int.natAbs_ofNat]
  rw [hN]
  have hlt : a * 3152519739159347 < 2 ^ (53 + 29) := by
    have : (2 : Nat) ^ (53 + 29) = 4835703278458516698824704 := by norm_num
    omega
  have hR := roundSignificand_le_of_lt hlt
  have h29 : (2 : Nat) ^ 29 = 536870912 := by norm_num
  rw [h29] at hR
  generalize roundSignificand (a * 3152519739159347) = R at hR
  have h53 : (2 : Int) ^ 53 = 9007199254740992 := by norm_num
  rw [h53, Int.le_floor]
  have hk : 20 * ((R : Int) / 9007199254740992) ≤ 7 * (a : Int) := by omega
  have hk' : (20 : ℚ) * (((R : Int) / 9007199254740992 : Int) : ℚ) ≤ 7 * ((a : Int) : ℚ) := by
    exact_mod_cast hk
  linarith

/-! ## Best-score upsert -/

theorem selectScore_upsertBest_of_none {rows : List ScoreRow} {w d : String} (s mv t : Int)
    (h : selectScore rows w d = none) :
    upsertBest rows w d s mv t = (rows ++ [⟨w, d, s, mv, t⟩], 1)
      ∧ selectScore (upsertBest rows w d s mv t).1 w d = some ⟨w, d, s, mv, t⟩ := by
  unfold selectScore at h
  have hany : rows.any (fun r => decide (r.wallet = w ∧ r.day = d)) = false := by
    rw [List.any_eq_false]
    intro r hr
    have := List.find?_eq_none.mp h r hr
    simpa using this
  have hup : upsertBest rows w d s mv t = (rows ++ [⟨w, d, s, mv, t⟩], 1) := by
    unfold upsertBest
    rw [if_neg (by rw [hany]; exact Bool.false_ne_true)]
  refine ⟨hup, ?_⟩
  rw [hup]
  unfold selectScore
  rw [List.find?_append, h]
  simp

theorem selectScore_upsertBest_of_some {rows : List ScoreRow} {w d : String} (s mv t : Int)
    {old : ScoreRow} (h : selectScore rows w d = some old) :
    selectScore (upsertBest rows w d s mv t).1 w d
      = some (if old.score < s then ⟨old.wallet, old.day, s, mv, t⟩ else old) := by
  unfold selectScore at h
  have hp := List.find?_some h
  have hmem := List.mem_of_find?_eq_some h
  have hany : rows.any (fun r => decide (r.wallet = w ∧ r.day = d)) = true :=
    List.any_eq_true.mpr ⟨old, hmem, hp⟩
  simp only [decide_eq_true_eq] at hp
  unfold upsertBest selectScore
  rw [if_pos hany]
  simp only []
  rw [find?_map_of_preserved, h, Option.map_some']
  · by_cases hs : old.score < s
    · simp [hs, hp.1, hp.2]
    · simp [hs]
  · intro a
    by_cases ha : a.wallet = w ∧ a.day = d ∧ a.score < s
    · simp [ha]
    · simp [ha]

theorem eq_of_find?_of_pairwise {α : Type} (p : α → Bool) (R : α → α → Prop) :
    ∀ (rows : List α), rows.Pairwise R → (∀ a b, p a = true → p b = true → ¬ R a b) →
      ∀ a b, rows.find? p = some a → b ∈ rows → p b = true → b = a := by
  intro rows
  induction rows with
  | nil => intro _ _ a b h; simp at h
  | cons x rest ih =>
    intro hpw hR a b hfind hb hpb
    rw [List.pairwise_cons] at hpw
    rw [List.find?_cons] at hfind
    cases hx : p x with
    | true =>
      rw [hx] at hfind
      cases hfind
      rcases List.mem_cons.mp hb with rfl | hb'
      · rfl
      · exact absurd (hpw.1 b hb') (hR x b hx hpb)
    | false =>
      rw [hx] at hfind
      rcases List.mem_cons.mp hb with rfl | hb'
      · rw [hx] at hpb; exact Bool.noConfusion hpb
      · exact ih hpw.2 hR a b hfind hb' hpb

theorem upsertBest_changes_of_some {rows : List ScoreRow} {w d : String} (s mv t : Int)
    {old : ScoreRow} (hu : ScoreKeysUnique rows) (h : selectScore rows w d = some old) :
    (0 < (upsertBest rows w d s mv t).2 ↔ old.score < s) := by
  unfold selectScore at h
  have hp := List.find?_some h
  have hmem := List.mem_of_find?_eq_some h
  have hany : rows.any (fun r => decide (r.wallet = w ∧ r.day = d)) = true :=
    List.any_eq_true.mpr ⟨old, hmem, hp⟩
  simp only [decide_eq_true_eq] at hp
  unfold upsertBest
  rw [if_pos hany]
  simp only [List.countP_pos_iff, decide_eq_true_eq]
  constructor
  · rintro ⟨r, hr, hrw, hrd, hrs⟩
    have : r = old := eq_of_find?_of_pairwise _ _ rows hu
      (by
        intro a b ha hb
        simp only [decide_eq_true_eq] at ha hb
        simp only [not_not]
        exact ⟨ha.1.trans hb.1.symm, ha.2.trans hb.2.symm⟩)
      old r h hr (by simp [hrw, hrd])
    rw [← this]
    exact hrs
  · intro hs
    exact ⟨old, hmem, hp.1, hp.2, hs⟩

/-- An accepted submission went through every check: this is the only way
`submit` produces the 200 answer. -/
theorem submit_accepted_inv {env : Env} {clk : Clock} {db : DB} {req : Request}
    (h : (submit env clk db req).2.isAccepted = true) :
    ∃ run row, validateSubmit req = .ok run
      ∧ (applyRateLimits db.rate_limits clk.ipLimit clk.walletLimit
          (getClientIP req.headers) run.wallet).2 = none
      ∧ selectNonce db.auth_nonces run.wallet run.nonce = some row
      ∧ row.ip_hash = env.sha256Hex (getClientIP req.headers)
      ∧ row.usedPositive = false ∧ clk.nonce ≤ row.expires_at_ms
      ∧ SignatureValid env run
      ∧ 0 < (consumeNonce db.auth_nonces clk.nonce run.wallet run.nonce
          (env.sha256Hex (getClientIP req.headers))).2
      ∧ submit env clk db req
          = (storeRun env clk { db with rate_limits := (applyRateLimits db.rate_limits
                clk.ipLimit clk.walletLimit (getClientIP req.headers) run.wallet).1 }
              (getClientIP req.headers) run,
             acceptedResponse db run) := by
  rcases submit_cases env clk db req with ⟨resp, he, hs⟩ | ⟨run, hv, hc⟩
  · rw [hs, validateSubmit_error_not_accepted he] at h
    exact Bool.noConfusion h
  · rcases hc with ⟨scope, res, -, hs⟩ | ⟨hrl, hs⟩
    · rw [hs] at h
      exact Bool.noConfusion h
    · rw [hs] at h ⊢
      rcases authorizeAndStore_cases env clk { db with rate_limits := (applyRateLimits
          db.rate_limits clk.ipLimit clk.walletLimit (getClientIP req.headers) run.wallet).1 }
          (getClientIP req.headers) run with
        ⟨-, h0⟩ | ⟨row, hsel, ⟨-, h0⟩ | ⟨-, -, h0⟩ | ⟨-, -, -, h0⟩ | ⟨-, -, -, -, h0⟩
          | ⟨-, -, -, -, -, h0⟩ | ⟨h1, h2, h3, h4, h5, h0⟩⟩
      all_goals first
        | (rw [h0] at h; exact Bool.noConfusion h)
        | exact ⟨run, row, hv, hrl, hsel, h1, h2, h3, h4, h5, h0⟩

/-! ## Accepted submissions -/

theorem clampInt_bounds (n : Option Int) :
    0 ≤ clampInt n 0 1000000000 ∧ clampInt n 0 1000000000 ≤ 1000000000 := by
  unfold clampInt
  cases n with
  | none => simp
  | some k => simp only []; omega

theorem acceptedResponse_best (db : DB) (run : Run) :
    acceptedResponse db run
      = .accepted (decide (0 < (upsertBest db.scores run.wallet run.day run.score run.moves
          run.timeSeconds).2))
        (match selectScore db.scores run.wallet run.day with
          | some old => max run.score old.score
          | none => run.score)
        run.score := by
  unfold acceptedResponse
  simp only []
  cases h : selectScore db.scores run.wallet run.day with
  | none => rw [(selectScore_upsertBest_of_none _ _ _ h).2]
  | some old =>
    rw [selectScore_upsertBest_of_some _ _ _ h]
    simp only [Response.accepted.injEq, true_and, and_true]
    by_cases hs : old.score < run.score
    · rw [if_pos hs]; simp only []; omega
    · rw [if_neg hs]; omega

/-- An honest submission claiming the score of the code is accepted: identity,
day, mode, nonce and signature well formed, `moves >= 40`, `timeSeconds >= 30`,
`timeSeconds >= floor(moves * 0.35)`, the score that
`computeExpectedWinningScore` gives, a
nonce record for the identity and token with the origin hash of the request,
unconsumed and unexpired, both rate counters below their limits, and a
signature that recovers the identity over the message of the server.  The
response is the 200 answer with `your_score = score` and `best_score` the
maximum of `score` and the best previously stored for that identity and day. -/
theorem honest_submission_accepted (env : Env) (clk : Clock) (db : DB) (req : Request)
    (body : SubmitBody) (row : NonceRow)
    (hb : req.body = some body) (hwf : WellFormed (extractRun body))
    (hmoves : 40 ≤ (extractRun body).moves) (htime : 30 ≤ (extractRun body).timeSeconds)
    (hrate : minTimeSpec (extractRun body).moves ≤ (extractRun body).timeSeconds)
    (hscore : (extractRun body).score = computeExpectedWinningScore (extractRun body).moves
      (extractRun body).timeSeconds (extractRun body).mode)
    (hsel : selectNonce db.auth_nonces (extractRun body).wallet (extractRun body).nonce
      = some row)
    (hscope : row.ip_hash = env.sha256Hex (getClientIP req.headers))
    (hunused : row.used_at_ms = none) (hexp : clk.nonce ≤ row.expires_at_ms)
    (hip : BelowLimit db.rate_limits clk.ipLimit ("ip:" ++ getClientIP req.headers) 30)
    (hwl : BelowLimit db.rate_limits clk.walletLimit
      ("wallet:" ++ (extractRun body).wallet) 10)
    (hsig : SignatureValid env (extractRun body)) :
    ∃ db' updated, submit env clk db req
      = (db', .accepted updated
          (match selectScore db.scores (extractRun body).wallet (extractRun body).day with
            | some old => max (extractRun body).score old.score
            | none => (extractRun body).score)
          (extractRun body).score) := by
  have hgate : PassesGate (extractRun body) := by
    refine ⟨hmoves, htime, le_trans (minTimeForMoves_le_spec (by omega) ?_) hrate⟩
    exact (clampInt_bounds body.moves).2
  have hv := validateSubmit_of hb hwf hgate hscore
  have hrl := applyRateLimits_of_below hip hwl
  rw [submit_accepted_of hv hrl hsel hscope hunused hexp hsig, acceptedResponse_best]
  exact ⟨_, _, rfl⟩

/-- The accepting scenario of the test, the wallet having signed the
message of the server, with both rate counters one below their limits. -/
theorem honest_submission_accepted_witness :
    ∃ db' updated, submit (demoEnvFor demoServerMsg) demoClock busyDb demoReq
      = (db', .accepted updated
          (match selectScore busyDb.scores (extractRun demoBody).wallet
              (extractRun demoBody).day with
            | some old => max (extractRun demoBody).score old.score
            | none => (extractRun demoBody).score)
          (extractRun demoBody).score) :=
  honest_submission_accepted (demoEnvFor demoServerMsg) demoClock busyDb demoReq demoBody
    ⟨demoWallet, demoNonce, "sha256(1.2.3.4)", 1771545900000, none⟩
    rfl (by unfold WellFormed; decide) (by decide) (by decide)
    (by unfold minTimeSpec; rw [Int.floor_le_iff]; norm_num [extractRun, demoBody, clampInt])
    (by decide) (by decide) (by decide) rfl (by decide)
    (by
      intro r hr _
      have h : busyDb.rate_limits.find? (fun r => r.key = "ip:" ++ getClientIP demoReq.headers)
          = some ⟨"ip:1.2.3.4", 1771545600000, 29⟩ := by decide
      rw [h] at hr
      cases hr
      decide)
    (by
      intro r hr _
      have h : busyDb.rate_limits.find?
          (fun r => r.key = "wallet:" ++ (extractRun demoBody).wallet)
          = some ⟨"wallet:0x00000000000000000000000000000000000000a1", 1771545600000, 9⟩ := by
        decide
      rw [h] at hr
      cases hr
      decide)
    ⟨demoAddress, by decide, by decide⟩

/-- C10. For an accepted submission of a validated run, on a `scores` table
that satisfies its primary key: if no record existed for the identity and
day, the record afterwards holds the new values and `updated = true`; if a
record existed, the score afterwards is the maximum of the old and the new
score, the record is unchanged with `updated = false` when the new score is
less than or equal to the stored one, and holds the new values with
`updated = true` when it is strictly greater. -/
theorem best_score_never_decreases (env : Env) (clk : Clock) (db db' : DB) (req : Request)
    (run : Run) (updated : Bool) (best yours : Int)
    (hu : ScoreKeysUnique db.scores) (hv : validateSubmit req = .ok run)
    (h : submit env clk db req = (db', .accepted updated best yours)) :
    match selectScore db.scores run.wallet run.day with
    | none =>
        selectScore db'.scores run.wallet run.day
            = some ⟨run.wallet, run.day, run.score, run.moves, run.timeSeconds⟩
          ∧ updated = true ∧ best = run.score
    | some old =>
        (∃ new, selectScore db'.scores run.wallet run.day = some new
            ∧ new.score = max old.score run.score ∧ best = new.score)
          ∧ (run.score ≤ old.score →
              selectScore db'.scores run.wallet run.day = some old ∧ updated = false)
          ∧ (old.score < run.score →
              selectScore db'.scores run.wallet run.day
                  = some ⟨run.wallet, run.day, run.score, run.moves, run.timeSeconds⟩
                ∧ updated = true) := by
  have hacc : (submit env clk db req).2.isAccepted = true := by rw [h]; rfl
  obtain ⟨run', row, hv', -, -, -, -, -, -, -, hs⟩ := submit_accepted_inv hacc
  rw [hv] at hv'
  cases hv'
  rw [hs] at h
  obtain ⟨hdb, hresp⟩ := Prod.mk.inj h
  subst hdb
  rw [acceptedResponse_best] at hresp
  obtain ⟨hupd, hbest, -⟩ := Response.accepted.inj hresp
  have hscores : (storeRun env clk { db with rate_limits := (applyRateLimits db.rate_limits
      clk.ipLimit clk.walletLimit (getClientIP req.headers) run.wallet).1 }
      (getClientIP req.headers) run).scores
      = (upsertBest db.scores run.wallet run.day run.score run.moves run.timeSeconds).1 := rfl
  rw [hscores]
  cases hsel : selectScore db.scores run.wallet run.day with
  | none =>
    rw [hsel] at hbest
    obtain ⟨hup, hsel'⟩ := selectScore_upsertBest_of_none run.score run.moves run.timeSeconds hsel
    refine ⟨hsel', ?_, hbest.symm⟩
    rw [← hupd, hup]
    rfl
  | some old =>
    rw [hsel] at hbest
    simp only [] at hbest
    have hsel' := selectScore_upsertBest_of_some run.score run.moves run.timeSeconds hsel
    have hch := upsertBest_changes_of_some run.score run.moves run.timeSeconds hu hsel
    have hkey := List.find?_some hsel
    simp only [decide_eq_true_eq] at hkey
    simp only []
    refine ⟨⟨_, hsel', ?_, ?_⟩, ?_, ?_⟩
    · by_cases hs : old.score < run.score
      · rw [if_pos hs]; simp only []; omega
      · rw [if_neg hs]; omega
    · by_cases hs : old.score < run.score
      · rw [if_pos hs]; simp only []; omega
      · rw [if_neg hs]; omega
    · intro hle
      rw [hsel', if_neg (by omega)]
      refine ⟨rfl, ?_⟩
      rw [← hupd]
      exact decide_eq_false (fun hpos => absurd (hch.mp hpos) (by omega))
    · intro hlt
      rw [hsel', if_pos hlt, hkey.1, hkey.2]
      refine ⟨rfl, ?_⟩
      rw [← hupd]
      exact decide_eq_true (hch.mpr hlt)

/-- C10 on a database whose stored best (5000) exceeds the submitted score
(4410): the record is kept and `updated = false`. -/
theorem best_score_never_decreases_witness :
    match selectScore bestDb.scores (extractRun demoBody).wallet (extractRun demoBody).day with
    | none =>
        selectScore (submit (demoEnvFor demoServerMsg) demoClock bestDb demoReq).1.scores
            (extractRun demoBody).wallet (extractRun demoBody).day
            = some ⟨(extractRun demoBody).wallet, (extractRun demoBody).day,
                (extractRun demoBody).score, (extractRun demoBody).moves,
                (extractRun demoBody).timeSeconds⟩
          ∧ false = true ∧ (5000 : Int) = (extractRun demoBody).score
    | some old =>
        (∃ new, selectScore (submit (demoEnvFor demoServerMsg) demoClock bestDb demoReq).1.scores
              (extractRun demoBody).wallet (extractRun demoBody).day = some new
            ∧ new.score = max old.score (extractRun demoBody).score ∧ (5000 : Int) = new.score)
          ∧ ((extractRun demoBody).score ≤ old.score →
              selectScore (submit (demoEnvFor demoServerMsg) demoClock bestDb demoReq).1.scores
                (extractRun demoBody).wallet (extractRun demoBody).day = some old
                ∧ false = false)
          ∧ (old.score < (extractRun demoBody).score →
              selectScore (submit (demoEnvFor demoServerMsg) demoClock bestDb demoReq).1.scores
                  (extractRun demoBody).wallet (extractRun demoBody).day
                  = some ⟨(extractRun demoBody).wallet, (extractRun demoBody).day,
                      (extractRun demoBody).score, (extractRun demoBody).moves,
                      (extractRun demoBody).timeSeconds⟩
                ∧ false = true) :=
  best_score_never_decreases (demoEnvFor demoServerMsg) demoClock bestDb
    (submit (demoEnvFor demoServerMsg) demoClock bestDb demoReq).1 demoReq (extractRun demoBody)
    false 5000 4410 (List.pairwise_singleton _ _) demoReq_valid (by decide)

/-! ## Single use of a nonce -/

theorem consume_row_key (now : Int) (w n h : String) (r : NonceRow) :
    (if consumable now w n h r = true then { r with used_at_ms := some now } else r).wallet
        = r.wallet
      ∧ (if consumable now w n h r = true then { r with used_at_ms := some now } else r).nonce
        = r.nonce := by
  split <;> exact ⟨rfl, rfl⟩

theorem consume_row_of_used (now : Int) (w n h : String) (r : NonceRow)
    (hr : r.used_at_ms ≠ none) :
    (if consumable now w n h r = true then { r with used_at_ms := some now } else r) = r := by
  rw [if_neg]
  intro hc
  simp only [consumable, decide_eq_true_eq] at hc
  exact hr hc.2.2.1

theorem consume_row_unused (now : Int) (w n h : String) (r : NonceRow)
    (hr : (if consumable now w n h r = true then { r with used_at_ms := some now } else r).used_at_ms
      = none) :
    r.used_at_ms = none ∧ consumable now w n h r = false := by
  by_cases hc : consumable now w n h r = true
  · rw [if_pos hc] at hr
    exact Option.noConfusion hr
  · rw [if_neg hc] at hr
    exact ⟨hr, by simpa using hc⟩

theorem submit_nonces_of_not_accepted {env : Env} {clk : Clock} {db : DB} {req : Request}
    (h : (submit env clk db req).2.isAccepted = false) :
    (submit env clk db req).1.auth_nonces = db.auth_nonces := by
  rcases submit_cases env clk db req with ⟨resp, -, hs⟩ | ⟨run, -, hc⟩
  · rw [hs]
  · rcases hc with ⟨scope, res, -, hs⟩ | ⟨-, hs⟩
    · rw [hs]
    · rw [hs] at h ⊢
      rcases authorizeAndStore_cases env clk { db with rate_limits := (applyRateLimits
          db.rate_limits clk.ipLimit clk.walletLimit (getClientIP req.headers) run.wallet).1 }
          (getClientIP req.headers) run with
        ⟨-, h0⟩ | ⟨row, -, ⟨-, h0⟩ | ⟨-, -, h0⟩ | ⟨-, -, -, h0⟩ | ⟨-, -, -, -, h0⟩
          | ⟨-, -, -, -, -, h0⟩ | ⟨-, -, -, -, -, h0⟩⟩
      all_goals first
        | (rw [h0] at h; exact Bool.noConfusion h)
        | (rw [h0])

/-- The nonce table after a request: unchanged, or the result of the
conditional update of an accepted request. -/
theorem submit_nonces (env : Env) (clk : Clock) (db : DB) (req : Request) :
    (submit env clk db req).1.auth_nonces = db.auth_nonces
      ∨ ∃ run h, validateSubmit req = .ok run
          ∧ (submit env clk db req).2.isAccepted = true
          ∧ 0 < (consumeNonce db.auth_nonces clk.nonce run.wallet run.nonce h).2
          ∧ (submit env clk db req).1.auth_nonces
              = (consumeNonce db.auth_nonces clk.nonce run.wallet run.nonce h).1 := by
  cases hacc : (submit env clk db req).2.isAccepted with
  | false => exact Or.inl (submit_nonces_of_not_accepted hacc)
  | true =>
    right
    obtain ⟨run, row, hv, -, -, -, -, -, -, hpos, hs⟩ := submit_accepted_inv hacc
    exact ⟨run, _, hv, rfl, hpos, by rw [hs]; rfl⟩

theorem submit_keeps_unique {env : Env} {clk : Clock} {db : DB} {req : Request}
    (hu : NonceKeysUnique db.auth_nonces) :
    NonceKeysUnique (submit env clk db req).1.auth_nonces := by
  rcases submit_nonces env clk db req with h | ⟨run, h, -, -, -, hn⟩
  · rw [h]; exact hu
  · rw [hn]
    unfold consumeNonce NonceKeysUnique
    simp only []
    apply List.Pairwise.map _ _ hu
    intro a b hab
    rw [(consume_row_key _ _ _ _ a).1, (consume_row_key _ _ _ _ a).2,
      (consume_row_key _ _ _ _ b).1, (consume_row_key _ _ _ _ b).2]
    exact hab

theorem submit_keeps_used {env : Env} {clk : Clock} {db : DB} {req : Request} {r : NonceRow}
    (hr : r ∈ db.auth_nonces) (hused : r.used_at_ms ≠ none) :
    r ∈ (submit env clk db req).1.auth_nonces := by
  rcases submit_nonces env clk db req with h | ⟨run, h, -, -, -, hn⟩
  · rw [h]; exact hr
  · rw [hn]
    unfold consumeNonce
    simp only []
    exact List.mem_map.mpr ⟨r, hr, consume_row_of_used _ _ _ _ r hused⟩

theorem submit_keeps_not_live {env : Env} {clk : Clock} {db : DB} {req : Request}
    {wallet nonce : String} (hl : ¬ Live db.auth_nonces wallet nonce) :
    ¬ Live (submit env clk db req).1.auth_nonces wallet nonce := by
  rcases submit_nonces env clk db req with h | ⟨run, h, -, -, -, hn⟩
  · rw [h]; exact hl
  · rw [hn]
    rintro ⟨r', hr', hw, hnn, hnone⟩
    unfold consumeNonce at hr'
    simp only [] at hr'
    obtain ⟨r, hr, rfl⟩ := List.mem_map.mp hr'
    apply hl
    refine ⟨r, hr, ?_, ?_, (consume_row_unused _ _ _ _ r hnone).1⟩
    · rw [← hw, (consume_row_key _ _ _ _ r).1]
    · rw [← hnn, (consume_row_key _ _ _ _ r).2]

theorem eq_of_mem_of_unique {rows : List NonceRow} (hu : NonceKeysUnique rows) :
    ∀ {a b : NonceRow}, a ∈ rows → b ∈ rows → a.wallet = b.wallet → a.nonce = b.nonce →
      a = b := by
  unfold NonceKeysUnique at hu
  induction rows with
  | nil => intro a b ha; simp at ha
  | cons x rest ih =>
    intro a b ha hb hw hn
    rw [List.pairwise_cons] at hu
    rcases List.mem_cons.mp ha with rfl | ha'
    · rcases List.mem_cons.mp hb with rfl | hb'
      · rfl
      · exact absurd ⟨hw, hn⟩ (hu.1 b hb')
    · rcases List.mem_cons.mp hb with rfl | hb'
      · exact absurd ⟨hw.symm, hn.symm⟩ (hu.1 a ha')
      · exact ih hu.2 ha' hb' hw hn

theorem live_of_accepted {env : Env} {clk : Clock} {db : DB} {req : Request}
    {wallet nonce : String} (hacc : (submit env clk db req).2.isAccepted = true)
    (hn : req.names wallet nonce = true) : Live db.auth_nonces wallet nonce := by
  obtain ⟨run, row, hv, -, -, -, -, -, -, hpos, -⟩ := submit_accepted_inv hacc
  obtain ⟨hw, hnn⟩ := names_of_valid hv hn
  unfold consumeNonce at hpos
  simp only [List.countP_pos_iff] at hpos
  obtain ⟨c, hc, hcons⟩ := hpos
  simp only [consumable, decide_eq_true_eq] at hcons
  exact ⟨c, hc, hcons.1.trans hw, hcons.2.1.trans hnn, hcons.2.2.1⟩

theorem not_live_after_accepted {env : Env} {clk : Clock} {db : DB} {req : Request}
    {wallet nonce : String} (hu : NonceKeysUnique db.auth_nonces)
    (hacc : (submit env clk db req).2.isAccepted = true)
    (hn : req.names wallet nonce = true) :
    ¬ Live (submit env clk db req).1.auth_nonces wallet nonce := by
  obtain ⟨run, row, hv, -, -, -, -, -, -, hpos, hs⟩ := submit_accepted_inv hacc
  obtain ⟨hw, hnn⟩ := names_of_valid hv hn
  rw [hs]
  rintro ⟨r', hr', hw', hn', hnone⟩
  have hr'' : r' ∈ (consumeNonce db.auth_nonces clk.nonce run.wallet run.nonce
      (env.sha256Hex (getClientIP req.headers))).1 := hr'
  unfold consumeNonce at hr'' hpos
  simp only [] at hr''
  simp only [List.countP_pos_iff] at hpos
  obtain ⟨r, hr, rfl⟩ := List.mem_map.mp hr''
  obtain ⟨c, hc, hcons⟩ := hpos
  have hkey := consume_row_key clk.nonce run.wallet run.nonce
    (env.sha256Hex (getClientIP req.headers)) r
  have hun := consume_row_unused _ _ _ _ r hnone
  have hc' := hcons
  simp only [consumable, decide_eq_true_eq] at hc'
  have heq : r = c := eq_of_mem_of_unique hu hr hc
    (by rw [← hkey.1, hw', hc'.1, hw]) (by rw [← hkey.2, hn', hc'.2.1, hnn])
  rw [heq, hcons] at hun
  exact Bool.noConfusion hun.2

theorem acceptedFor_eq_zero (env : Env) (wallet nonce : String) :
    ∀ (reqs : List (Clock × Request)) (db : DB), ¬ Live db.auth_nonces wallet nonce →
      acceptedFor env wallet nonce db reqs = 0 := by
  intro reqs
  induction reqs with
  | nil => intro db _; rfl
  | cons p rest ih =>
    intro db hl
    obtain ⟨clk, req⟩ := p
    unfold acceptedFor
    rw [ih _ (submit_keeps_not_live hl), if_neg]
    intro hc
    rw [Bool.and_eq_true] at hc
    exact hl (live_of_accepted hc.1 hc.2)

theorem acceptedFor_le_one (env : Env) (wallet nonce : String) :
    ∀ (reqs : List (Clock × Request)) (db : DB), NonceKeysUnique db.auth_nonces →
      acceptedFor env wallet nonce db reqs ≤ 1 := by
  intro reqs
  induction reqs with
  | nil => intro db _; exact Nat.zero_le 1
  | cons p rest ih =>
    intro db hu
    obtain ⟨clk, req⟩ := p
    unfold acceptedFor
    by_cases hc : ((submit env clk db req).2.isAccepted && req.names wallet nonce) = true
    · rw [if_pos hc]
      rw [Bool.and_eq_true] at hc
      rw [acceptedFor_eq_zero env wallet nonce rest _ (not_live_after_accepted hu hc.1 hc.2)]
    · rw [if_neg hc, Nat.zero_add]
      exact ih _ (submit_keeps_unique hu)

theorem runAll_invariants (env : Env) :
    ∀ (reqs : List (Clock × Request)) (db : DB), NonceKeysUnique db.auth_nonces →
      NonceKeysUnique (runAll env db reqs).1.auth_nonces
        ∧ ∀ r ∈ db.auth_nonces, r.used_at_ms ≠ none → r ∈ (runAll env db reqs).1.auth_nonces := by
  intro reqs
  induction reqs with
  | nil => intro db hu; exact ⟨hu, fun r hr _ => hr⟩
  | cons p rest ih =>
    intro db hu
    obtain ⟨clk, req⟩ := p
    unfold runAll
    simp only []
    obtain ⟨h1, h2⟩ := ih (submit env clk db req).1 (submit_keeps_unique hu)
    exact ⟨h1, fun r hr hused => h2 r (submit_keeps_used hr hused) hused⟩

/-- C1. On a nonce table that satisfies `UNIQUE(wallet, nonce)`, for every
finite sequence of `/submit` requests handled one after another, at most one
request naming a given `(wallet, nonce)` is accepted, that is, gets past the
conditional `UPDATE` with a positive row count and reaches the writes; a
record whose `used_at_ms` is set is found unchanged in the final table; and
the uniqueness constraint still holds at the end. -/
theorem nonce_single_use (env : Env) (db : DB) (reqs : List (Clock × Request))
    (wallet nonce : String) (hu : NonceKeysUnique db.auth_nonces) :
    acceptedFor env wallet nonce db reqs ≤ 1
      ∧ (∀ r ∈ db.auth_nonces, r.used_at_ms ≠ none →
          r ∈ (runAll env db reqs).1.auth_nonces)
      ∧ NonceKeysUnique (runAll env db reqs).1.auth_nonces :=
  ⟨acceptedFor_le_one env wallet nonce reqs db hu, (runAll_invariants env reqs db hu).2,
    (runAll_invariants env reqs db hu).1⟩

/-- C1 on three requests that name the nonce of `demoDb` (a forged signature,
the honest request, its replay): exactly one of them is accepted. -/
theorem nonce_single_use_witness :
    acceptedFor (demoEnvFor demoServerMsg) demoWallet demoNonce demoDb demoSequence = 1
      ∧ acceptedFor (demoEnvFor demoServerMsg) demoWallet demoNonce demoDb demoSequence ≤ 1
      ∧ (runAll (demoEnvFor demoServerMsg) demoDb demoSequence).2.map Response.isAccepted
          = [false, true, false] :=
  ⟨by decide,
    (nonce_single_use (demoEnvFor demoServerMsg) demoDb demoSequence demoWallet demoNonce
      (List.pairwise_singleton _ _)).1,
    by decide⟩

/-! ## The score formula without wrap-around -/

theorem excessBits_eq_zero {n : Nat} (h : n < 9007199254740992) : excessBits n n = 0 := by
  cases n with
  | zero => rfl
  | succ k => unfold excessBits; rw [if_pos h]

theorem roundSignificand_of_lt {n : Nat} (h : n < 9007199254740992) : roundSignificand n = n := by
  unfold roundSignificand
  simp only []
  rw [excessBits_eq_zero h, if_pos rfl]

theorem roundSignificand_ge_of_multiple {n m : Nat} (hs : excessBits n n ≤ 53)
    (hm : m * 2 ^ 53 ≤ n) : m * 2 ^ 53 ≤ roundSignificand n := by
  have hP : (2 : Nat) ^ 53 = 2 ^ (53 - excessBits n n) * 2 ^ excessBits n n := by
    rw [← Nat.pow_add, Nat.sub_add_cancel hs]
  have hpos : 0 < 2 ^ excessBits n n := Nat.pow_pos (by norm_num)
  have hq : m * 2 ^ (53 - excessBits n n) ≤ n / 2 ^ excessBits n n := by
    rw [Nat.le_div_iff_mul_le hpos, Nat.mul_assoc, ← hP]
    exact hm
  have hq2 : m * 2 ^ 53 ≤ n / 2 ^ excessBits n n * 2 ^ excessBits n n := by
    rw [hP, ← Nat.mul_assoc]
    exact Nat.mul_le_mul_right _ hq
  unfold roundSignificand
  simp only []
  split
  · exact hm
  · split
    · rw [Nat.add_mul, Nat.one_mul]
      exact le_trans hq2 (Nat.le_add_right _ _)
    · exact hq2

theorem roundSignificand_ge (n : Nat) : n < roundSignificand n + 2 ^ excessBits n n := by
  have hpos : 0 < 2 ^ excessBits n n := Nat.pow_pos (by norm_num)
  have hdm := Nat.div_add_mod n (2 ^ excessBits n n)
  have hmod := Nat.mod_lt n hpos
  unfold roundSignificand
  simp only []
  rw [Nat.mul_comm] at hdm
  generalize 2 ^ excessBits n n = P at hdm hmod hpos ⊢
  split
  · omega
  · split
    · rw [Nat.add_mul, Nat.one_mul]
      omega
    · omega

theorem floor_mul_ratio (x num : Int) :
    ⌊(x : ℚ) * ((num : ℚ) / 20)⌋ = num * x / 20 := by
  rw [Int.floor_eq_iff]
  have h1 : num * x = 20 * (num * x / 20) + num * x % 20 := (Int.ediv_add_emod (num * x) 20).symm
  have h2 : 0 ≤ num * x % 20 := Int.emod_nonneg _ (by norm_num)
  have h3 : num * x % 20 < 20 := Int.emod_lt_of_pos _ (by norm_num)
  have h1' : (num : ℚ) * (x : ℚ) = 20 * ((num * x / 20 : Int) : ℚ) + ((num * x % 20 : Int) : ℚ) := by
    exact_mod_cast h1
  have h2' : (0 : ℚ) ≤ ((num * x % 20 : Int) : ℚ) := by exact_mod_cast h2
  have h3' : ((num * x % 20 : Int) : ℚ) < 20 := by exact_mod_cast h3
  constructor <;> linarith

theorem minTimeSpec_eq (m : Int) : minTimeSpec m = 7 * m / 20 := by
  unfold minTimeSpec
  have : ((35 : ℚ) / 100) = ((7 : Int) : ℚ) / 20 := by norm_num
  rw [this, floor_mul_ratio]

theorem expectedScoreSpec_easy (moves t : Int) :
    expectedScoreSpec moves t "easy" = max 0 (13 * (4820 - t - 2 * moves) / 20) := by
  unfold expectedScoreSpec
  rw [if_pos rfl]
  have : ((65 : ℚ) / 100) = ((13 : Int) : ℚ) / 20 := by norm_num
  rw [this, floor_mul_ratio]
  congr 2
  ring_nf

theorem expectedScoreSpec_normal (moves t : Int) {mode : String} (hmode : mode ≠ "easy") :
    expectedScoreSpec moves t mode = max 0 (4820 - t - 2 * moves) := by
  unfold expectedScoreSpec
  rw [if_neg hmode, mul_one, Int.floor_intCast]
  congr 1
  ring

/-- The threshold the handler computes is the one of the specification or
one less. -/
theorem minTimeSpec_le_succ {m : Int} (h0 : 0 ≤ m) (h1 : m ≤ 1000000000) :
    minTimeSpec m ≤ minTimeForMoves m + 1 := by
  rw [minTimeSpec_eq]
  unfold minTimeForMoves mathFloor jsMul double_0_35
  simp only []
  rw [if_neg (by omega)]
  obtain ⟨a, rfl⟩ := Int.eq_ofNat_of_zero_le h0
  have hN : (↑a * 3152519739159347 : Int).natAbs = a * 3152519739159347 := by
    have : (↑a * 3152519739159347 : Int) = ((a * 3152519739159347 : Nat) : Int) := by push_cast; ring
    rw [this, Int.natAbs_ofNat]
  rw [hN]
  have hlt : a * 3152519739159347 < 2 ^ (53 + 29) := by
    have : (2 : Nat) ^ (53 + 29) = 4835703278458516698824704 := by norm_num
    omega
  have hR := roundSignificand_ge (a * 3152519739159347)
  have hs : 2 ^ excessBits (a * 3152519739159347) (a * 3152519739159347) ≤ 2 ^ 29 :=
    Nat.pow_le_pow_right (by norm_num) (excessBits_le _ _ 29 hlt)
  have h29 : (2 : Nat) ^ 29 = 536870912 := by norm_num
  rw [h29] at hs
  generalize 2 ^ excessBits (a * 3152519739159347) (a * 3152519739159347) = P at hR hs
  generalize roundSignificand (a * 3152519739159347) = R at hR
  have h53 : (2 : Int) ^ 53 = 9007199254740992 := by norm_num
  rw [h53]
  omega

/-- For a mode other than `easy` and clamped inputs that keep `raw` within the
32-bit range, the code computes the formula of the specification. -/
theorem computeExpectedWinningScore_normal_of_no_wrap {moves t : Int} {mode : String}
    (hmode : mode ≠ "easy") (h0 : 0 ≤ moves) (h1 : 0 ≤ t) (hw : t + 2 * moves ≤ 2147488468) :
    computeExpectedWinningScore moves t mode = expectedScoreSpec moves t mode := by
  rw [expectedScoreSpec_normal moves t hmode]
  unfold computeExpectedWinningScore scoreMultiplierForMode jsMul toInt32 double_1
  simp only []
  rw [if_neg hmode]
  simp only [mul_one, pow_zero, Int.tdiv_one]
  rw [roundSignificand_of_lt (by omega)]
  have hraw : (if (1800 - t - moves * 2 + 52 * 35 + 1200 : Int) < 0
      then -(((1800 - t - moves * 2 + 52 * 35 + 1200 : Int).natAbs : Nat) : Int)
      else (((1800 - t - moves * 2 + 52 * 35 + 1200 : Int).natAbs : Nat) : Int))
      = 4820 - t - 2 * moves := by
    split <;> omega
  rw [hraw]
  split <;> omega

/-- Beyond that range the conversion `| 0` wraps: the code yields
`raw + 2 ^ 32`, a positive number, where the formula yields `0`. -/
theorem computeExpectedWinningScore_normal_of_wrap {moves t : Int} {mode : String}
    (hmode : mode ≠ "easy") (h0 : moves ≤ 1000000000) (h1 : t ≤ 1000000000)
    (hw : 2147488468 < t + 2 * moves) :
    computeExpectedWinningScore moves t mode = 4820 - t - 2 * moves + 4294967296
      ∧ expectedScoreSpec moves t mode = 0 := by
  rw [expectedScoreSpec_normal moves t hmode]
  unfold computeExpectedWinningScore scoreMultiplierForMode jsMul toInt32 double_1
  simp only []
  rw [if_neg hmode]
  simp only [mul_one, pow_zero, Int.tdiv_one]
  rw [roundSignificand_of_lt (by omega)]
  have hraw : (if (1800 - t - moves * 2 + 52 * 35 + 1200 : Int) < 0
      then -(((1800 - t - moves * 2 + 52 * 35 + 1200 : Int).natAbs : Nat) : Int)
      else (((1800 - t - moves * 2 + 52 * 35 + 1200 : Int).natAbs : Nat) : Int))
      = 4820 - t - 2 * moves := by
    split <;> omega
  rw [hraw]
  constructor
  · split <;> omega
  · omega

/-- In mode `easy` the double product `raw * 0.65`, truncated by `| 0` and
clamped at zero, is the formula of the specification for all clamped inputs. -/
theorem computeExpectedWinningScore_easy {moves t : Int} (h0 : 0 ≤ moves)
    (h0' : moves ≤ 1000000000) (h1 : 0 ≤ t) (h1' : t ≤ 1000000000) :
    computeExpectedWinningScore moves t "easy" = expectedScoreSpec moves t "easy" := by
  rw [expectedScoreSpec_easy]
  unfold computeExpectedWinningScore scoreMultiplierForMode jsMul toInt32 double_0_65
  simp only [if_true]
  have h53 : (2 : Int) ^ 53 = 9007199254740992 := by norm_num
  simp only [h53]
  have hr1 : (1800 - t - moves * 2 + 52 * 35 + 1200 : Int) = 4820 - t - 2 * moves := by omega
  rw [hr1]
  generalize hraw : (4820 - t - 2 * moves : Int) = raw
  by_cases hneg : raw < 0
  · have hp : raw * 5854679515581645 < 0 := by omega
    rw [if_pos hp]
    have hN : (raw * 5854679515581645).natAbs = raw.natAbs * 5854679515581645 := by omega
    rw [hN]
    have hlt : raw.natAbs * 5854679515581645 < 2 ^ (53 + 31) := by
      have : (2 : Nat) ^ (53 + 31) = 19342813113834066795298816 := by norm_num
      omega
    have hR := roundSignificand_le_of_lt hlt
    have h31 : (2 : Nat) ^ 31 = 2147483648 := by norm_num
    rw [h31] at hR
    generalize roundSignificand (raw.natAbs * 5854679515581645) = R at hR
    rw [Int.neg_tdiv, Int.tdiv_eq_ediv (by omega) (by norm_num)]
    split <;> omega
  · have hp : ¬ raw * 5854679515581645 < 0 := by omega
    rw [if_neg hp]
    have hN : (raw * 5854679515581645).natAbs = raw.natAbs * 5854679515581645 := by omega
    rw [hN]
    have hlt : raw.natAbs * 5854679515581645 < 2 ^ (53 + 13) := by
      have : (2 : Nat) ^ (53 + 13) = 73786976294838206464 := by norm_num
      omega
    have hR := roundSignificand_le_of_lt hlt
    have h13 : (2 : Nat) ^ 13 = 8192 := by norm_num
    rw [h13] at hR
    have hs : excessBits (raw.natAbs * 5854679515581645) (raw.natAbs * 5854679515581645) ≤ 53 :=
      le_trans (excessBits_le _ _ 13 hlt) (by norm_num)
    have h53n : (2 : Nat) ^ 53 = 9007199254740992 := by norm_num
    have hL := roundSignificand_ge_of_multiple (m := 13 * raw.natAbs / 20) hs
      (by rw [h53n]; omega)
    rw [h53n] at hL
    generalize roundSignificand (raw.natAbs * 5854679515581645) = R at hR hL
    have hb : raw.natAbs ≤ 4820 := by omega
    have hk1 : 20 * (13 * raw.natAbs / 20) ≤ 13 * raw.natAbs := by omega
    have hk2 : 13 * raw.natAbs < 20 * (13 * raw.natAbs / 20) + 20 := by omega
    have hi : (13 * raw / 20 : Int) = ((13 * raw.natAbs / 20 : Nat) : Int) := by omega
    generalize 13 * raw.natAbs / 20 = k at hL hk1 hk2 hi
    have hdiv : R / 9007199254740992 = k := by
      apply Nat.div_eq_of_lt_le
      · exact hL
      · omega
    have hdiv' : (R : Int) / 9007199254740992 = (k : Int) := by
      rw [← hdiv]; norm_cast
    rw [Int.tdiv_eq_ediv (by omega) (by norm_num), hdiv', hi]
    have hk3 : k ≤ 3133 := by omega
    have hmod : (k : Int) % 4294967296 = k := Int.emod_eq_of_lt (by omega) (by omega)
    rw [hmod, if_neg (by omega)]

/-- The score proof with the formula of the specification in place of the
code: a well-formed submission that passes the gate and whose clamped score
differs from `expectedScoreSpec` is answered 401 `Invalid score proof` as
well (where the code wraps, its value exceeds every clamped score). -/
theorem rejected_of_spec_score_mismatch {env : Env} {clk : Clock} {db : DB} {req : Request}
    {body : SubmitBody} (hb : req.body = some body) (hwf : WellFormed (extractRun body))
    (hg : PassesGate (extractRun body))
    (hs : (extractRun body).score ≠ expectedScoreSpec (extractRun body).moves
      (extractRun body).timeSeconds (extractRun body).mode) :
    submit env clk db req = (db, .error 401 "Invalid score proof") := by
  apply rejected_of_score_mismatch hb hwf hg
  intro heq
  apply hs
  have hm := clampInt_bounds body.moves
  have ht := clampInt_bounds body.time_seconds
  have hsc := clampInt_bounds body.score
  have hmv : (extractRun body).moves = clampInt body.moves 0 1000000000 := rfl
  have htv : (extractRun body).timeSeconds = clampInt body.time_seconds 0 1000000000 := rfl
  have hsv : (extractRun body).score = clampInt body.score 0 1000000000 := rfl
  rw [← hmv] at hm
  rw [← htv] at ht
  rw [← hsv] at hsc
  rcases hwf.2.2.1 with hmode | hmode
  · have hne : (extractRun body).mode ≠ "easy" := by rw [hmode]; decide
    by_cases hw : (extractRun body).timeSeconds + 2 * (extractRun body).moves ≤ 2147488468
    · rw [heq]
      exact computeExpectedWinningScore_normal_of_no_wrap hne hm.1 ht.1 hw
    · exfalso
      have := (computeExpectedWinningScore_normal_of_wrap hne hm.2 ht.2 (by omega)).1
      rw [← heq] at this
      omega
  · rw [heq, hmode]
    exact computeExpectedWinningScore_easy hm.1 hm.2 ht.1 ht.2

/-! ## Order of the checks -/

theorem submit_of_valid_of_rate_ok {env : Env} {clk : Clock} {db : DB} {req : Request}
    {run : Run} (hv : validateSubmit req = .ok run)
    (hrl : (applyRateLimits db.rate_limits clk.ipLimit clk.walletLimit
      (getClientIP req.headers) run.wallet).2 = none) :
    submit env clk db req
      = authorizeAndStore env clk
          { db with rate_limits := (applyRateLimits db.rate_limits clk.ipLimit clk.walletLimit
              (getClientIP req.headers) run.wallet).1 }
          (getClientIP req.headers) run := by
  rcases submit_cases env clk db req with ⟨resp, he, -⟩ | ⟨run', hv', h⟩
  · rw [hv] at he; exact Except.noConfusion he
  · rw [hv] at hv'
    cases hv'
    rcases h with ⟨scope, res, hs, -⟩ | ⟨-, hs⟩
    · rw [hrl] at hs; exact Option.noConfusion hs
    · exact hs

theorem submit_not_score_proof_of_valid {env : Env} {clk : Clock} {db : DB} {req : Request}
    {run : Run} (hv : validateSubmit req = .ok run) :
    (submit env clk db req).2 ≠ .error 401 "Invalid score proof" := by
  rcases submit_cases env clk db req with ⟨resp, he, -⟩ | ⟨run', hv', h⟩
  · rw [hv] at he; exact Except.noConfusion he
  · rcases h with ⟨scope, res, -, hs⟩ | ⟨-, hs⟩
    · rw [hs]; simp
    · rw [hs]
      rcases authorizeAndStore_cases env clk _ (getClientIP req.headers) run' with
        ⟨-, h⟩ | ⟨row, -, ⟨-, h⟩ | ⟨-, -, h⟩ | ⟨-, -, -, h⟩ | ⟨-, -, -, -, h⟩
          | ⟨-, -, -, -, -, h⟩ | ⟨-, -, -, -, -, h⟩⟩ <;>
        rw [h] <;> simp [acceptedResponse]

/-- C12. A `/submit` request that is rejected as an implausible run or for an
invalid score proof leaves the whole database unchanged: `rate_limits` (no
counter created or incremented), `auth_nonces`, `scores` and `score_runs`. -/
theorem stateless_rejection_leaves_store (env : Env) (clk : Clock) (db : DB) (req : Request)
    (h : (submit env clk db req).2.isImplausibleRun = true
      ∨ (submit env clk db req).2 = .error 401 "Invalid score proof") :
    (submit env clk db req).1 = db := by
  rcases submit_cases env clk db req with ⟨resp, -, hs⟩ | ⟨run, hv, -⟩
  · rw [hs]
  · rcases h with h | h
    · rw [submit_not_implausible_of_valid hv] at h
      exact Bool.noConfusion h
    · exact absurd h (submit_not_score_proof_of_valid hv)

/-- C12 on the requests of the tests `rejects implausible speed vs moves` and
`rejects invalid score proof`, on a database with rate counters and a nonce. -/
theorem stateless_rejection_leaves_store_witness :
    (submit (demoEnvFor demoServerMsg) demoClock busyDb tooQuickReq).2
        = .error 422 "Implausible run: time too low"
      ∧ (submit (demoEnvFor demoServerMsg) demoClock busyDb tooQuickReq).1 = busyDb
      ∧ (submit (demoEnvFor badScoreMsg) demoClock busyDb badScoreReq).1 = busyDb :=
  ⟨by decide,
    stateless_rejection_leaves_store (demoEnvFor demoServerMsg) demoClock busyDb tooQuickReq
      (Or.inl (by decide)),
    stateless_rejection_leaves_store (demoEnvFor badScoreMsg) demoClock busyDb badScoreReq
      (Or.inr (by decide))⟩

/-- C13 (as stated, refuted). A nonce record whose `used_at_ms` is set to `0`
does not make the read answer `Nonce already used`: the handler tests
`used_at_ms > 0`.  With a signature of another key the request is answered
`Invalid signature`; when the record is also expired, `Nonce expired`; with
the signature of the owner it fails only at the conditional update. -/
theorem nonce_used_at_zero_not_already_used :
    (selectNonce zeroUsedDb.auth_nonces demoWallet demoNonce).map (fun r => r.used_at_ms)
        = some (some 0)
      ∧ (submit (demoEnvFor demoServerMsg) demoClock zeroUsedDb forgedReq).2
          = .error 401 "Invalid signature"
      ∧ (submit (demoEnvFor demoServerMsg) demoClock zeroUsedExpiredDb demoReq).2
          = .error 401 "Nonce expired"
      ∧ (submit (demoEnvFor demoServerMsg) demoClock zeroUsedDb demoReq).2
          = .error 401 "Nonce already used or expired" := by
  refine ⟨by decide, by decide, by decide, by decide⟩

/-- C13 (amended). For a request that passes the stateless checks and the rate
limits, the nonce read answers, in this order of precedence: `Invalid nonce`
if no record exists for the identity and token; `Invalid nonce scope` if the
origin hash of the record differs from that of the request, whatever the
signature; `Nonce already used` if `used_at_ms` is set to a positive value;
`Nonce expired` if `used_at_ms` is null or not positive and `expires_at_ms <
now`.  In each case only the rate counters are written, so the nonce table is
unchanged. -/
theorem nonce_read_reasons (env : Env) (clk : Clock) (db : DB) (req : Request) (run : Run)
    (hv : validateSubmit req = .ok run)
    (hrl : (applyRateLimits db.rate_limits clk.ipLimit clk.walletLimit
      (getClientIP req.headers) run.wallet).2 = none) :
    (selectNonce db.auth_nonces run.wallet run.nonce = none →
        (submit env clk db req).2 = .error 401 "Invalid nonce"
          ∧ (submit env clk db req).1.auth_nonces = db.auth_nonces)
      ∧ ∀ row, selectNonce db.auth_nonces run.wallet run.nonce = some row →
        (row.ip_hash ≠ env.sha256Hex (getClientIP req.headers) →
          (submit env clk db req).2 = .error 401 "Invalid nonce scope"
            ∧ (submit env clk db req).1.auth_nonces = db.auth_nonces)
        ∧ (row.ip_hash = env.sha256Hex (getClientIP req.headers) →
            (∃ t, row.used_at_ms = some t ∧ 0 < t) →
          (submit env clk db req).2 = .error 401 "Nonce already used"
            ∧ (submit env clk db req).1.auth_nonces = db.auth_nonces)
        ∧ (row.ip_hash = env.sha256Hex (getClientIP req.headers) →
            (row.used_at_ms = none ∨ ∃ t, row.used_at_ms = some t ∧ t ≤ 0) →
            row.expires_at_ms < clk.nonce →
          (submit env clk db req).2 = .error 401 "Nonce expired"
            ∧ (submit env clk db req).1.auth_nonces = db.auth_nonces) := by
  rw [submit_of_valid_of_rate_ok hv hrl]
  rcases authorizeAndStore_cases env clk { db with rate_limits := (applyRateLimits
      db.rate_limits clk.ipLimit clk.walletLimit (getClientIP req.headers) run.wallet).1 }
      (getClientIP req.headers) run with ⟨h0, h⟩ | ⟨row, hsel, h⟩
  · refine ⟨fun _ => by rw [h]; exact ⟨rfl, rfl⟩, fun row hrow => ?_⟩
    have h0' : selectNonce db.auth_nonces run.wallet run.nonce = none := h0
    rw [h0'] at hrow
    exact Option.noConfusion hrow
  · have hsel' : selectNonce db.auth_nonces run.wallet run.nonce = some row := hsel
    refine ⟨fun hnone => ?_, fun row' hrow' => ?_⟩
    · rw [hsel'] at hnone
      exact Option.noConfusion hnone
    · rw [hsel', Option.some.injEq] at hrow'
      subst hrow'
      refine ⟨fun hne => ?_, fun he hused => ?_, fun he hun hexp => ?_⟩
      · rcases h with ⟨-, h⟩ | ⟨h1, -⟩ | ⟨h1, -⟩ | ⟨h1, -⟩ | ⟨h1, -⟩ | ⟨h1, -⟩
        · rw [h]; exact ⟨rfl, rfl⟩
        all_goals exact absurd h1 hne
      · obtain ⟨t, ht, htpos⟩ := hused
        have hup := usedPositive_of_some ht htpos
        rcases h with ⟨h1, -⟩ | ⟨-, -, h⟩ | ⟨-, h2, -⟩ | ⟨-, h2, -⟩ | ⟨-, h2, -⟩ | ⟨-, h2, -⟩
        · exact absurd he h1
        · rw [h]; exact ⟨rfl, rfl⟩
        all_goals (rw [hup] at h2; exact Bool.noConfusion h2)
      · have hup : row.usedPositive = false := by
          rcases hun with hn | ⟨t, ht, hle⟩
          · exact usedPositive_of_none hn
          · simp [NonceRow.usedPositive, ht]; omega
        rcases h with ⟨h1, -⟩ | ⟨-, h2, -⟩ | ⟨-, -, -, h⟩ | ⟨-, -, h3, -⟩ | ⟨-, -, h3, -⟩
          | ⟨-, -, h3, -⟩
        · exact absurd he h1
        · rw [hup] at h2; exact Bool.noConfusion h2
        · rw [h]; exact ⟨rfl, rfl⟩
        all_goals omega

/-- C13 (amended) on a token issued to origin `1.2.3.4` and submitted, validly
signed, from origin `5.6.7.8`. -/
theorem nonce_read_reasons_witness :
    (submit (demoEnvFor demoServerMsg) demoClock demoDb otherOriginReq).2
        = .error 401 "Invalid nonce scope"
      ∧ (submit (demoEnvFor demoServerMsg) demoClock demoDb otherOriginReq).1.auth_nonces
        = demoDb.auth_nonces :=
  ((nonce_read_reasons (demoEnvFor demoServerMsg) demoClock demoDb otherOriginReq
      (extractRun demoBody)
      (validateSubmit_of rfl (by unfold WellFormed; decide) (by unfold PassesGate; decide)
        (by decide))
      (by decide)).2
    ⟨demoWallet, demoNonce, "sha256(1.2.3.4)", 1771545900000, none⟩ (by decide)).1 (by decide)

/-! ## Fixed-window rate limit -/

theorem counterOf_upsertRateWindow (rows : List RateRow) (key : String) (ws : Int) :
    ∃ r, counterOf (upsertRateWindow rows key ws) key = some r
      ∧ r.window_start = ws ∧ r.count = 1 := by
  unfold counterOf upsertRateWindow
  split
  · rename_i hany
    obtain ⟨a, ha, hp⟩ := List.any_eq_true.mp hany
    rw [find?_map_of_preserved]
    · cases hf : rows.find? (fun r => decide (r.key = key)) with
      | none =>
        have := List.find?_eq_none.mp hf a ha
        exact absurd hp this
      | some r =>
        have hr := List.find?_some hf
        simp only [decide_eq_true_eq] at hr
        refine ⟨_, rfl, ?_, ?_⟩ <;> simp [hr]
    · intro a
      by_cases ha : a.key = key <;> simp [ha]
  · rename_i hany
    have hnone : rows.find? (fun r => decide (r.key = key)) = none := by
      rw [List.find?_eq_none]
      intro a ha hp
      exact hany (List.any_eq_true.mpr ⟨a, ha, hp⟩)
    rw [List.find?_append, hnone]
    exact ⟨⟨key, ws, 1⟩, by simp, rfl, rfl⟩

theorem counterOf_bumpRateCount {rows : List RateRow} {key : String} {row : RateRow}
    (h : counterOf rows key = some row) :
    ∃ r, counterOf (bumpRateCount rows key) key = some r
      ∧ r.window_start = row.window_start ∧ r.count = row.count + 1 := by
  unfold counterOf at h ⊢
  unfold bumpRateCount
  have hr := List.find?_some h
  simp only [decide_eq_true_eq] at hr
  rw [find?_map_of_preserved, h]
  · refine ⟨_, rfl, ?_, ?_⟩ <;> simp [hr]
  · intro a
    by_cases ha : a.key = key <;> simp [ha]

/-- The three outcomes of one call of `checkAndBumpRateLimit`: a new window is
opened, the call is denied, or the counter of the current window is bumped. -/
theorem checkAndBump_cases (rows : List RateRow) (now : Int) (key : String)
    (maxCount windowMs : Int) :
    ((counterOf rows key = none
          ∨ ∃ row, counterOf rows key = some row
              ∧ row.window_start ≠ windowStartFor now windowMs)
        ∧ (checkAndBumpRateLimit rows now key maxCount windowMs).2.allowed = true
        ∧ ∃ r, counterOf (checkAndBumpRateLimit rows now key maxCount windowMs).1 key = some r
            ∧ r.window_start = windowStartFor now windowMs ∧ r.count = 1)
    ∨ (∃ row, counterOf rows key = some row
        ∧ row.window_start = windowStartFor now windowMs ∧ maxCount ≤ row.count
        ∧ (checkAndBumpRateLimit rows now key maxCount windowMs).2.allowed = false
        ∧ (checkAndBumpRateLimit rows now key maxCount windowMs).1 = rows
        ∧ (checkAndBumpRateLimit rows now key maxCount windowMs).2.resetMs
            = windowStartFor now windowMs + windowMs)
    ∨ (∃ row, counterOf rows key = some row
        ∧ row.window_start = windowStartFor now windowMs ∧ row.count < maxCount
        ∧ (checkAndBumpRateLimit rows now key maxCount windowMs).2.allowed = true
        ∧ ∃ r, counterOf (checkAndBumpRateLimit rows now key maxCount windowMs).1 key = some r
            ∧ r.window_start = windowStartFor now windowMs ∧ r.count = row.count + 1) := by
  unfold checkAndBumpRateLimit
  simp only []
  cases hc : rows.find? (fun r => decide (r.key = key)) with
  | none =>
    left
    exact ⟨Or.inl hc, rfl, counterOf_upsertRateWindow rows key _⟩
  | some row =>
    simp only []
    by_cases hws : row.window_start = now - now.tmod windowMs
    · rw [if_neg (not_not.mpr hws)]
      by_cases hmax : maxCount ≤ row.count
      · right; left
        rw [if_pos hmax]
        exact ⟨row, hc, hws, hmax, rfl, rfl, rfl⟩
      · right; right
        rw [if_neg hmax]
        obtain ⟨r, hr, hr1, hr2⟩ := counterOf_bumpRateCount hc
        exact ⟨row, hc, hws, by omega, rfl, r, hr, hr1.trans hws, hr2⟩
    · left
      rw [if_pos hws]
      exact ⟨Or.inr ⟨row, hc, hws⟩, rfl, counterOf_upsertRateWindow rows key _⟩

theorem windowStartFor_eq (now : Int) {windowMs : Int} :
    windowStartFor now windowMs = windowMs * now.tdiv windowMs := by
  unfold windowStartFor
  rw [Int.tmod_def]
  ring

theorem tdiv_mono {a b w : Int} (hw : 0 < w) (hab : a ≤ b) : a.tdiv w ≤ b.tdiv w := by
  by_cases ha : 0 ≤ a
  · rw [Int.tdiv_eq_ediv ha (le_of_lt hw), Int.tdiv_eq_ediv (le_trans ha hab) (le_of_lt hw)]
    exact Int.ediv_le_ediv hw hab
  · have ha' : 0 ≤ -a := by omega
    have h1 : a.tdiv w = -((-a) / w) := by
      rw [← Int.tdiv_eq_ediv ha' (le_of_lt hw), Int.neg_tdiv, neg_neg]
    have hna : 0 ≤ (-a) / w := Int.ediv_nonneg ha' (le_of_lt hw)
    by_cases hb : 0 ≤ b
    · rw [h1, Int.tdiv_eq_ediv hb (le_of_lt hw)]
      have := Int.ediv_nonneg hb (le_of_lt hw)
      omega
    · have hb' : 0 ≤ -b := by omega
      have h2 : b.tdiv w = -((-b) / w) := by
        rw [← Int.tdiv_eq_ediv hb' (le_of_lt hw), Int.neg_tdiv, neg_neg]
      rw [h1, h2]
      have := Int.ediv_le_ediv hw (show -b ≤ -a by omega)
      omega

theorem windowStartFor_mono {a b w : Int} (hw : 0 < w) (hab : a ≤ b) :
    windowStartFor a w ≤ windowStartFor b w := by
  rw [windowStartFor_eq, windowStartFor_eq]
  exact Int.mul_le_mul_of_nonneg_left (tdiv_mono hw hab) (le_of_lt hw)

theorem allowedInWindow_eq_zero (key : String) (maxCount windowMs w : Int) :
    ∀ (times : List Int) (rows : List RateRow),
      (∀ t ∈ times, windowStartFor t windowMs ≠ w) →
      allowedInWindow key maxCount windowMs w rows times = 0 := by
  intro times
  induction times with
  | nil => intro rows _; rfl
  | cons now rest ih =>
    intro rows h
    unfold allowedInWindow
    rw [ih _ (fun t ht => h t (List.mem_cons_of_mem _ ht)), if_neg]
    intro hc
    exact h now (List.mem_cons_self _ _) hc.2

theorem allowedInWindow_bound (key : String) (maxCount windowMs w : Int) (hmax : 1 ≤ maxCount)
    (hwin : 0 < windowMs) :
    ∀ (times : List Int) (rows : List RateRow), times.Pairwise (fun a b => a ≤ b) →
      (∀ row, counterOf rows key = some row → 0 ≤ row.count) →
      ((allowedInWindow key maxCount windowMs w rows times : Nat) : Int) ≤ maxCount
        ∧ ∀ row, counterOf rows key = some row → row.window_start = w →
            (∀ t ∈ times, w ≤ windowStartFor t windowMs) →
            ((allowedInWindow key maxCount windowMs w rows times : Nat) : Int)
              + min row.count maxCount ≤ maxCount := by
  intro times
  induction times with
  | nil =>
    intro rows _ _
    refine ⟨by simp [allowedInWindow]; omega, fun row _ _ _ => ?_⟩
    simp [allowedInWindow]
  | cons now rest ih =>
    intro rows hsorted hcount
    rw [List.pairwise_cons] at hsorted
    obtain ⟨hnow, hrest⟩ := hsorted
    have hstep : allowedInWindow key maxCount windowMs w rows (now :: rest)
        = (if (checkAndBumpRateLimit rows now key maxCount windowMs).2.allowed = true
            ∧ windowStartFor now windowMs = w then 1 else 0)
          + allowedInWindow key maxCount windowMs w
              (checkAndBumpRateLimit rows now key maxCount windowMs).1 rest := rfl
    rw [hstep]
    have hmono : ∀ t ∈ rest, windowStartFor now windowMs ≤ windowStartFor t windowMs :=
      fun t ht => windowStartFor_mono hwin (hnow t ht)
    by_cases hw : windowStartFor now windowMs = w
    · -- the call falls in the window `w`
      have hge : ∀ t ∈ rest, w ≤ windowStartFor t windowMs := fun t ht => hw ▸ hmono t ht
      rcases checkAndBump_cases rows now key maxCount windowMs with
        ⟨hnew, hall, r, hr, hr1, hr2⟩ | ⟨row, hrow, hrw, hrc, hden, hsame, -⟩
          | ⟨row, hrow, hrw, hrc, hall, r, hr, hr1, hr2⟩
      · have hinv : ∀ row, counterOf (checkAndBumpRateLimit rows now key maxCount windowMs).1 key
            = some row → 0 ≤ row.count := by
          intro row' h'
          rw [hr] at h'
          cases h'
          omega
        have hb := (ih _ hrest hinv).2 r hr (hr1.trans hw) hge
        rw [if_pos ⟨hall, hw⟩]
        rw [hr2] at hb
        push_cast
        refine ⟨by omega, fun row hrow hrw _ => ?_⟩
        exfalso
        rcases hnew with hnone | ⟨row', hrow', hne⟩
        · rw [hnone] at hrow; exact Option.noConfusion hrow
        · rw [hrow'] at hrow
          cases hrow
          exact hne (hrw.trans hw.symm)
      · rw [hsame, if_neg (by rw [hden]; simp)]
        have hb := (ih rows hrest hcount).2 row hrow (hrw.trans hw) hge
        push_cast
        refine ⟨by omega, fun row' hrow' _ _ => ?_⟩
        rw [hrow] at hrow'
        cases hrow'
        omega
      · have hc0 := hcount row hrow
        have hinv : ∀ row, counterOf (checkAndBumpRateLimit rows now key maxCount windowMs).1 key
            = some row → 0 ≤ row.count := by
          intro row' h'
          rw [hr] at h'
          cases h'
          omega
        have hb := (ih _ hrest hinv).2 r hr (hr1.trans hw) hge
        rw [if_pos ⟨hall, hw⟩]
        rw [hr2] at hb
        push_cast
        refine ⟨by omega, fun row' hrow' _ _ => ?_⟩
        rw [hrow] at hrow'
        cases hrow'
        omega
    · -- the call falls in another window
      rw [if_neg (fun h => hw h.2)]
      have hinv : ∀ row, counterOf (checkAndBumpRateLimit rows now key maxCount windowMs).1 key
          = some row → 0 ≤ row.count := by
        intro row' h'
        rcases checkAndBump_cases rows now key maxCount windowMs with
          ⟨-, -, r, hr, -, hr2⟩ | ⟨row, hrow, -, -, -, hsame, -⟩
            | ⟨row, hrow, -, -, -, r, hr, -, hr2⟩
        · rw [hr] at h'; cases h'; omega
        · rw [hsame] at h'; exact hcount row' h'
        · rw [hr] at h'; cases h'
          have := hcount row hrow
          omega
      push_cast
      refine ⟨by have := (ih _ hrest hinv).1; omega, fun row hrow hrw hall => ?_⟩
      have hlt : w < windowStartFor now windowMs :=
        lt_of_le_of_ne (hall now (List.mem_cons_self _ _)) (Ne.symm hw)
      rw [allowedInWindow_eq_zero key maxCount windowMs w rest _
        (fun t ht => ne_of_gt (lt_of_lt_of_le hlt (hmono t ht)))]
      push_cast
      omega

/-- C11. For `maxCount >= 1`, a positive window duration and a stored counter
that is not negative, in every sequence of calls of `checkAndBumpRateLimit` on
one key made one after another at non-decreasing times, at most `maxCount` of
the calls whose time falls in a given window are allowed.  A call in a new
window (no stored counter, or one of another window) is allowed and leaves the
counter at 1 for that window.  A denied call leaves the table unchanged and
reports `resetMs = windowStart + windowMs`. -/
theorem rate_limit_fixed_window (rows : List RateRow) (key : String) (maxCount windowMs : Int)
    (times : List Int) (w : Int) (hmax : 1 ≤ maxCount) (hwin : 0 < windowMs)
    (hsorted : times.Pairwise (fun a b => a ≤ b))
    (hcount : ∀ row, counterOf rows key = some row → 0 ≤ row.count) :
    ((allowedInWindow key maxCount windowMs w rows times : Nat) : Int) ≤ maxCount
      ∧ (∀ now, (∀ row, counterOf rows key = some row →
            row.window_start ≠ windowStartFor now windowMs) →
          (checkAndBumpRateLimit rows now key maxCount windowMs).2.allowed = true
            ∧ ∃ r, counterOf (checkAndBumpRateLimit rows now key maxCount windowMs).1 key
                  = some r
                ∧ r.window_start = windowStartFor now windowMs ∧ r.count = 1)
      ∧ ∀ now, (checkAndBumpRateLimit rows now key maxCount windowMs).2.allowed = false →
          (checkAndBumpRateLimit rows now key maxCount windowMs).1 = rows
            ∧ (checkAndBumpRateLimit rows now key maxCount windowMs).2.resetMs
              = windowStartFor now windowMs + windowMs := by
  refine ⟨(allowedInWindow_bound key maxCount windowMs w hmax hwin times rows hsorted hcount).1,
    fun now hnew => ?_, fun now hden => ?_⟩
  · rcases checkAndBump_cases rows now key maxCount windowMs with
      ⟨-, hall, h⟩ | ⟨row, hrow, hrw, -⟩ | ⟨row, hrow, hrw, -⟩
    · exact ⟨hall, h⟩
    · exact absurd hrw (hnew row hrow)
    · exact absurd hrw (hnew row hrow)
  · rcases checkAndBump_cases rows now key maxCount windowMs with
      ⟨-, hall, -⟩ | ⟨row, -, -, -, -, hsame, hreset⟩ | ⟨row, -, -, -, hall, -⟩
    · rw [hall] at hden; exact Bool.noConfusion hden
    · exact ⟨hsame, hreset⟩
    · rw [hall] at hden; exact Bool.noConfusion hden

/-- C11 with the limits of the handler (30 per 10 minutes): after 29 earlier
calls, of three calls in the same window one is allowed, and the first call of
the next window is allowed again. -/
theorem rate_limit_fixed_window_witness :
    ((allowedInWindow "ip:1.2.3.4" 30 600000 1771545600000 demoRateRows demoCallTimes : Nat)
        : Int) ≤ 30
      ∧ allowedInWindow "ip:1.2.3.4" 30 600000 1771545600000 demoRateRows demoCallTimes = 1
      ∧ allowedInWindow "ip:1.2.3.4" 30 600000 1771546200000 demoRateRows demoCallTimes = 2 :=
  ⟨(rate_limit_fixed_window demoRateRows "ip:1.2.3.4" 30 600000 demoCallTimes 1771545600000
      (by decide) (by decide) (by decide)
      (by
        intro row h
        have hr : counterOf demoRateRows "ip:1.2.3.4"
            = some ⟨"ip:1.2.3.4", 1771545600000, 29⟩ := by decide
        rw [hr] at h
        cases h
        decide)).1,
    by decide, by decide⟩

/-! ## The signed message determines its fields -/

theorem digitChar_value {d : Nat} (hd : d < 10) : (Nat.digitChar d).toNat - 48 = d := by
  interval_cases d <;> rfl

theorem digitChar_isDigit {d : Nat} (hd : d < 10) : isDigitChar (Nat.digitChar d) = true := by
  interval_cases d <;> rfl

theorem digitsValue_append (cs : List Char) (c : Char) :
    digitsValue (cs ++ [c]) = digitsValue cs * 10 + (c.toNat - 48) := by
  unfold digitsValue
  rw [List.foldl_append]
  rfl

theorem natDigits_value : ∀ (fuel n : Nat), n < 10 ^ fuel → digitsValue (natDigits fuel n) = n := by
  intro fuel
  induction fuel with
  | zero => intro n hn; simp at hn; subst hn; rfl
  | succ fuel ih =>
    intro n hn
    unfold natDigits
    split
    · rename_i h10
      simp [digitsValue, digitChar_value h10]
    · rw [digitsValue_append, digitChar_value (Nat.mod_lt n (by norm_num))]
      have hdiv : n / 10 < 10 ^ fuel := by
        rw [Nat.div_lt_iff_lt_mul (by norm_num)]
        rw [Nat.pow_succ] at hn
        exact hn
      rw [ih (n / 10) hdiv]
      omega

theorem natDigits_isDigit : ∀ (fuel n : Nat), ∀ c ∈ natDigits fuel n, isDigitChar c = true := by
  intro fuel
  induction fuel with
  | zero => intro n c hc; simp [natDigits] at hc
  | succ fuel ih =>
    intro n c hc
    unfold natDigits at hc
    split at hc
    · rename_i h10
      rw [List.mem_singleton] at hc
      rw [hc]
      exact digitChar_isDigit h10
    · rcases List.mem_append.mp hc with h | h
      · exact ih _ c h
      · rw [List.mem_singleton] at h
        rw [h]
        exact digitChar_isDigit (Nat.mod_lt n (by norm_num))

theorem jsNumberToString_data {n : Int} (hn : 0 ≤ n) :
    (jsNumberToString n).data = natDigits (n.natAbs + 1) n.natAbs := by
  unfold jsNumberToString
  rw [if_neg (by omega)]

theorem jsNumberToString_no_newline {n : Int} (hn : 0 ≤ n) : '\n' ∉ (jsNumberToString n).data := by
  rw [jsNumberToString_data hn]
  intro h
  have := natDigits_isDigit _ _ _ h
  revert this
  decide

theorem jsNumberToString_inj {a b : Int} (ha : 0 ≤ a) (hb : 0 ≤ b)
    (h : (jsNumberToString a).data = (jsNumberToString b).data) : a = b := by
  rw [jsNumberToString_data ha, jsNumberToString_data hb] at h
  have hv := congrArg digitsValue h
  have h1 : ∀ k : Nat, k < 10 ^ (k + 1) := fun k =>
    lt_trans (Nat.lt_pow_self (by norm_num) k) (Nat.pow_lt_pow_right (by norm_num) (Nat.lt_succ_self k))
  rw [natDigits_value _ _ (h1 _), natDigits_value _ _ (h1 _)] at hv
  omega

theorem append_sep_inj (c : Char) :
    ∀ (s s' r r' : List Char), c ∉ s → c ∉ s' → s ++ c :: r = s' ++ c :: r' → s = s' ∧ r = r' := by
  intro s
  induction s with
  | nil =>
    intro s' r r' _ hs' h
    cases s' with
    | nil => exact ⟨rfl, (List.cons.inj h).2⟩
    | cons x xs =>
      exfalso
      have := (List.cons.inj h).1
      exact hs' (this ▸ List.mem_cons_self _ _)
  | cons a as ih =>
    intro s' r r' hs hs' h
    cases s' with
    | nil =>
      exfalso
      have := (List.cons.inj h).1
      exact hs (this ▸ List.mem_cons_self _ _)
    | cons x xs =>
      obtain ⟨hax, htl⟩ := List.cons.inj h
      obtain ⟨h1, h2⟩ := ih xs r r' (fun hc => hs (List.mem_cons_of_mem _ hc))
        (fun hc => hs' (List.mem_cons_of_mem _ hc)) htl
      exact ⟨by rw [hax, h1], h2⟩

theorem isDay_length {day : String} (h : isDay day = true) : day.data.length = 10 := by
  unfold isDay at h
  split at h
  · rename_i heq
    rw [heq]
    rfl
  · exact Bool.noConfusion h

theorem mode_suffix_inj {n n' : List Char} {mode mode' : String}
    (hm : mode = "normal" ∨ mode = "easy") (hm' : mode' = "normal" ∨ mode' = "easy")
    (h : n ++ mode.data = n' ++ mode'.data) : n = n' ∧ mode = mode' := by
  rcases hm with rfl | rfl <;> rcases hm' with rfl | rfl
  · exact ⟨List.append_cancel_right h, rfl⟩
  · exfalso
    have := congrArg List.reverse h
    simp at this
  · exfalso
    have := congrArg List.reverse h
    simp at this
  · exact ⟨List.append_cancel_right h, rfl⟩

theorem buildScoreSignMessage_data (appName domain day : String) (score moves timeSeconds : Int)
    (nonce mode : String) (hmode : mode ≠ "") :
    (buildScoreSignMessage appName domain day score moves timeSeconds nonce mode).data
      = (appName.data ++ " Score Submission\nDomain: ".data ++ domain.data ++ "\nDay: ".data)
        ++ (day.data ++ ("\nScore: ".data ++ ((jsNumberToString score).data ++ ('\n' :: ("Moves: ".data ++ ((jsNumberToString moves).data ++ ('\n' :: ("TimeSeconds: ".data ++ ((jsNumberToString timeSeconds).data ++ ('\n' :: ("Nonce: ".data ++ (nonce.data ++ "\nMode: ".data ++ mode.data)))))))))))) := by
  unfold buildScoreSignMessage
  simp only []
  rw [if_pos hmode]
  simp [String.intercalate, String.intercalate.go, String.data_append]

/-- C15. Over the values `/submit` passes to `buildScoreSignMessage` (the fixed
application name and domain, a day matching the day pattern, non-negative
integers `score`, `moves` and `timeSeconds`, any nonce, a mode `normal` or
`easy`), the message determines every field: equal messages come from equal
days, scores, moves, times, nonces and modes. -/
theorem sign_message_injective (day day' : String)
    (score moves timeSeconds score' moves' timeSeconds' : Int)
    (nonce nonce' mode mode' : String)
    (hd : isDay day = true) (hd' : isDay day' = true)
    (hs : 0 ≤ score) (hmv : 0 ≤ moves) (ht : 0 ≤ timeSeconds)
    (hs' : 0 ≤ score') (hmv' : 0 ≤ moves') (ht' : 0 ≤ timeSeconds')
    (hm : mode = "normal" ∨ mode = "easy") (hm' : mode' = "normal" ∨ mode' = "easy")
    (h : buildScoreSignMessage SIGNING_APP_NAME SIGNING_DOMAIN day score moves timeSeconds
          nonce mode
        = buildScoreSignMessage SIGNING_APP_NAME SIGNING_DOMAIN day' score' moves' timeSeconds'
          nonce' mode') :
    day = day' ∧ score = score' ∧ moves = moves' ∧ timeSeconds = timeSeconds'
      ∧ nonce = nonce' ∧ mode = mode' := by
  have hne : mode ≠ "" := by rcases hm with rfl | rfl <;> decide
  have hne' : mode' ≠ "" := by rcases hm' with rfl | rfl <;> decide
  have hdata := congrArg String.data h
  rw [buildScoreSignMessage_data _ _ _ _ _ _ _ _ hne,
    buildScoreSignMessage_data _ _ _ _ _ _ _ _ hne'] at hdata
  have h1 := List.append_cancel_left hdata
  obtain ⟨hday, h2⟩ := List.append_inj h1 (by rw [isDay_length hd, isDay_length hd'])
  have h3 := List.append_cancel_left h2
  obtain ⟨hscore, h4⟩ := append_sep_inj '\n' _ _ _ _ (jsNumberToString_no_newline hs)
    (jsNumberToString_no_newline hs') h3
  have h5 := List.append_cancel_left h4
  obtain ⟨hmoves, h6⟩ := append_sep_inj '\n' _ _ _ _ (jsNumberToString_no_newline hmv)
    (jsNumberToString_no_newline hmv') h5
  have h7 := List.append_cancel_left h6
  obtain ⟨htime, h8⟩ := append_sep_inj '\n' _ _ _ _ (jsNumberToString_no_newline ht)
    (jsNumberToString_no_newline ht') h7
  have h9 := List.append_cancel_left h8
  obtain ⟨h10, hmode⟩ := mode_suffix_inj hm hm' h9
  have hnonce := List.append_cancel_right h10
  exact ⟨String.ext hday, jsNumberToString_inj hs hs' hscore, jsNumberToString_inj hmv hmv' hmoves,
    jsNumberToString_inj ht ht' htime, String.ext hnonce, hmode⟩

/-- C15 on the fields of the accepting test; and a nonce that ends in a mode
line does not make the messages of two different runs collide. -/
theorem sign_message_injective_witness :
    ("2026-02-20" = "2026-02-20" ∧ (4410 : Int) = 4410 ∧ (55 : Int) = 55 ∧ (300 : Int) = 300
        ∧ demoNonce = demoNonce ∧ "normal" = "normal")
      ∧ buildScoreSignMessage SIGNING_APP_NAME SIGNING_DOMAIN "2026-02-20" 4410 55 300
          trickyNonce "normal"
        ≠ buildScoreSignMessage SIGNING_APP_NAME SIGNING_DOMAIN "2026-02-20" 4410 55 300
          "5f2c9a7e" "easy" :=
  ⟨sign_message_injective "2026-02-20" "2026-02-20" 4410 55 300 4410 55 300 demoNonce demoNonce
      "normal" "normal" (by decide) (by decide) (by decide) (by decide) (by decide) (by decide)
      (by decide) (by decide) (Or.inl rfl) (Or.inl rfl) rfl,
    fun h => absurd
      (sign_message_injective "2026-02-20" "2026-02-20" 4410 55 300 4410 55 300 trickyNonce
        "5f2c9a7e" "normal" "easy" (by decide) (by decide) (by decide) (by decide) (by decide)
        (by decide) (by decide) (by decide) (Or.inl rfl) (Or.inr rfl) h).2.2.2.2.2
      (by decide)⟩

/-! ## The monthly ranking -/

theorem charsLt_irrefl : ∀ l, charsLt l l = false
  | [] => rfl
  | a :: as => by simp [charsLt, charsLt_irrefl as]

theorem charsLt_trans : ∀ a b c, charsLt a b = true → charsLt b c = true → charsLt a c = true
  | [], [], _, h, _ => by simp [charsLt] at h
  | [], _ :: _, [], _, h => by simp [charsLt] at h
  | [], _ :: _, _ :: _, _, _ => by simp [charsLt]
  | _ :: _, [], _, h, _ => by simp [charsLt] at h
  | _ :: _, _ :: _, [], _, h => by simp [charsLt] at h
  | x :: xs, y :: ys, z :: zs, h1, h2 => by
      simp only [charsLt, Bool.or_eq_true, Bool.and_eq_true, decide_eq_true_eq] at *
      rcases h1 with h1 | ⟨rfl, h1⟩
      · rcases h2 with h2 | ⟨rfl, h2⟩
        · exact Or.inl (lt_trans h1 h2)
        · exact Or.inl h1
      · rcases h2 with h2 | ⟨rfl, h2⟩
        · exact Or.inl h2
        · exact Or.inr ⟨rfl, charsLt_trans xs ys zs h1 h2⟩

theorem charsLt_connex : ∀ a b, charsLt a b = false → charsLt b a = false → a = b
  | [], [], _, _ => rfl
  | [], _ :: _, h, _ => by simp [charsLt] at h
  | _ :: _, [], _, h => by simp [charsLt] at h
  | x :: xs, y :: ys, h1, h2 => by
      simp only [charsLt, Bool.or_eq_false_iff, Bool.and_eq_false_iff, decide_eq_false_iff_not]
        at h1 h2
      obtain ⟨h1a, h1b⟩ := h1
      obtain ⟨h2a, h2b⟩ := h2
      have hxy : x = y := le_antisymm (not_lt.mp h2a) (not_lt.mp h1a)
      subst hxy
      have h1c : charsLt xs ys = false := by
        rcases h1b with h | h
        · exact absurd rfl h
        · exact h
      have h2c : charsLt ys xs = false := by
        rcases h2b with h | h
        · exact absurd rfl h
        · exact h
      rw [charsLt_connex xs ys h1c h2c]

theorem textLt_asymm (a b : String) (h : textLt a b = true) : textLt b a = false := by
  cases hba : textLt b a
  · rfl
  · have := charsLt_trans _ _ _ h hba
    rw [charsLt_irrefl] at this
    exact absurd this (by decide)

theorem textLt_connex (a b : String) (h1 : textLt a b = false) (h2 : textLt b a = false) :
    a = b :=
  String.ext (charsLt_connex _ _ h1 h2)

/-- Texts that are not in order stay so along a chain. -/
theorem textLt_negtrans (a b c : String) (h1 : textLt b a = false) (h2 : textLt c b = false) :
    textLt c a = false := by
  cases hca : textLt c a
  · rfl
  · cases hab : textLt a b
    · have hb : a = b := textLt_connex a b hab h1
      subst hb
      rw [hca] at h2
      exact absurd h2 (by decide)
    · have := charsLt_trans _ _ _ hca hab
      unfold textLt at h2
      rw [this] at h2
      exact absurd h2 (by decide)

theorem precedes_iff (a b : ScoreRow) :
    precedes a b = true ↔
      b.score < a.score ∨ (a.score = b.score ∧
        (a.time_seconds < b.time_seconds ∨ (a.time_seconds = b.time_seconds ∧
          (a.moves < b.moves ∨ (a.moves = b.moves ∧ textLt b.day a.day = true))))) := by
  simp [precedes]

theorem precedes_asymm (a b : ScoreRow) (h : precedes a b = true) : precedes b a = false := by
  cases hba : precedes b a
  · rfl
  · rw [precedes_iff] at h hba
    exfalso
    rcases h with h | ⟨hs, h⟩
    · rcases hba with hba | ⟨hs', _⟩ <;> omega
    · rcases hba with hba | ⟨_, hba⟩
      · omega
      · rcases h with h | ⟨ht, h⟩
        · rcases hba with hba | ⟨ht', _⟩ <;> omega
        · rcases hba with hba | ⟨_, hba⟩
          · omega
          · rcases h with h | ⟨hm, h⟩
            · rcases hba with hba | ⟨hm', _⟩ <;> omega
            · rcases hba with hba | ⟨_, hba⟩
              · omega
              · rw [textLt_asymm _ _ h] at hba
                exact absurd hba (by decide)

theorem rankLe_total (a b : ScoreRow) : rankLe a b ∨ rankLe b a := by
  unfold rankLe
  cases h : precedes b a
  · exact Or.inl rfl
  · exact Or.inr (precedes_asymm b a h)

theorem rankLe_refl (a : ScoreRow) : rankLe a a := by
  rcases rankLe_total a a with h | h <;> exact h

theorem rankLe_trans (a b c : ScoreRow) (h1 : rankLe a b) (h2 : rankLe b c) : rankLe a c := by
  unfold rankLe at *
  cases hca : precedes c a
  · rfl
  · exfalso
    rw [Bool.eq_false_iff, Ne, precedes_iff] at h1 h2
    rw [precedes_iff] at hca
    have s1 : ¬ a.score < b.score := fun x => h1 (Or.inl x)
    have s2 : ¬ b.score < c.score := fun x => h2 (Or.inl x)
    rcases hca with hca | ⟨hs, hca⟩
    · omega
    · have e1 : b.score = a.score := by omega
      have e2 : c.score = b.score := by omega
      have h1' := fun x => h1 (Or.inr ⟨e1, x⟩)
      have h2' := fun x => h2 (Or.inr ⟨e2, x⟩)
      have t1 : ¬ b.time_seconds < a.time_seconds := fun x => h1' (Or.inl x)
      have t2 : ¬ c.time_seconds < b.time_seconds := fun x => h2' (Or.inl x)
      rcases hca with hca | ⟨ht, hca⟩
      · omega
      · have e3 : b.time_seconds = a.time_seconds := by omega
        have e4 : c.time_seconds = b.time_seconds := by omega
        have h1'' := fun x => h1' (Or.inr ⟨e3, x⟩)
        have h2'' := fun x => h2' (Or.inr ⟨e4, x⟩)
        have m1 : ¬ b.moves < a.moves := fun x => h1'' (Or.inl x)
        have m2 : ¬ c.moves < b.moves := fun x => h2'' (Or.inl x)
        rcases hca with hca | ⟨hm, hca⟩
        · omega
        · have e5 : b.moves = a.moves := by omega
          have e6 : c.moves = b.moves := by omega
          have d1 : textLt a.day b.day = false := by
            cases hd : textLt a.day b.day
            · rfl
            · exact absurd (Or.inr ⟨e5, hd⟩) h1''
          have d2 : textLt b.day c.day = false := by
            cases hd : textLt b.day c.day
            · rfl
            · exact absurd (Or.inr ⟨e6, hd⟩) h2''
          have := textLt_negtrans c.day b.day a.day d2 d1
          rw [this] at hca
          exact absurd hca (by decide)

/-- Two rows neither of which precedes the other agree on the day. -/
theorem day_eq_of_tie (a b : ScoreRow) (h1 : precedes a b = false) (h2 : precedes b a = false) :
    a.day = b.day := by
  rw [Bool.eq_false_iff, Ne, precedes_iff] at h1 h2
  have s1 : ¬ b.score < a.score := fun x => h1 (Or.inl x)
  have s2 : ¬ a.score < b.score := fun x => h2 (Or.inl x)
  have e1 : a.score = b.score := by omega
  have h1' := fun x => h1 (Or.inr ⟨e1, x⟩)
  have h2' := fun x => h2 (Or.inr ⟨e1.symm, x⟩)
  have t1 : ¬ a.time_seconds < b.time_seconds := fun x => h1' (Or.inl x)
  have t2 : ¬ b.time_seconds < a.time_seconds := fun x => h2' (Or.inl x)
  have e2 : a.time_seconds = b.time_seconds := by omega
  have h1'' := fun x => h1' (Or.inr ⟨e2, x⟩)
  have h2'' := fun x => h2' (Or.inr ⟨e2.symm, x⟩)
  have m1 : ¬ a.moves < b.moves := fun x => h1'' (Or.inl x)
  have m2 : ¬ b.moves < a.moves := fun x => h2'' (Or.inl x)
  have e3 : a.moves = b.moves := by omega
  have d1 : textLt b.day a.day = false := by
    cases hd : textLt b.day a.day
    · rfl
    · exact absurd (Or.inr ⟨e3, hd⟩) h1''
  have d2 : textLt a.day b.day = false := by
    cases hd : textLt a.day b.day
    · rfl
    · exact absurd (Or.inr ⟨e3.symm, hd⟩) h2''
  exact textLt_connex _ _ d2 d1

theorem orderByRank_sorted (l : List ScoreRow) : (orderByRank l).Pairwise rankLe :=
  @List.sorted_insertionSort _ rankLe _ ⟨rankLe_total⟩ ⟨rankLe_trans⟩ l

theorem orderByRank_perm (l : List ScoreRow) : (orderByRank l).Perm l :=
  List.perm_insertionSort _ l

theorem mem_orderByRank (l : List ScoreRow) (r : ScoreRow) : r ∈ orderByRank l ↔ r ∈ l :=
  (orderByRank_perm l).mem_iff

/-- The first row of an ordered list is a row of the list that no row precedes. -/
theorem head_orderByRank (l : List ScoreRow) (r : ScoreRow)
    (h : (orderByRank l).head? = some r) : r ∈ l ∧ ∀ x ∈ l, rankLe r x := by
  have hs := orderByRank_sorted l
  cases hl : orderByRank l with
  | nil => rw [hl] at h; simp at h
  | cons a t =>
    rw [hl] at h hs
    simp only [List.head?_cons, Option.some.injEq] at h
    subst h
    have hmem : ∀ x, x ∈ l ↔ x ∈ a :: t := fun x => by rw [← hl, mem_orderByRank]
    refine ⟨(hmem a).2 (List.mem_cons_self _ _), fun x hx => ?_⟩
    rcases List.mem_cons.1 ((hmem x).1 hx) with rfl | hx'
    · exact rankLe_refl _
    · exact (List.pairwise_cons.1 hs).1 x hx'

theorem head_orderByRank_isSome (l : List ScoreRow) (h : l ≠ []) :
    ∃ r, (orderByRank l).head? = some r := by
  cases hl : orderByRank l with
  | nil =>
    have := (orderByRank_perm l).length_eq
    rw [hl] at this
    exact absurd (List.length_eq_zero.1 this.symm) h
  | cons a t => exact ⟨a, rfl⟩

theorem rowNumbers_filter_of_lt : ∀ (l : List ScoreRow) (n : Nat), 1 < n →
    (rowNumbers n l).filter (fun p => p.2 = 1) = []
  | [], _, _ => rfl
  | r :: rs, n, h => by
      have hn : ¬ n = 1 := by omega
      simp [rowNumbers, hn, rowNumbers_filter_of_lt rs (n + 1) (by omega)]

/-- The rows numbered `rn = 1` of a partition: its first row. -/
theorem rowNumbers_first (l : List ScoreRow) :
    ((rowNumbers 1 l).filter (fun p => p.2 = 1)).map (fun p => p.1) = l.head?.toList := by
  cases l with
  | nil => rfl
  | cons r rs => simp [rowNumbers, rowNumbers_filter_of_lt rs 2 (by omega)]

theorem filter_map_flatMap {α β γ : Type} (F : α → List β) (p : β → Bool) (g : β → γ) :
    ∀ ws : List α, ((ws.flatMap F).filter p).map g = ws.flatMap (fun w => ((F w).filter p).map g)
  | [] => rfl
  | w :: ws => by
      simp [List.flatMap_cons, List.filter_append, List.map_append, filter_map_flatMap F p g ws]

/-- The rows `rn = 1` of `monthly_best`: for each wallet with a row in the
month, the first row of its ordered partition. -/
theorem monthly_best_first (rows : List ScoreRow) (start stop : String) :
    ((monthly_best rows start stop).filter (fun p => p.2 = 1)).map (fun p => p.1)
      = (((rows.filter (inMonth start stop)).map (fun r => r.wallet)).dedup).flatMap
          (fun w => (orderByRank ((rows.filter (inMonth start stop)).filter
            (fun r => r.wallet = w))).head?.toList) := by
  unfold monthly_best
  simp only []
  rw [filter_map_flatMap]
  congr 1
  funext w
  exact rowNumbers_first _

theorem wallets_of_first (scanned : List ScoreRow) :
    ∀ ws : List String, (∀ w ∈ ws, ∃ r ∈ scanned, r.wallet = w) →
      (ws.flatMap (fun w => (orderByRank (scanned.filter
        (fun r => r.wallet = w))).head?.toList)).map (fun r => r.wallet) = ws
  | [], _ => rfl
  | w :: ws, h => by
      obtain ⟨r, hr, hw⟩ := h w (List.mem_cons_self _ _)
      have hne : scanned.filter (fun r => r.wallet = w) ≠ [] := by
        intro he
        have : r ∈ scanned.filter (fun r => r.wallet = w) := by
          simp [List.mem_filter, hr, hw]
        rw [he] at this
        simp at this
      obtain ⟨b, hb⟩ := head_orderByRank_isSome _ hne
      have hbw : b.wallet = w := by
        have := (List.mem_filter.1 (head_orderByRank _ _ hb).1).2
        simpa using this
      rw [List.flatMap_cons, List.map_append, hb,
        wallets_of_first scanned ws (fun w' hw' => h w' (List.mem_cons_of_mem _ hw'))]
      simp [hbw]

/-- The wallets of the ranking before `LIMIT`: each wallet with a row in the
month, once. -/
theorem monthlyRanking_wallets (rows : List ScoreRow) (start stop : String) :
    ((monthlyRanking rows start stop).map (fun r => r.wallet)).Perm
      (((rows.filter (inMonth start stop)).map (fun r => r.wallet)).dedup) := by
  unfold monthlyRanking
  refine ((orderByRank_perm _).map _).trans ?_
  rw [monthly_best_first, wallets_of_first]
  intro w hw
  rw [List.mem_dedup, List.mem_map] at hw
  exact hw

theorem monthlyRanking_nodup (rows : List ScoreRow) (start stop : String) :
    ((monthlyRanking rows start stop).map (fun r => r.wallet)).Nodup :=
  (monthlyRanking_wallets rows start stop).nodup_iff.2 (List.nodup_dedup _)

theorem monthlyRanking_complete (rows : List ScoreRow) (start stop : String) (r : ScoreRow)
    (hr : r ∈ rows) (hin : inMonth start stop r = true) :
    r.wallet ∈ (monthlyRanking rows start stop).map (fun x => x.wallet) := by
  rw [(monthlyRanking_wallets rows start stop).mem_iff, List.mem_dedup, List.mem_map]
  exact ⟨r, List.mem_filter.2 ⟨hr, hin⟩, rfl⟩

/-- Each row of the ranking is a row of the month that no row of the same
wallet in the month precedes. -/
theorem monthlyRanking_best (rows : List ScoreRow) (start stop : String) (r : ScoreRow)
    (hr : r ∈ monthlyRanking rows start stop) :
    r ∈ rows ∧ inMonth start stop r = true ∧
      ∀ x ∈ rows, x.wallet = r.wallet → inMonth start stop x = true → precedes x r = false := by
  unfold monthlyRanking at hr
  rw [mem_orderByRank, monthly_best_first, List.mem_flatMap] at hr
  obtain ⟨w, _, hw⟩ := hr
  have hhead : (orderByRank ((rows.filter (inMonth start stop)).filter
      (fun r => r.wallet = w))).head? = some r := by
    cases hh : (orderByRank ((rows.filter (inMonth start stop)).filter
      (fun r => r.wallet = w))).head? with
    | none => rw [hh] at hw; simp at hw
    | some b =>
      rw [hh] at hw
      simp only [Option.toList, List.mem_singleton] at hw
      rw [hw]
  obtain ⟨hmem, hbest⟩ := head_orderByRank _ _ hhead
  simp only [List.mem_filter, decide_eq_true_eq] at hmem
  obtain ⟨⟨hrows, hin⟩, hrw⟩ := hmem
  refine ⟨hrows, hin, fun x hx hxw hxin => ?_⟩
  apply hbest
  simp only [List.mem_filter, decide_eq_true_eq]
  exact ⟨⟨hx, hxin⟩, hxw.trans hrw⟩

theorem monthlyRanking_sorted (rows : List ScoreRow) (start stop : String) :
    (monthlyRanking rows start stop).Pairwise (fun a b => precedes b a = false) :=
  orderByRank_sorted _

theorem topLimit_range (req : TopRequest) : 1 ≤ topLimit req ∧ topLimit req ≤ 50 := by
  unfold topLimit clampInt
  split <;> omega

theorem topLimit_of_range (req : TopRequest) (k : Int) (h : req.limit = some (some k))
    (h1 : 1 ≤ k) (h50 : k ≤ 50) : topLimit req = k := by
  unfold topLimit clampInt
  rw [h]
  simp only []
  omega

theorem getMonthRange_examples :
    getMonthRange "2026-02" = some ("2026-02-01", "2026-03-01")
      ∧ getMonthRange "2026-12" = some ("2026-12-01", "2027-01-01")
      ∧ getMonthRange "0000-01" = some ("0000-01-01", "0000-02-01")
      ∧ getMonthRange "2026-13" = none ∧ getMonthRange "2026-00" = none
      ∧ getMonthRange "2026-2" = none ∧ getMonthRange "2026-02-01" = none := by
  decide

/-- C14. For every contents of the `scores` table, every month that
`getMonthRange` accepts (range `start` to `stop`, `stop` excluded) and every
limit `k` from 1 to 50, `/top` answers with a list `result` such that: no two
rows of `result` have the same wallet; every row of `result` is a row of the
table with `start ≤ day < stop` that no row of the same wallet in that range
precedes under the comparator (score descending, then time ascending, then
moves ascending, then day descending), and that precedes every such row of
another day; `result` is sorted by that comparator; it has at most `k` rows;
and it is the first `k` rows of `monthlyRanking`, the ordering that holds one
row, the best, for every wallet with a row in the range, sorted by the same
comparator. -/
theorem top_monthly_ranking (db : DB) (currentUtcMonth : String) (req : TopRequest)
    (start stop : String) (k : Int)
    (hmonth : getMonthRange (topMonth currentUtcMonth req) = some (start, stop))
    (hlimit : req.limit = some (some k)) (hk1 : 1 ≤ k) (hk50 : k ≤ 50) :
    ∃ result,
      top db currentUtcMonth req = .ok (topMonth currentUtcMonth req) result
      ∧ (result.map (fun r => r.wallet)).Nodup
      ∧ (∀ r ∈ result, r ∈ db.scores ∧ inMonth start stop r = true
          ∧ ∀ x ∈ db.scores, x.wallet = r.wallet → inMonth start stop x = true →
              precedes x r = false ∧ (x.day ≠ r.day → precedes r x = true))
      ∧ result.Pairwise (fun a b => precedes b a = false)
      ∧ (result.length : Int) ≤ k
      ∧ result = (monthlyRanking db.scores start stop).take k.toNat
      ∧ ((monthlyRanking db.scores start stop).map (fun r => r.wallet)).Nodup
      ∧ (monthlyRanking db.scores start stop).Pairwise (fun a b => precedes b a = false)
      ∧ (∀ r ∈ monthlyRanking db.scores start stop, r ∈ db.scores ∧ inMonth start stop r = true
          ∧ ∀ x ∈ db.scores, x.wallet = r.wallet → inMonth start stop x = true →
              precedes x r = false)
      ∧ (∀ r ∈ db.scores, inMonth start stop r = true →
          r.wallet ∈ (monthlyRanking db.scores start stop).map (fun x => x.wallet)) := by
  have htop : top db currentUtcMonth req = .ok (topMonth currentUtcMonth req)
      ((monthlyRanking db.scores start stop).take k.toNat) := by
    unfold top
    simp only [hmonth, topRows, topLimit_of_range req k hlimit hk1 hk50]
  have hsub : ((monthlyRanking db.scores start stop).take k.toNat).Sublist
      (monthlyRanking db.scores start stop) := List.take_sublist _ _
  refine ⟨_, htop, (monthlyRanking_nodup _ _ _).sublist (hsub.map _), ?_,
    (monthlyRanking_sorted _ _ _).sublist hsub, ?_, rfl, monthlyRanking_nodup _ _ _,
    monthlyRanking_sorted _ _ _, monthlyRanking_best _ _ _, monthlyRanking_complete _ _ _⟩
  · intro r hr
    obtain ⟨h1, h2, h3⟩ := monthlyRanking_best _ _ _ r (hsub.subset hr)
    refine ⟨h1, h2, fun x hx hxw hxin => ⟨h3 x hx hxw hxin, fun hday => ?_⟩⟩
    cases hp : precedes r x
    · exact absurd (day_eq_of_tie x r (h3 x hx hxw hxin) hp) hday
    · rfl
  · have := List.length_take_le k.toNat (monthlyRanking db.scores start stop)
    omega

/-- C14 on a table of three wallets, month `2026-02` and limit 2: the answer is
the best February rows of the two leading wallets, the faster run first. -/
theorem top_monthly_ranking_witness :
    getMonthRange (topMonth "2026-11" ⟨some "2026-02", some (some 2)⟩)
        = some ("2026-02-01", "2026-03-01")
      ∧ top rankingDb "2026-11" ⟨some "2026-02", some (some 2)⟩
        = .ok "2026-02" [⟨"0xcc", "2026-02-28", 4410, 55, 280⟩, ⟨"0xbb", "2026-02-10", 4410, 55, 300⟩]
      ∧ ∃ result,
        top rankingDb "2026-11" ⟨some "2026-02", some (some 2)⟩
          = .ok (topMonth "2026-11" ⟨some "2026-02", some (some 2)⟩) result
        ∧ (result.map (fun r => r.wallet)).Nodup
        ∧ result.Pairwise (fun a b => precedes b a = false)
        ∧ (result.length : Int) ≤ 2 :=
  ⟨by decide, by decide,
    (top_monthly_ranking rankingDb "2026-11" ⟨some "2026-02", some (some 2)⟩ "2026-02-01"
      "2026-03-01" 2 (by decide) rfl (by decide) (by decide)).imp
      (fun _ h => ⟨h.1, h.2.1, h.2.2.2.1, h.2.2.2.2.1⟩)⟩

/-- An honest submission with the score of the specification's formula is
accepted wherever the code computes that formula: in mode `easy`, and in mode
`normal` when `timeSeconds + 2 * moves ≤ 2147488468`, the range in which
`raw` stays within 32 bits. -/
theorem honest_submission_accepted_of_spec (env : Env) (clk : Clock) (db : DB) (req : Request)
    (body : SubmitBody) (row : NonceRow)
    (hb : req.body = some body) (hwf : WellFormed (extractRun body))
    (hmoves : 40 ≤ (extractRun body).moves) (htime : 30 ≤ (extractRun body).timeSeconds)
    (hrate : minTimeSpec (extractRun body).moves ≤ (extractRun body).timeSeconds)
    (hscore : (extractRun body).score = expectedScoreSpec (extractRun body).moves
      (extractRun body).timeSeconds (extractRun body).mode)
    (hrange : (extractRun body).mode = "easy"
      ∨ (extractRun body).timeSeconds + 2 * (extractRun body).moves ≤ 2147488468)
    (hsel : selectNonce db.auth_nonces (extractRun body).wallet (extractRun body).nonce
      = some row)
    (hscope : row.ip_hash = env.sha256Hex (getClientIP req.headers))
    (hunused : row.used_at_ms = none) (hexp : clk.nonce ≤ row.expires_at_ms)
    (hip : BelowLimit db.rate_limits clk.ipLimit ("ip:" ++ getClientIP req.headers) 30)
    (hwl : BelowLimit db.rate_limits clk.walletLimit
      ("wallet:" ++ (extractRun body).wallet) 10)
    (hsig : SignatureValid env (extractRun body)) :
    ∃ db' updated, submit env clk db req
      = (db', .accepted updated
          (match selectScore db.scores (extractRun body).wallet (extractRun body).day with
            | some old => max (extractRun body).score old.score
            | none => (extractRun body).score)
          (extractRun body).score) := by
  have hm : 0 ≤ (extractRun body).moves ∧ (extractRun body).moves ≤ 1000000000 :=
    clampInt_bounds body.moves
  have ht : 0 ≤ (extractRun body).timeSeconds ∧ (extractRun body).timeSeconds ≤ 1000000000 :=
    clampInt_bounds body.time_seconds
  have hcode : (extractRun body).score = computeExpectedWinningScore (extractRun body).moves
      (extractRun body).timeSeconds (extractRun body).mode := by
    rw [hscore]
    by_cases he : (extractRun body).mode = "easy"
    · rw [he]
      exact (computeExpectedWinningScore_easy hm.1 hm.2 ht.1 ht.2).symm
    · rcases hrange with h | h
      · exact absurd h he
      · exact (computeExpectedWinningScore_normal_of_no_wrap he hm.1 ht.1 h).symm
  have hgate : PassesGate (extractRun body) := by
    refine ⟨hmoves, htime, le_trans (minTimeForMoves_le_spec (by omega) ?_) hrate⟩
    exact hm.2
  have hv := validateSubmit_of hb hwf hgate hcode
  have hrl := applyRateLimits_of_below hip hwl
  rw [submit_accepted_of hv hrl hsel hscope hunused hexp hsig, acceptedResponse_best]
  exact ⟨_, _, rfl⟩

/-- C5 (the code diverges from the claim). The run `moves = timeSeconds =
1_000_000_000`, mode `normal`, with the score `0` that the formula of the claim
gives, meets every condition of the claim: identity, day, mode, nonce and
signature are well formed, `moves >= 40`, `timeSeconds >= 30`, `timeSeconds >=
floor(moves * 0.35)`, `score = expected_score`, the nonce record exists for
the origin, unconsumed and unexpired, both rate counters are below their
limits, and the signature recovers the identity over the message of the
server.  The handler answers 401 `Invalid score proof`, there and for every
environment, clock and database: its own score for this run is the wrapped
value `1294972116`. -/
theorem honest_submission_rejected_at_clamp_bound :
    WellFormed (extractRun marathonBody)
      ∧ 40 ≤ (extractRun marathonBody).moves ∧ 30 ≤ (extractRun marathonBody).timeSeconds
      ∧ minTimeSpec (extractRun marathonBody).moves ≤ (extractRun marathonBody).timeSeconds
      ∧ (extractRun marathonBody).score = expectedScoreSpec (extractRun marathonBody).moves
          (extractRun marathonBody).timeSeconds (extractRun marathonBody).mode
      ∧ selectNonce busyDb.auth_nonces (extractRun marathonBody).wallet
          (extractRun marathonBody).nonce
          = some ⟨demoWallet, demoNonce, "sha256(1.2.3.4)", 1771545900000, none⟩
      ∧ "sha256(1.2.3.4)"
          = (demoEnvFor marathonServerMsg).sha256Hex (getClientIP marathonReq.headers)
      ∧ demoClock.nonce ≤ 1771545900000
      ∧ BelowLimit busyDb.rate_limits demoClock.ipLimit
          ("ip:" ++ getClientIP marathonReq.headers) 30
      ∧ BelowLimit busyDb.rate_limits demoClock.walletLimit
          ("wallet:" ++ (extractRun marathonBody).wallet) 10
      ∧ SignatureValid (demoEnvFor marathonServerMsg) (extractRun marathonBody)
      ∧ submit (demoEnvFor marathonServerMsg) demoClock busyDb marathonReq
          = (busyDb, .error 401 "Invalid score proof")
      ∧ computeExpectedWinningScore (extractRun marathonBody).moves
          (extractRun marathonBody).timeSeconds (extractRun marathonBody).mode = 1294972116
      ∧ ∀ env clk db, submit env clk db marathonReq = (db, .error 401 "Invalid score proof") := by
  have hrej : ∀ env clk db,
      submit env clk db marathonReq = (db, .error 401 "Invalid score proof") := by
    intro env clk db
    exact rejected_of_score_mismatch rfl (by unfold WellFormed; decide)
      (by unfold PassesGate; decide) (by decide)
  have hmv : (extractRun marathonBody).moves = 1000000000 := by decide
  have htv : (extractRun marathonBody).timeSeconds = 1000000000 := by decide
  have hsv : (extractRun marathonBody).score = 0 := by decide
  have hmd : (extractRun marathonBody).mode = "normal" := by decide
  refine ⟨by unfold WellFormed; decide, by decide, by decide, ?_, ?_, by decide, by decide,
    by decide, ?_, ?_, ⟨demoAddress, by decide, by decide⟩, hrej _ _ _, by decide, hrej⟩
  · rw [hmv, htv, minTimeSpec_eq]
    decide
  · rw [hmv, htv, hsv, hmd, expectedScoreSpec_normal _ _ (by decide)]
    decide
  · intro r hr _
    have h : busyDb.rate_limits.find?
        (fun r => r.key = "ip:" ++ getClientIP marathonReq.headers)
        = some ⟨"ip:1.2.3.4", 1771545600000, 29⟩ := by decide
    rw [h] at hr
    cases hr
    decide
  · intro r hr _
    have h : busyDb.rate_limits.find?
        (fun r => r.key = "wallet:" ++ (extractRun marathonBody).wallet)
        = some ⟨"wallet:0x00000000000000000000000000000000000000a1", 1771545600000, 9⟩ := by
      decide
    rw [h] at hr
    cases hr
    decide
end NftSolitario
